import Mathlib

/-!
# AdoptedServer reconciliation and Management API synchronisation

A shallow embedding of the `sidero-controller-manager` adopted-server code:

* `pkg/managementapi/sync.go`   : `SyncService` and the endpoint helpers,
* `pkg/managementapi/client.go` : `Client` and `doRequest`,
* `controllers/adoptedserver_controller.go` : `AdoptedServerReconciler`.

Go strings are modelled by `String` (a list of Unicode code points).  The byte
offset that `for i, c := range s` yields for a rune is modelled by the index of
that rune in the list, so that `s[:i]` is `take i` and `s[i+1:]` is
`drop (i+1)` (the only rune the loops test for is the one-byte `':'`).
-/

namespace Sidero

/-! ## `fmt.Sscanf(str, "%d", &port)` -/

/-- The constant `hugeWid = 1 << 30` of package `fmt`: a scan reads at most this many runes. -/
def hugeWid : Nat := 2 ^ 30

/-- The `isSpace` table of package `fmt` (`scan.go`). -/
def isSpace (r : Char) : Bool :=
  let n := r.toNat
  (0x0009 ≤ n && n ≤ 0x000d) || n == 0x0020 || n == 0x0085 || n == 0x00a0 ||
  n == 0x1680 || (0x2000 ≤ n && n ≤ 0x200a) || (0x2028 ≤ n && n ≤ 0x2029) ||
  n == 0x202f || n == 0x205f || n == 0x3000

/-- The method `(*ss).SkipSpace` in the mode of `Sscanf` (`nlIsSpace = false`): spaces are
consumed, a newline is the error "unexpected newline" (`none`), and a carriage return that
is followed by a newline is consumed like a space (the newline is then read and is the error). -/
def SkipSpace : List Char → Option (List Char)
  | [] => some []
  | r :: rest =>
    if r = '\r' ∧ rest.head? = some '\n' then SkipSpace rest
    else if r = '\n' then none
    else if isSpace r then SkipSpace rest
    else some (r :: rest)

/-- The decimal digits accepted by `scanNumber` for the verb `d`. -/
def isDecimalDigit (r : Char) : Bool := '0' ≤ r && r ≤ '9'

/-- The value of a run of decimal digits. -/
def digitsValue (ds : List Char) : Nat :=
  ds.foldl (fun acc d => 10 * acc + (d.toNat - '0'.toNat)) 0

/-- The method `(*ss).scanInt` for the verb `d` and 64-bit `int`: skip space, fail at the
end of the input, accept one sign, read the digits (`scanNumber` fails when there is none),
and convert with `strconv.ParseInt(tok, 10, 64)`, which fails outside the `int64` range.
`none` is a scan error. -/
def scanInt (input : List Char) : Option Int :=
  match SkipSpace input with
  | none => none
  | some [] => none
  | some (c :: rest) =>
    let neg := decide (c = '-')
    let afterSign := if c = '+' ∨ c = '-' then rest else c :: rest
    let tok := afterSign.takeWhile isDecimalDigit
    if tok = [] then none
    else
      let v : Int := if neg then -(digitsValue tok : Int) else (digitsValue tok : Int)
      if -(2 : Int) ^ 63 ≤ v ∧ v < (2 : Int) ^ 63 then some v else none

/-- The call `var port int; fmt.Sscanf(str, "%d", &port)` followed by reading `port`: the
scanned integer, or the zero value `0` that `port` keeps when the scan fails.  `doScanf`
skips space before the verb, and the scanner sees at most `hugeWid` runes of the input. -/
def Sscanf_d (str : List Char) : Int :=
  match SkipSpace (str.take hugeWid) with
  | none => 0
  | some s =>
    match scanInt s with
    | none => 0
    | some v => v

/-! ## Endpoint helpers (`sync.go`) -/

/-- The loop of `extractIPFromEndpoint`: `rest` is the part of `endpoint` still to range
over and `i` the offset of its first rune. -/
def extractIPLoop (endpoint : List Char) : Nat → List Char → List Char
  | _, [] => endpoint
  | i, c :: rest =>
    if c = ':' then endpoint.take i else extractIPLoop endpoint (i + 1) rest

/-- The function `extractIPFromEndpoint` of `sync.go`. -/
def extractIPFromEndpoint (endpoint : String) : String :=
  String.mk (extractIPLoop endpoint.data 0 endpoint.data)

/-- The loop of `extractPortFromEndpoint`: at every `':'` the text after it is scanned into
a fresh `port`; the loop returns it when `port > 0 && port <= 65535` and goes on to the
next rune otherwise; `50000` is returned when the loop ends. -/
def extractPortLoop (endpoint : List Char) : Nat → List Char → Int
  | _, [] => 50000
  | i, c :: rest =>
    if c = ':' then
      let portStr := endpoint.drop (i + 1)
      let port := Sscanf_d portStr
      if port > 0 ∧ port ≤ 65535 then port else extractPortLoop endpoint (i + 1) rest
    else extractPortLoop endpoint (i + 1) rest

/-- The function `extractPortFromEndpoint` of `sync.go`. -/
def extractPortFromEndpoint (endpoint : String) : Int :=
  extractPortLoop endpoint.data 0 endpoint.data

/-! ## API types (`api/v1alpha2/adoptedserver_types.go`) -/

/-- A `metav1.Time`: an instant counted from the zero time, so that `IsZero` is `= 0`.
A `*metav1.Time` is an `Option Time`. -/
abbrev Time := Nat

/-- The method `(*metav1.Time).IsZero`: a nil pointer and a pointer to the zero time are zero. -/
def Time.IsZero : Option Time → Bool
  | none => true
  | some t => t == 0

/-- A `corev1.SecretReference`. -/
structure SecretReference where
  Name : String
  Namespace : String
deriving DecidableEq, Repr

/-- The struct `ManagementAPIConfig`. -/
structure ManagementAPIConfig where
  Enabled : Bool
  Endpoint : String
  ClusterName : String
  ClusterID : String
  SecretRef : Option SecretReference
deriving DecidableEq, Repr

/-- The struct `SideroLinkConfig`. -/
structure SideroLinkConfig where
  Enabled : Bool
  Address : String
  PublicKey : String
deriving DecidableEq, Repr

/-- The struct `TalosConfig`. -/
structure TalosConfig where
  Endpoint : String
  TalosVersion : String
  KubernetesVersion : String
  NodeType : String
  Hostname : String
deriving DecidableEq, Repr

/-- A Go `map[string]string`, as an association list (a nil map is the empty list). -/
abbrev StringMap := List (String × String)

/-- The struct `AdoptedServerSpec`. -/
structure AdoptedServerSpec where
  Talos : TalosConfig
  ManagementAPI : Option ManagementAPIConfig
  SideroLink : Option SideroLinkConfig
  Accepted : Bool
  Labels : StringMap
  Annotations : StringMap
deriving DecidableEq, Repr

/-- A `clusterv1.Condition`; `Type` (here `Type_`), `Status` and `Severity` are string
types in Go. -/
structure Condition where
  Type_ : String
  Status : String
  Severity : String
  LastTransitionTime : Time
  Reason : String
  Message : String
deriving DecidableEq, Repr

/-- The constant `metalv1.ConditionConnected`. -/
def ConditionConnected : String := "Connected"
/-- The constant `metalv1.ConditionAdopted`. -/
def ConditionAdopted : String := "Adopted"
/-- The constant `metalv1.ConditionSideroLinkReady`. -/
def ConditionSideroLinkReady : String := "SideroLinkReady"
/-- The constant `metalv1.ConditionManagementAPISync`. -/
def ConditionManagementAPISync : String := "ManagementAPISync"
/-- The constant `clusterv1.ReadyCondition`. -/
def ReadyCondition : String := "Ready"
/-- The constant `corev1.ConditionTrue`. -/
def ConditionTrue : String := "True"
/-- The constant `corev1.ConditionFalse`. -/
def ConditionFalse : String := "False"
/-- The constant `clusterv1.ConditionSeverityError`. -/
def ConditionSeverityError : String := "Error"
/-- The constant `clusterv1.ConditionSeverityWarning`. -/
def ConditionSeverityWarning : String := "Warning"
/-- The constant `clusterv1.ConditionSeverityInfo`. -/
def ConditionSeverityInfo : String := "Info"
/-- The constant `clusterv1.ConditionSeverityNone`. -/
def ConditionSeverityNone : String := ""

/-- A `corev1.NodeAddress` (its field `Type` is `Type_` here). -/
structure NodeAddress where
  Type_ : String
  Address : String
deriving DecidableEq, Repr

/-- The struct `HealthStatus`. -/
structure HealthStatus where
  Status : String
  LastCheckTime : Option Time
  Message : String
deriving DecidableEq, Repr

/-- The struct `ManagementAPIStatus`; its zero value is `{}`. -/
structure ManagementAPIStatus where
  Synced : Bool := false
  LastSyncTime : Option Time := none
  Error : String := ""
deriving DecidableEq, Repr

/-- The struct `SideroLinkStatus`. -/
structure SideroLinkStatus where
  Connected : Bool
  LastEventTime : Option Time
  EventsReceived : Int
  LogsReceived : Int
deriving DecidableEq, Repr

/-- The struct `NodeInfo`; its zero value has empty strings. -/
structure NodeInfo where
  Architecture : String := ""
  OperatingSystem : String := ""
  MachineID : String := ""
  KernelVersion : String := ""
  ClusterName : String := ""
deriving DecidableEq, Repr

/-- The struct `AdoptedServerStatus`. -/
structure AdoptedServerStatus where
  Ready : Bool
  Connected : Bool
  LastContactTime : Option Time
  Conditions : List Condition
  Addresses : List NodeAddress
  Health : Option HealthStatus
  ManagementAPIStatus : Option ManagementAPIStatus
  SideroLinkStatus : Option SideroLinkStatus
  NodeInfo : Option NodeInfo
deriving DecidableEq, Repr

/-- The struct `AdoptedServer`, with the fields of its `ObjectMeta` that the code reads. -/
structure AdoptedServer where
  Name : String
  DeletionTimestamp : Option Time
  Finalizers : List String
  Spec : AdoptedServerSpec
  Status : AdoptedServerStatus
deriving DecidableEq, Repr

/-- The method `GetConditions`. -/
def AdoptedServer.GetConditions (as : AdoptedServer) : List Condition := as.Status.Conditions

/-- The method `SetConditions`. -/
def AdoptedServer.SetConditions (as : AdoptedServer) (conditions : List Condition) :
    AdoptedServer :=
  { as with Status := { as.Status with Conditions := conditions } }

/-! ## Conditions (`sigs.k8s.io/cluster-api/util/conditions`) and finalizers
(`controllerutil`): library code the controller calls -/

namespace conditions

/-- The function `conditions.Get`: the first condition of the given type. -/
def Get (from_ : AdoptedServer) (t : String) : Option Condition :=
  from_.GetConditions.find? (fun condition => condition.Type_ == t)

/-- The function `conditions.HasSameState`. -/
def HasSameState (i j : Condition) : Bool :=
  i.Type_ == j.Type_ && i.Status == j.Status && i.Reason == j.Reason &&
  i.Severity == j.Severity && i.Message == j.Message

/-- The function `lexicographicLess`: `Ready` first, then by type.  Go orders strings byte
by byte, which on UTF-8 text is the lexicographic order of the characters. -/
def lexicographicLess (i j : Condition) : Bool :=
  (i.Type_ == ReadyCondition || decide (i.Type_.data < j.Type_.data)) &&
    j.Type_ != ReadyCondition

/-- The call `sort.Slice(conditions, lexicographicLess)`, as the stable insertion sort.
`sort.Slice` is not stable: among entries of one type the order it leaves depends on its
algorithm (insertion sort up to 12 elements, pattern-defeating quicksort above).  On a list
with at most one entry per type only one arrangement is in the order of
`lexicographicLess`, so there this definition is what `sort.Slice` returns whatever its
algorithm (`sortConditions_exact`); on a list with a type twice it is the stable result,
which longer slices need not have. -/
def sortConditions (cs : List Condition) : List Condition :=
  cs.insertionSort (fun a b => lexicographicLess b a = false)

/-- The loop of `conditions.Set` over the existing conditions: the first entry of the type
of `condition` is replaced by `condition`, stamped `now`, when its state differs, and is
kept otherwise.  The flag is the variable `exists`. -/
def setLoop (now : Time) (condition : Condition) : List Condition → List Condition × Bool
  | [] => ([], false)
  | existingCondition :: rest =>
    if existingCondition.Type_ = condition.Type_ then
      if !HasSameState existingCondition condition then
        ({ condition with LastTransitionTime := now } :: rest, true)
      else (existingCondition :: rest, true)
    else
      ((setLoop now condition rest).1.cons existingCondition, (setLoop now condition rest).2)

/-- The function `conditions.Set`; `now` is its reading of
`time.Now().UTC().Truncate(time.Second)`. -/
def Set (now : Time) (to_ : AdoptedServer) (condition : Condition) : AdoptedServer :=
  let looped := setLoop now condition to_.GetConditions
  let conditions :=
    if looped.2 then looped.1
    else looped.1 ++ [{ condition with
      LastTransitionTime :=
        if condition.LastTransitionTime = 0 then now else condition.LastTransitionTime }]
  to_.SetConditions (sortConditions conditions)

/-- The function `conditions.TrueCondition`. -/
def TrueCondition (t : String) : Condition :=
  { Type_ := t, Status := ConditionTrue, Severity := ConditionSeverityNone,
    LastTransitionTime := 0, Reason := "", Message := "" }

/-- The function `conditions.FalseCondition`; `message` is the result of
`fmt.Sprintf(messageFormat, messageArgs...)`. -/
def FalseCondition (t reason severity message : String) : Condition :=
  { Type_ := t, Status := ConditionFalse, Severity := severity,
    LastTransitionTime := 0, Reason := reason, Message := message }

/-- The function `conditions.MarkTrue`. -/
def MarkTrue (now : Time) (to_ : AdoptedServer) (t : String) : AdoptedServer :=
  Set now to_ (TrueCondition t)

/-- The function `conditions.MarkFalse`. -/
def MarkFalse (now : Time) (to_ : AdoptedServer) (t reason severity message : String) :
    AdoptedServer :=
  Set now to_ (FalseCondition t reason severity message)

/-- The function `conditions.Delete`. -/
def Delete (to_ : AdoptedServer) (t : String) : AdoptedServer :=
  to_.SetConditions (to_.GetConditions.filter (fun condition => condition.Type_ != t))

end conditions

/-- The constant `adoptedServerFinalizer`. -/
def adoptedServerFinalizer : String := "metal.sidero.dev/adopted-server"

/-- The function `controllerutil.ContainsFinalizer`. -/
def ContainsFinalizer (o : AdoptedServer) (finalizer : String) : Bool :=
  o.Finalizers.contains finalizer

/-- The function `controllerutil.AddFinalizer`. -/
def AddFinalizer (o : AdoptedServer) (finalizer : String) : AdoptedServer :=
  if o.Finalizers.contains finalizer then o
  else { o with Finalizers := o.Finalizers ++ [finalizer] }

/-- The function `controllerutil.RemoveFinalizer`: every occurrence is removed. -/
def RemoveFinalizer (o : AdoptedServer) (finalizer : String) : AdoptedServer :=
  { o with Finalizers := o.Finalizers.filter (fun f => f != finalizer) }

/-! ## Management API wire types (`pkg/managementapi/types.go`) -/

/-- The struct `ClusterRegisterRequest`. -/
structure ClusterRegisterRequest where
  Name : String
  Location : String
  EndpointIP : String
  EndpointPort : Int
  TalosVersion : String
  KubernetesVersion : String
  Labels : StringMap
  Managed : Bool
deriving DecidableEq, Repr

/-- The struct `ClusterRegisterResponse`. -/
structure ClusterRegisterResponse where
  ClusterID : String
  Name : String
  Status : String
  Message : String
deriving DecidableEq, Repr

/-- The struct `NodeRegisterRequest`; `MachineConfigPath` has its zero value `""` when the
literal does not set it. -/
structure NodeRegisterRequest where
  ClusterID : String
  Hostname : String
  IPAddress : String
  NodeType : String
  TalosVersion : String
  KubernetesVersion : String
  MachineConfigPath : String := ""
deriving DecidableEq, Repr

/-- The struct `NodeRegisterResponse`. -/
structure NodeRegisterResponse where
  NodeID : String
  ClusterID : String
  Hostname : String
  Status : String
  Message : String
deriving DecidableEq, Repr

/-- The struct `StatusUpdateRequest`; `LastContact` is a `time.Time`, zero until set. -/
structure StatusUpdateRequest where
  Status : String
  Health : String
  Addresses : List String
  LastContact : Time := 0
  Metadata : StringMap
deriving DecidableEq, Repr

/-- The struct `StatusUpdateResponse`. -/
structure StatusUpdateResponse where
  Success : Bool
  Message : String
deriving DecidableEq, Repr

/-- The struct `HealthCheckResponse`. -/
structure HealthCheckResponse where
  Status : String
  AppName : String
  Version : String
  Timestamp : String
deriving DecidableEq, Repr

/-- The struct `ErrorResponse`. -/
structure ErrorResponse where
  Detail : String
  Error : String
  Code : Int
deriving DecidableEq, Repr

/-! ## The world outside the process: requests, notifications, store calls -/

/-- The HTTP methods the client uses. -/
inductive Method where
  | GET
  | POST
  | PATCH
deriving DecidableEq, Repr

/-- The `body` argument of `doRequest`. -/
inductive RequestBody where
  | clusterRegister (req : ClusterRegisterRequest)
  | statusUpdate (req : StatusUpdateRequest)
  | nodeRegister (req : NodeRegisterRequest)
deriving DecidableEq, Repr

/-- One call of `doRequest`: the method, the path below the base URL and the body. -/
structure Request where
  method : Method
  path : String
  body : Option RequestBody
deriving DecidableEq, Repr

/-- What the outside world answers to one call of `doRequest`: the step of `doRequest`
that fails, with the text of its error, or the status code and body of the response. -/
inductive Outcome where
  | marshalFailed (err : String)
  | createFailed (err : String)
  | executeFailed (err : String)
  | readFailed (err : String)
  | response (StatusCode : Int) (respBody : String)
deriving DecidableEq, Repr

/-- The observable actions of the controller, in the order they happen. -/
inductive Effect where
  /-- The call `doRequest(ctx, method, path, body, _)` was made. -/
  | request (r : Request)
  /-- The call `r.Recorder.Event(asRef, eventtype, reason, message)`. -/
  | event (eventtype reason message : String)
  /-- The call `patchHelper.Patch(ctx, as)` that persists the added finalizer. -/
  | patch (as : AdoptedServer)
  /-- The call `r.Client.Update(ctx, as)` of the delete path. -/
  | update (as : AdoptedServer)
  /-- The deferred `patchHelper.Patch(ctx, as, patch.WithOwnedConditions ...)`. -/
  | deferredPatch (as : AdoptedServer)
  /-- The call `r.checkTalosConnectivity(ctx, as)` and what it returned. -/
  | checkTalosConnectivity (connected : Bool) (err : Option String)
  | gatherNodeInfo
  | performHealthCheck
  | setupSideroLink
  | syncWithManagementAPI
  | unregisterFromManagementAPI
  | teardownSideroLink
deriving DecidableEq, Repr

/-- The state threaded through the code: the state `remote` of the registry (and of the
network in front of it) and the trace of effects so far. -/
structure World (W : Type) where
  remote : W
  trace : List Effect

/-- The method `Recorder.Event`. -/
def World.Event {W : Type} (σ : World W) (eventtype reason message : String) : World W :=
  { σ with trace := σ.trace ++ [Effect.event eventtype reason message] }

/-- Append one effect to the trace. -/
def World.log {W : Type} (σ : World W) (e : Effect) : World W :=
  { σ with trace := σ.trace ++ [e] }

/-! ## The client (`pkg/managementapi/client.go`) -/

/-- The struct `Client`; `timeout` is `httpClient.Timeout`, in nanoseconds. -/
structure Client where
  baseURL : String
  timeout : Nat
  apiKey : String
deriving DecidableEq, Repr

/-- The constant `defaultTimeout = 30 * time.Second`, in nanoseconds. -/
def defaultTimeout : Nat := 30 * 1000000000

/-- The constant `defaultAPIVersion`. -/
def defaultAPIVersion : String := "v1"

/-- The fields of a parsed `url.URL` that the client reads. -/
structure URL where
  Scheme : String
deriving DecidableEq, Repr

/-- The Go standard library and the network as the client sees them: `url.Parse`, the
answer to each call of `doRequest` (which may depend on, and change, the state of the
registry), and `json.Unmarshal` into each response type. -/
structure Remote (W : Type) where
  urlParse : String → Except String URL
  roundTrip : W → Client → Request → Outcome × W
  unmarshalErrorResponse : String → Except String ErrorResponse
  unmarshalHealthCheckResponse : String → Except String HealthCheckResponse
  unmarshalClusterRegisterResponse : String → Except String ClusterRegisterResponse
  unmarshalStatusUpdateResponse : String → Except String StatusUpdateResponse
  unmarshalNodeRegisterResponse : String → Except String NodeRegisterResponse

/-- A `ClientOption`. -/
abbrev ClientOption := Client → Client

/-- The function `WithTimeout`. -/
def WithTimeout (timeout : Nat) : ClientOption := fun c => { c with timeout := timeout }

/-- The function `WithAPIKey`. -/
def WithAPIKey (apiKey : String) : ClientOption := fun c => { c with apiKey := apiKey }

/-- The function `NewClient`. -/
def NewClient {W : Type} (R : Remote W) (baseURL : String) (opts : List ClientOption) :
    Except String Client :=
  match R.urlParse baseURL with
  | .error err => .error ("invalid base URL: " ++ err)
  | .ok u =>
    if u.Scheme ≠ "http" ∧ u.Scheme ≠ "https" then
      .error ("invalid URL scheme: " ++ u.Scheme ++ " (must be http or https)")
    else
      .ok (opts.foldl (fun client opt => opt client)
        { baseURL := baseURL, timeout := defaultTimeout, apiKey := "" })

/-- The method `doRequest`, called with a non-nil `response` of type `ρ` (as every caller
does): the call is recorded, the world answers it, and the answer is turned into the
result as the code does. -/
def doRequest {W ρ : Type} (R : Remote W) (c : Client) (method : Method) (path : String)
    (body : Option RequestBody) (unmarshal : String → Except String ρ) (σ : World W) :
    Except String ρ × World W :=
  let req : Request := { method := method, path := path, body := body }
  let answer := R.roundTrip σ.remote c req
  let σ1 : World W := { remote := answer.2, trace := σ.trace ++ [Effect.request req] }
  match answer.1 with
  | .marshalFailed err => (.error ("failed to marshal request body: " ++ err), σ1)
  | .createFailed err => (.error ("failed to create HTTP request: " ++ err), σ1)
  | .executeFailed err => (.error ("failed to execute HTTP request: " ++ err), σ1)
  | .readFailed err => (.error ("failed to read response body: " ++ err), σ1)
  | .response StatusCode respBody =>
    if StatusCode < 200 ∨ StatusCode ≥ 300 then
      match R.unmarshalErrorResponse respBody with
      | .error _ =>
        (.error ("API request failed with status " ++ toString StatusCode ++ ": " ++ respBody),
          σ1)
      | .ok errResp =>
        (.error ("API error (status " ++ toString StatusCode ++ "): " ++ errResp.Detail), σ1)
    else
      match unmarshal respBody with
      | .error err => (.error ("failed to unmarshal response: " ++ err), σ1)
      | .ok response => (.ok response, σ1)

/-- The path of `RegisterCluster`: `/api/v1/clusters`. -/
def clustersPath : String := "/api/" ++ defaultAPIVersion ++ "/clusters"

/-- The path of `UpdateClusterStatus`: `/api/v1/clusters/{id}/status`. -/
def clusterStatusPath (clusterID : String) : String :=
  "/api/" ++ defaultAPIVersion ++ "/clusters/" ++ clusterID ++ "/status"

/-- The path of `RegisterNode`: `/api/v1/nodes`. -/
def nodesPath : String := "/api/" ++ defaultAPIVersion ++ "/nodes"

/-- The method `Client.HealthCheck`. -/
def Client.HealthCheck {W : Type} (R : Remote W) (c : Client) (σ : World W) :
    Except String HealthCheckResponse × World W :=
  doRequest R c Method.GET "/health" none R.unmarshalHealthCheckResponse σ

/-- The method `Client.RegisterCluster`. -/
def Client.RegisterCluster {W : Type} (R : Remote W) (c : Client)
    (req : ClusterRegisterRequest) (σ : World W) :
    Except String ClusterRegisterResponse × World W :=
  doRequest R c Method.POST clustersPath (some (RequestBody.clusterRegister req))
    R.unmarshalClusterRegisterResponse σ

/-- The method `Client.UpdateClusterStatus`. -/
def Client.UpdateClusterStatus {W : Type} (R : Remote W) (c : Client) (clusterID : String)
    (req : StatusUpdateRequest) (σ : World W) :
    Except String StatusUpdateResponse × World W :=
  doRequest R c Method.PATCH (clusterStatusPath clusterID)
    (some (RequestBody.statusUpdate req)) R.unmarshalStatusUpdateResponse σ

/-- The method `Client.RegisterNode`. -/
def Client.RegisterNode {W : Type} (R : Remote W) (c : Client) (req : NodeRegisterRequest)
    (σ : World W) : Except String NodeRegisterResponse × World W :=
  doRequest R c Method.POST nodesPath (some (RequestBody.nodeRegister req))
    R.unmarshalNodeRegisterResponse σ

/-! ## The synchronisation service (`pkg/managementapi/sync.go`)

Where the Go code dereferences `as.Spec.ManagementAPI` after its caller has checked that the
pointer is not nil, the functions below take the pointed-to value as the argument `cfg`. -/

/-- The struct `SyncService` (its logger has no effect on the result). -/
structure SyncService where
  client : Client
deriving DecidableEq, Repr

/-- The function `NewSyncService`. -/
def NewSyncService (client : Client) : SyncService := { client := client }

/-- The function `getLocationFromLabels`. -/
def getLocationFromLabels (as : AdoptedServer) : String :=
  match as.Spec.Labels.lookup "location" with
  | some location => location
  | none => "unknown"

/-- The request built by `registerCluster`. -/
def clusterRegisterRequest (as : AdoptedServer) (cfg : ManagementAPIConfig) :
    ClusterRegisterRequest :=
  { Name := cfg.ClusterName
    Location := getLocationFromLabels as
    EndpointIP := extractIPFromEndpoint as.Spec.Talos.Endpoint
    EndpointPort := extractPortFromEndpoint as.Spec.Talos.Endpoint
    TalosVersion := as.Spec.Talos.TalosVersion
    KubernetesVersion := as.Spec.Talos.KubernetesVersion
    Labels := as.Spec.Labels
    Managed := true }

/-- The method `SyncService.registerCluster`. -/
def SyncService.registerCluster {W : Type} (R : Remote W) (s : SyncService)
    (as : AdoptedServer) (cfg : ManagementAPIConfig) (σ : World W) :
    Except String ClusterRegisterResponse × World W :=
  s.client.RegisterCluster R (clusterRegisterRequest as cfg) σ

/-- The request built by `updateClusterStatus`. -/
def statusUpdateRequest (as : AdoptedServer) : StatusUpdateRequest :=
  let status := if as.Status.Connected then "active" else "unknown"
  let health :=
    match as.Status.Health with
    | some h => h.Status
    | none => "unknown"
  let addresses := as.Status.Addresses.foldl (fun acc addr => acc ++ [addr.Address]) []
  let req : StatusUpdateRequest :=
    { Status := status
      Health := health
      Addresses := addresses
      Metadata :=
        [("talos_version", as.Spec.Talos.TalosVersion),
         ("kubernetes_version", as.Spec.Talos.KubernetesVersion),
         ("node_type", as.Spec.Talos.NodeType)] }
  match as.Status.LastContactTime with
  | some t => { req with LastContact := t }
  | none => req

/-- The method `SyncService.updateClusterStatus`: the error of the call, if any. -/
def SyncService.updateClusterStatus {W : Type} (R : Remote W) (s : SyncService)
    (as : AdoptedServer) (clusterID : String) (σ : World W) : Option String × World W :=
  match s.client.UpdateClusterStatus R clusterID (statusUpdateRequest as) σ with
  | (.error err, σ1) => (some err, σ1)
  | (.ok _, σ1) => (none, σ1)

/-- The request built by `registerOrUpdateNode`. -/
def nodeRegisterRequest (as : AdoptedServer) (clusterID : String) : NodeRegisterRequest :=
  let hostname := if as.Spec.Talos.Hostname = "" then as.Name else as.Spec.Talos.Hostname
  let ipAddress := extractIPFromEndpoint as.Spec.Talos.Endpoint
  { ClusterID := clusterID
    Hostname := hostname
    IPAddress := ipAddress
    NodeType := as.Spec.Talos.NodeType
    TalosVersion := as.Spec.Talos.TalosVersion
    KubernetesVersion := as.Spec.Talos.KubernetesVersion }

/-- The method `SyncService.registerOrUpdateNode`: the error of the call, if any. -/
def SyncService.registerOrUpdateNode {W : Type} (R : Remote W) (s : SyncService)
    (as : AdoptedServer) (clusterID : String) (σ : World W) : Option String × World W :=
  match s.client.RegisterNode R (nodeRegisterRequest as clusterID) σ with
  | (.error err, σ1) => (some err, σ1)
  | (.ok _, σ1) => (none, σ1)

/-- Step 2 of `SyncAdoptedServer`: the node call and the return value. -/
def SyncService.syncNode {W : Type} (R : Remote W) (s : SyncService) (as : AdoptedServer)
    (clusterID : String) (σ : World W) : Option String × AdoptedServer × World W :=
  match s.registerOrUpdateNode R as clusterID σ with
  | (some err, σ1) => (some ("failed to register/update node: " ++ err), as, σ1)
  | (none, σ1) => (none, as, σ1)

/-- The method `SyncService.SyncAdoptedServer`: the returned error (`none` is `nil`), the
resource as the call leaves it (the code writes `Spec.ManagementAPI.ClusterID` through the
pointer), and the world. -/
def SyncService.SyncAdoptedServer {W : Type} (R : Remote W) (s : SyncService)
    (as : AdoptedServer) (σ : World W) : Option String × AdoptedServer × World W :=
  match as.Spec.ManagementAPI with
  | none => (some ("Management API integration not enabled for AdoptedServer " ++ as.Name), as, σ)
  | some cfg =>
    if !cfg.Enabled then
      (some ("Management API integration not enabled for AdoptedServer " ++ as.Name), as, σ)
    else
      let clusterID := cfg.ClusterID
      if clusterID = "" then
        match s.registerCluster R as cfg σ with
        | (.error err, σ1) => (some ("failed to register cluster: " ++ err), as, σ1)
        | (.ok resp, σ1) =>
          let clusterID := resp.ClusterID
          let as1 : AdoptedServer :=
            { as with Spec := { as.Spec with
                ManagementAPI := some { cfg with ClusterID := clusterID } } }
          s.syncNode R as1 clusterID σ1
      else
        match s.updateClusterStatus R as clusterID σ with
        | (some err, σ1) => (some ("failed to update cluster status: " ++ err), as, σ1)
        | (none, σ1) => s.syncNode R as clusterID σ1

/-- The method `SyncService.UnregisterAdoptedServer`: it only logs and returns `nil`. -/
def SyncService.UnregisterAdoptedServer {W : Type} (_s : SyncService) (_as : AdoptedServer)
    (σ : World W) : Option String × World W :=
  (none, σ)

/-- The function `addressesToStrings`. -/
def addressesToStrings (addresses : List NodeAddress) : List String :=
  addresses.foldl (fun result addr => result ++ [addr.Address]) []

/-! ## The controller (`controllers/adoptedserver_controller.go`) -/

/-- A `ctrl.Result`; `RequeueAfter` is a `time.Duration`, in nanoseconds. -/
structure Result where
  Requeue : Bool := false
  RequeueAfter : Nat := 0
deriving DecidableEq, Repr

/-- The constant `healthCheckInterval = 30 * time.Second`. -/
def healthCheckInterval : Nat := 30 * 1000000000

/-- The constant `syncInterval = 5 * time.Minute`. -/
def syncInterval : Nat := 5 * 60 * 1000000000

/-- The constant `corev1.EventTypeWarning`. -/
def EventTypeWarning : String := "Warning"
/-- The constant `corev1.EventTypeNormal`. -/
def EventTypeNormal : String := "Normal"

/-- The readings of the clock in one invocation, one per place of the code that reads it:
the transition time of each condition update (`time.Now()` inside `conditions.Set`) and the
three `metav1.Now()` calls. -/
structure Clock where
  adopted : Time
  connected : Time
  lastContact : Time
  healthCheck : Time
  sideroLink : Time
  managementAPISync : Time
  lastSync : Time

/-- The result of `r.APIReader.Get`. -/
inductive GetResult where
  | found (as : AdoptedServer)
  | notFound
  | failed (err : String)

/-- The libraries around the reconciler, as one invocation sees them: the resource store
(`APIReader.Get`, `patch.NewHelper`, `patchHelper.Patch`, `Client.Update`, each with the
error it returns, `none` for `nil`), `reference.GetReference`, the constant
`constants.DefaultRequeueAfter` (declared in package `constants`, taken as a parameter),
`fmt.Sprintf(format)` without operands, and the clock. -/
structure Platform where
  Get : String → GetResult
  NewHelper : AdoptedServer → Option String
  GetReference : AdoptedServer → Option String
  Patch : AdoptedServer → Option String
  Update : AdoptedServer → Option String
  DefaultRequeueAfter : Nat
  Sprintf : String → String
  clock : Clock

/-- The integration points that the source leaves as placeholders.  Each returns what it
writes to the resource (the fields its comments name) and its error:
`checkTalosConnectivity` the pair `(connected, err)`; `gatherNodeInfo` the new
`Status.NodeInfo` and `Status.Addresses`; `performHealthCheck` the new `Status.Health`;
`setupSideroLink` the new `Spec.SideroLink` and `Status.SideroLinkStatus`. -/
structure Hooks where
  checkTalosConnectivity : AdoptedServer → Bool × Option String
  gatherNodeInfo : AdoptedServer → Option NodeInfo × List NodeAddress × Option String
  performHealthCheck : AdoptedServer → Option HealthStatus × Option String
  setupSideroLink :
    AdoptedServer → Option SideroLinkConfig × Option SideroLinkStatus × Option String
  teardownSideroLink : AdoptedServer → Option String

namespace AdoptedServerReconciler

/-- The placeholder `checkTalosConnectivity` of the source: `return true, nil`. -/
def checkTalosConnectivity (_as : AdoptedServer) : Bool × Option String := (true, none)

/-- The placeholder `gatherNodeInfo` of the source. -/
def gatherNodeInfo (as : AdoptedServer) : Option NodeInfo × List NodeAddress × Option String :=
  (match as.Status.NodeInfo with
   | none => some { OperatingSystem := "talos" }
   | some info => some info,
   as.Status.Addresses, none)

/-- The placeholder `performHealthCheck` of the source; `now` is its `metav1.Now()`. -/
def performHealthCheck (now : Time) (_as : AdoptedServer) : Option HealthStatus × Option String :=
  (some { Status := "healthy", LastCheckTime := some now, Message := "All systems operational" },
   none)

/-- The placeholder `setupSideroLink` of the source. -/
def setupSideroLink (as : AdoptedServer) :
    Option SideroLinkConfig × Option SideroLinkStatus × Option String :=
  (as.Spec.SideroLink, as.Status.SideroLinkStatus, none)

/-- The placeholder `teardownSideroLink` of the source. -/
def teardownSideroLink (_as : AdoptedServer) : Option String := none

/-- The integration points as the source implements them. -/
def sourceHooks (clock : Clock) : Hooks :=
  { checkTalosConnectivity := checkTalosConnectivity
    gatherNodeInfo := gatherNodeInfo
    performHealthCheck := performHealthCheck clock.healthCheck
    setupSideroLink := setupSideroLink
    teardownSideroLink := teardownSideroLink }

/-- The method `syncWithManagementAPI`; `cfg` is `*as.Spec.ManagementAPI`. -/
def syncWithManagementAPI {W : Type} (R : Remote W) (as : AdoptedServer)
    (cfg : ManagementAPIConfig) (σ : World W) : Option String × AdoptedServer × World W :=
  match NewClient R cfg.Endpoint [] with
  | .error err => (some ("failed to create Management API client: " ++ err), as, σ)
  | .ok client =>
    match client.HealthCheck R σ with
    | (.error err, σ1) => (some ("failed to connect to Management API: " ++ err), as, σ1)
    | (.ok _, σ1) =>
      match (NewSyncService client).SyncAdoptedServer R as σ1 with
      | (some err, as1, σ2) =>
        (some ("failed to sync adopted server with Management API: " ++ err), as1, σ2)
      | (none, as1, σ2) => (none, as1, σ2)

/-- The method `unregisterFromManagementAPI`; `cfg` is `*as.Spec.ManagementAPI`. -/
def unregisterFromManagementAPI {W : Type} (R : Remote W) (as : AdoptedServer)
    (cfg : ManagementAPIConfig) (σ : World W) : Option String × World W :=
  match NewClient R cfg.Endpoint [] with
  | .error err => (some err, σ)
  | .ok client =>
    match (NewSyncService client).UnregisterAdoptedServer as σ with
    | (some err, σ1) => (some err, σ1)
    | (none, σ1) => (none, σ1)

/-- What a reconcile function returns: the `ctrl.Result`, the error (`none` is `nil`), the
resource as the function leaves it in memory, and the world. -/
structure Return (W : Type) where
  result : Result
  err : Option String
  as : AdoptedServer
  world : World W

/-- Step 2 of `reconcileNormal`: gather node information; its error is only logged. -/
def stepGatherNodeInfo {W : Type} (H : Hooks) (as : AdoptedServer) (σ : World W) :
    AdoptedServer × World W :=
  let gathered := H.gatherNodeInfo as
  ({ as with Status := { as.Status with
      NodeInfo := gathered.1, Addresses := gathered.2.1 } },
   σ.log Effect.gatherNodeInfo)

/-- Step 3 of `reconcileNormal`: the health check; its error is only logged. -/
def stepHealthCheck {W : Type} (H : Hooks) (as : AdoptedServer) (σ : World W) :
    AdoptedServer × World W :=
  let checked := H.performHealthCheck as
  ({ as with Status := { as.Status with Health := checked.1 } },
   σ.log Effect.performHealthCheck)

/-- Step 4 of `reconcileNormal`: set up SideroLink if enabled, else delete the condition. -/
def stepSideroLink {W : Type} (P : Platform) (H : Hooks) (as : AdoptedServer) (σ : World W) :
    AdoptedServer × World W :=
  match as.Spec.SideroLink with
  | some link =>
    if link.Enabled then
      let setup := H.setupSideroLink as
      let as1 : AdoptedServer :=
        { as with
          Spec := { as.Spec with SideroLink := setup.1 }
          Status := { as.Status with SideroLinkStatus := setup.2.1 } }
      let σ1 := σ.log Effect.setupSideroLink
      match setup.2.2 with
      | some err =>
        (conditions.MarkFalse P.clock.sideroLink as1 ConditionSideroLinkReady "SetupFailed"
            ConditionSeverityWarning (P.Sprintf err),
         σ1.Event EventTypeWarning "SideroLinkSetupFailed"
            ("Failed to setup SideroLink: " ++ err))
      | none => (conditions.MarkTrue P.clock.sideroLink as1 ConditionSideroLinkReady, σ1)
    else (conditions.Delete as ConditionSideroLinkReady, σ)
  | none => (conditions.Delete as ConditionSideroLinkReady, σ)

/-- The value of `as.Status.ManagementAPIStatus` after `if ... == nil { ... = &{} }`. -/
def ensureManagementAPIStatus (as : AdoptedServer) : ManagementAPIStatus :=
  match as.Status.ManagementAPIStatus with
  | none => {}
  | some st => st

/-- Step 5 of `reconcileNormal`: sync with the Management API if enabled, else delete the
condition. -/
def stepManagementAPI {W : Type} (P : Platform) (R : Remote W) (as : AdoptedServer)
    (σ : World W) : AdoptedServer × World W :=
  match as.Spec.ManagementAPI with
  | some cfg =>
    if cfg.Enabled then
      match syncWithManagementAPI R as cfg (σ.log Effect.syncWithManagementAPI) with
      | (some err, as1, σ1) =>
        let as2 := conditions.MarkFalse P.clock.managementAPISync as1
          ConditionManagementAPISync "SyncFailed" ConditionSeverityWarning (P.Sprintf err)
        let st := ensureManagementAPIStatus as2
        ({ as2 with Status := { as2.Status with
            ManagementAPIStatus := some { st with Synced := false, Error := err } } },
         σ1.Event EventTypeWarning "ManagementAPISyncFailed"
            ("Failed to sync with Management API: " ++ err))
      | (none, as1, σ1) =>
        let as2 := conditions.MarkTrue P.clock.managementAPISync as1 ConditionManagementAPISync
        let st := ensureManagementAPIStatus as2
        ({ as2 with Status := { as2.Status with
            ManagementAPIStatus :=
              some { st with Synced := true, Error := "", LastSyncTime := some P.clock.lastSync } } },
         σ1)
    else (conditions.Delete as ConditionManagementAPISync, σ)
  | none => (conditions.Delete as ConditionManagementAPISync, σ)

/-- The end of `reconcileNormal`: readiness, the `Ready` event and the requeue. -/
def finishNormal {W : Type} (as : AdoptedServer) (σ : World W) : Return W :=
  let as1 : AdoptedServer := { as with Status := { as.Status with Ready := as.Status.Connected } }
  let σ1 :=
    if as1.Status.Ready then
      σ.Event EventTypeNormal "Ready" "AdoptedServer is ready and being monitored"
    else σ
  { result := { RequeueAfter := healthCheckInterval }, err := none, as := as1, world := σ1 }

/-- The part of `reconcileNormal` after "Connection successful": steps 2 to 5 in order,
then the end. -/
def afterConnected {W : Type} (P : Platform) (H : Hooks) (R : Remote W) (as : AdoptedServer)
    (σ : World W) : Return W :=
  let gathered := stepGatherNodeInfo H as σ
  let checked := stepHealthCheck H gathered.1 gathered.2
  let linked := stepSideroLink P H checked.1 checked.2
  let synced := stepManagementAPI P R linked.1 linked.2
  finishNormal synced.1 synced.2

/-- The method `reconcileNormal`. -/
def reconcileNormal {W : Type} (P : Platform) (H : Hooks) (R : Remote W) (as : AdoptedServer)
    (σ : World W) : Return W :=
  let as1 := conditions.MarkTrue P.clock.adopted as ConditionAdopted
  let probe := H.checkTalosConnectivity as1
  let σ1 := σ.log (Effect.checkTalosConnectivity probe.1 probe.2)
  match probe.2 with
  | some err =>
    let as2 := conditions.MarkFalse P.clock.connected as1 ConditionConnected
      "ConnectivityCheckFailed" ConditionSeverityError (P.Sprintf err)
    { result := { RequeueAfter := healthCheckInterval }
      err := none
      as := { as2 with Status := { as2.Status with Connected := false, Ready := false } }
      world := σ1.Event EventTypeWarning "ConnectivityCheckFailed"
        ("Failed to check Talos API connectivity: " ++ err) }
  | none =>
    if !probe.1 then
      let as2 := conditions.MarkFalse P.clock.connected as1 ConditionConnected
        "Unreachable" ConditionSeverityWarning "Talos API endpoint is not reachable"
      { result := { RequeueAfter := healthCheckInterval }
        err := none
        as := { as2 with Status := { as2.Status with Connected := false, Ready := false } }
        world := σ1.Event EventTypeWarning "Unreachable" "Talos API endpoint is not reachable" }
    else
      let as2 := conditions.MarkTrue P.clock.connected as1 ConditionConnected
      let as3 : AdoptedServer :=
        { as2 with Status := { as2.Status with
            Connected := true, LastContactTime := some P.clock.lastContact } }
      afterConnected P H R as3 σ1

/-- The method `reconcileDelete`. -/
def reconcileDelete {W : Type} (P : Platform) (H : Hooks) (R : Remote W) (as : AdoptedServer)
    (σ : World W) : Return W :=
  if !ContainsFinalizer as adoptedServerFinalizer then
    { result := {}, err := none, as := as, world := σ }
  else
    let σ1 : World W :=
      match as.Spec.ManagementAPI with
      | some cfg =>
        if cfg.Enabled then
          match unregisterFromManagementAPI R as cfg (σ.log Effect.unregisterFromManagementAPI) with
          | (some err, σ') =>
            σ'.Event EventTypeWarning "UnregisterFailed"
              ("Failed to unregister from Management API: " ++ err)
          | (none, σ') => σ'
        else σ
      | none => σ
    let σ2 : World W :=
      match as.Spec.SideroLink with
      | some link =>
        if link.Enabled then
          match H.teardownSideroLink as with
          | some err =>
            (σ1.log Effect.teardownSideroLink).Event EventTypeWarning "SideroLinkTeardownFailed"
              ("Failed to teardown SideroLink: " ++ err)
          | none => σ1.log Effect.teardownSideroLink
        else σ1
      | none => σ1
    let as1 := RemoveFinalizer as adoptedServerFinalizer
    let σ3 := σ2.log (Effect.update as1)
    match P.Update as1 with
    | some err => { result := {}, err := some err, as := as1, world := σ3 }
    | none =>
      { result := {}, err := none, as := as1
        world := σ3.Event EventTypeNormal "Deleted" "AdoptedServer deleted successfully" }

/-- The end of `Reconcile`: the acceptance check ("Check if accepted") and the call of
`reconcileNormal`. -/
def checkAccepted {W : Type} (P : Platform) (H : Hooks) (R : Remote W) (as : AdoptedServer)
    (σ : World W) : Return W :=
  if !as.Spec.Accepted then
    let as1 : AdoptedServer := { as with Status := { as.Status with Ready := false } }
    { result := { RequeueAfter := P.DefaultRequeueAfter }
      err := none
      as := conditions.MarkFalse P.clock.adopted as1 ConditionAdopted "NotAccepted"
        ConditionSeverityInfo "Server not accepted for management"
      world := σ }
  else reconcileNormal P H R as σ

/-- The part of `Reconcile` that runs after the patch is deferred: the object reference,
the delete path, the finalizer, and the rest. -/
def reconcileLoaded {W : Type} (P : Platform) (H : Hooks) (R : Remote W) (as : AdoptedServer)
    (σ : World W) : Return W :=
  match P.GetReference as with
  | some err => { result := {}, err := some err, as := as, world := σ }
  | none =>
    if !Time.IsZero as.DeletionTimestamp then reconcileDelete P H R as σ
    else if !ContainsFinalizer as adoptedServerFinalizer then
      let as1 := AddFinalizer as adoptedServerFinalizer
      let σ1 := σ.log (Effect.patch as1)
      match P.Patch as1 with
      | some err => { result := {}, err := some err, as := as1, world := σ1 }
      | none => checkAccepted P H R as1 σ1
    else checkAccepted P H R as σ

/-- The result of `Reconcile`: the `ctrl.Result`, the error, the resource in memory at the
return (`none` when it was not loaded), and the world. -/
structure Reconciled (W : Type) where
  result : Result
  err : Option String
  as : Option AdoptedServer
  world : World W

/-- The method `Reconcile`; `req` is the name in the request. -/
def Reconcile {W : Type} (P : Platform) (H : Hooks) (R : Remote W) (req : String)
    (σ : World W) : Reconciled W :=
  match P.Get req with
  | .notFound => { result := {}, err := none, as := none, world := σ }
  | .failed err => { result := {}, err := some err, as := none, world := σ }
  | .found as =>
    match P.NewHelper as with
    | some err => { result := {}, err := some err, as := some as, world := σ }
    | none =>
      let ret := reconcileLoaded P H R as σ
      { result := ret.result, err := ret.err, as := some ret.as
        world := ret.world.log (Effect.deferredPatch ret.as) }

end AdoptedServerReconciler

/-! ## Observation vocabulary of the claims -/

/-- The world at the start of an invocation: registry state `w`, no effect yet. -/
def World.start {W : Type} (w : W) : World W := { remote := w, trace := [] }

/-- A register-cluster request: `POST /api/v1/clusters`. -/
def Effect.isRegisterCluster : Effect → Bool
  | .request r => r.method == Method.POST && r.path == clustersPath
  | _ => false

/-- An update-cluster-status request for `clusterID`: `PATCH /api/v1/clusters/{id}/status`. -/
def Effect.isUpdateClusterStatus (clusterID : String) : Effect → Bool
  | .request r => r.method == Method.PATCH && r.path == clusterStatusPath clusterID
  | _ => false

/-- A node register request: `POST /api/v1/nodes`. -/
def Effect.isRegisterNode : Effect → Bool
  | .request r => r.method == Method.POST && r.path == nodesPath
  | _ => false

/-- A call of the connectivity probe. -/
def Effect.isProbe : Effect → Bool
  | .checkTalosConnectivity _ _ => true
  | _ => false

/-- The calls of the connectivity probe in the trace, with what they returned. -/
def World.probes {W : Type} (σ : World W) : List Effect := σ.trace.filter Effect.isProbe

/-- The port rule in the words of the specification: only the first `':'` counts; the
integer scanned from the text after it is the port when it lies in `(0, 65535]`, and the
port is `50000` in every other case. -/
def firstColonPort (endpoint : String) : Int :=
  match endpoint.data.dropWhile (fun c => c != ':') with
  | [] => 50000
  | _ :: portStr =>
    if 0 < Sscanf_d portStr ∧ Sscanf_d portStr ≤ 65535 then Sscanf_d portStr else 50000

/-! ## Sample inputs -/

/-- A registry that answers every request with `200` and counts the requests; every
response decodes, the cluster identifier being `clusterID`; a base URL has scheme `http`
when it starts with `http://` and does not parse otherwise. -/
def sampleRemote (clusterID : String) : Remote Nat :=
  { urlParse := fun u =>
      if u.data.take 7 = "http://".data then .ok { Scheme := "http" } else .error "parse error"
    roundTrip := fun n _ _ => (Outcome.response 200 "ok", n + 1)
    unmarshalErrorResponse := fun _ => .error "no detail"
    unmarshalHealthCheckResponse := fun _ =>
      .ok { Status := "ok", AppName := "api", Version := "1", Timestamp := "" }
    unmarshalClusterRegisterResponse := fun _ =>
      .ok { ClusterID := clusterID, Name := "edge", Status := "registered", Message := "" }
    unmarshalStatusUpdateResponse := fun _ => .ok { Success := true, Message := "" }
    unmarshalNodeRegisterResponse := fun _ =>
      .ok { NodeID := "n-1", ClusterID := clusterID, Hostname := "node", Status := "ok",
            Message := "" } }

/-- A client for the sample registry. -/
def sampleService : SyncService :=
  { client := { baseURL := "http://api:8090", timeout := defaultTimeout, apiKey := "" } }

/-- An integration config with the given cluster identifier. -/
def sampleConfig (clusterID : String) : ManagementAPIConfig :=
  { Enabled := true, Endpoint := "http://api:8090", ClusterName := "edge",
    ClusterID := clusterID, SecretRef := none }

/-- A resource: the given finalizers, deletion timestamp, acceptance and integration
config; ready but not connected, with no condition. -/
def sampleServer (finalizers : List String) (deletion : Option Time) (accepted : Bool)
    (cfg : Option ManagementAPIConfig) : AdoptedServer :=
  { Name := "node-1"
    DeletionTimestamp := deletion
    Finalizers := finalizers
    Spec :=
      { Talos := { Endpoint := "10.0.0.5:6443", TalosVersion := "v1.8.3",
                   KubernetesVersion := "v1.31.1", NodeType := "worker", Hostname := "" }
        ManagementAPI := cfg
        SideroLink := none
        Accepted := accepted
        Labels := []
        Annotations := [] }
    Status :=
      { Ready := true, Connected := false, LastContactTime := none, Conditions := [],
        Addresses := [], Health := none, ManagementAPIStatus := none,
        SideroLinkStatus := none, NodeInfo := none } }

/-- Sample clock readings. -/
def sampleClock : Clock :=
  { adopted := 11, connected := 12, lastContact := 13, healthCheck := 14, sideroLink := 15,
    managementAPISync := 16, lastSync := 17 }

/-- A store that holds the one resource `as` under its name; `patchErr` is what the
finalizer patch returns and `setupErr` what `patch.NewHelper` and `reference.GetReference`
return; the default requeue delay is taken to be one minute. -/
def samplePlatform (as : AdoptedServer) (patchErr setupErr : Option String) : Platform :=
  { Get := fun name => if name = as.Name then GetResult.found as else GetResult.notFound
    NewHelper := fun _ => none
    GetReference := fun _ => setupErr
    Patch := fun _ => patchErr
    Update := fun _ => none
    DefaultRequeueAfter := 60 * 1000000000
    Sprintf := fun format => format
    clock := sampleClock }

/-- A registry that cannot be reached: every request fails in `httpClient.Do`. -/
def unreachableRemote : Remote Nat :=
  { urlParse := fun u =>
      if u.data.take 7 = "http://".data then .ok { Scheme := "http" } else .error "parse error"
    roundTrip := fun n _ _ => (Outcome.executeFailed "connection refused", n + 1)
    unmarshalErrorResponse := fun _ => .error "no detail"
    unmarshalHealthCheckResponse := fun _ => .error "no body"
    unmarshalClusterRegisterResponse := fun _ => .error "no body"
    unmarshalStatusUpdateResponse := fun _ => .error "no body"
    unmarshalNodeRegisterResponse := fun _ => .error "no body" }

/-- A registry that answers every request with `503` and the body
`{"detail":"overloaded"}`, which decodes as an error response with that detail (any other
body does not decode); a base URL parses with the scheme `http` or `https` when it starts
with `http://` or `https://`, and with no scheme otherwise. -/
def overloadedRemote : Remote Nat :=
  { urlParse := fun u =>
      if u.data.take 7 = "http://".data then .ok { Scheme := "http" }
      else if u.data.take 8 = "https://".data then .ok { Scheme := "https" }
      else .ok { Scheme := "" }
    roundTrip := fun n _ _ => (Outcome.response 503 "\x7b\"detail\":\"overloaded\"\x7d", n + 1)
    unmarshalErrorResponse := fun b =>
      if b = "\x7b\"detail\":\"overloaded\"\x7d" then
        .ok { Detail := "overloaded", Error := "", Code := 0 }
      else .error "invalid character"
    unmarshalHealthCheckResponse := fun _ => .error "no health"
    unmarshalClusterRegisterResponse := fun _ => .error "no cluster"
    unmarshalStatusUpdateResponse := fun _ => .error "no status"
    unmarshalNodeRegisterResponse := fun _ => .error "no node" }

/-- The test `as.Spec.ManagementAPI != nil && as.Spec.ManagementAPI.Enabled`. -/
def managementAPIEnabled (as : AdoptedServer) : Bool :=
  match as.Spec.ManagementAPI with
  | some cfg => cfg.Enabled
  | none => false

/-- The test `as.Spec.SideroLink != nil && as.Spec.SideroLink.Enabled`. -/
def sideroLinkEnabled (as : AdoptedServer) : Bool :=
  match as.Spec.SideroLink with
  | some link => link.Enabled
  | none => false

/-- The first cleanup block of `reconcileDelete` ("unregister from Management API if
registered"), as a function of the world it starts in. -/
def cleanupManagementAPI {W : Type} (R : Remote W) (as : AdoptedServer) (σ : World W) :
    World W :=
  match as.Spec.ManagementAPI with
  | some cfg =>
    if cfg.Enabled then
      match AdoptedServerReconciler.unregisterFromManagementAPI R as cfg
          (σ.log Effect.unregisterFromManagementAPI) with
      | (some err, σ') =>
        σ'.Event EventTypeWarning "UnregisterFailed"
          ("Failed to unregister from Management API: " ++ err)
      | (none, σ') => σ'
    else σ
  | none => σ

/-- The second cleanup block of `reconcileDelete` ("teardown SideroLink if configured"), as
a function of the world it starts in. -/
def cleanupSideroLink {W : Type} (H : Hooks) (as : AdoptedServer) (σ : World W) : World W :=
  match as.Spec.SideroLink with
  | some link =>
    if link.Enabled then
      match H.teardownSideroLink as with
      | some err =>
        (σ.log Effect.teardownSideroLink).Event EventTypeWarning "SideroLinkTeardownFailed"
          ("Failed to teardown SideroLink: " ++ err)
      | none => σ.log Effect.teardownSideroLink
    else σ
  | none => σ

/-- A resource like `sampleServer` that enables link monitoring and carries the `Ready`
conditions of an earlier invocation for the link and the remote sync. -/
def linkedServer (finalizers : List String) (deletion : Option Time) (linkEnabled : Bool)
    (cfg : Option ManagementAPIConfig) : AdoptedServer :=
  { sampleServer finalizers deletion true cfg with
    Spec := { (sampleServer finalizers deletion true cfg).Spec with
      SideroLink := some { Enabled := linkEnabled, Address := "fdae::1/64", PublicKey := "key" } }
    Status := { (sampleServer finalizers deletion true cfg).Status with
      Conditions :=
        [conditions.TrueCondition ConditionManagementAPISync,
         conditions.TrueCondition ConditionSideroLinkReady] } }

/-! ## Intermediate states of `Reconcile` -/

/-- The world in which `Reconcile` reaches "Check if accepted" on a live resource: the
patch of the finalizer has been logged when the finalizer had to be added. -/
def afterFinalizer {W : Type} (as : AdoptedServer) (σ : World W) : World W :=
  if ContainsFinalizer as adoptedServerFinalizer then σ
  else σ.log (Effect.patch (AddFinalizer as adoptedServerFinalizer))

/-- The resource at "Connection successful" in `reconcileNormal`: marked adopted and
connected, `Status.Connected` set and the contact time stamped. -/
def markConnected (P : Platform) (as : AdoptedServer) : AdoptedServer :=
  { conditions.MarkTrue P.clock.connected
      (conditions.MarkTrue P.clock.adopted as ConditionAdopted) ConditionConnected with
    Status := { (conditions.MarkTrue P.clock.connected
        (conditions.MarkTrue P.clock.adopted as ConditionAdopted) ConditionConnected).Status with
      Connected := true, LastContactTime := some P.clock.lastContact } }

/-- The resource and the world with which step 5 of `reconcileNormal` starts when the probe
returned reachable: after steps 2, 3 and 4. -/
def beforeSync {W : Type} (P : Platform) (H : Hooks) (as : AdoptedServer) (σ : World W) :
    AdoptedServer × World W :=
  AdoptedServerReconciler.stepSideroLink P H
    (AdoptedServerReconciler.stepHealthCheck H
      (AdoptedServerReconciler.stepGatherNodeInfo H (markConnected P as)
        (σ.log (Effect.checkTalosConnectivity true none))).1
      (AdoptedServerReconciler.stepGatherNodeInfo H (markConnected P as)
        (σ.log (Effect.checkTalosConnectivity true none))).2).1
    (AdoptedServerReconciler.stepHealthCheck H
      (AdoptedServerReconciler.stepGatherNodeInfo H (markConnected P as)
        (σ.log (Effect.checkTalosConnectivity true none))).1
      (AdoptedServerReconciler.stepGatherNodeInfo H (markConnected P as)
        (σ.log (Effect.checkTalosConnectivity true none))).2).2

/-- The resource and the world with which `Reconcile`, on a live accepted resource whose
probe returns reachable, starts the remote sync step. -/
def syncInput {W : Type} (P : Platform) (H : Hooks) (as : AdoptedServer) (w : W) :
    AdoptedServer × World W :=
  beforeSync P H (AddFinalizer as adoptedServerFinalizer) (afterFinalizer as (World.start w))

/-! ## Two invocations in succession -/

/-- A registry that registers clusters and nodes but does not serve the cluster status:
every `PATCH` is answered with `500`, every other request with `200`; the answers do not
depend on the state of the registry.  The cluster identifier it hands out is `c-1`. -/
def registerOnlyRemote : Remote Nat :=
  { sampleRemote "c-1" with
    roundTrip := fun n _ r =>
      if r.method = Method.PATCH then (Outcome.response 500 "internal error", n + 1)
      else (Outcome.response 200 "ok", n + 1) }

/-- A condition without its timestamp `LastTransitionTime`. -/
def Condition.withoutTimestamps (c : Condition) : Condition :=
  { c with LastTransitionTime := 0 }

/-- A health status without its timestamp `LastCheckTime`. -/
def HealthStatus.withoutTimestamps (h : HealthStatus) : HealthStatus :=
  { h with LastCheckTime := none }

/-- A sync status without its timestamp `LastSyncTime`. -/
def ManagementAPIStatus.withoutTimestamps (m : ManagementAPIStatus) : ManagementAPIStatus :=
  { m with LastSyncTime := none }

/-- A link status without its timestamp `LastEventTime`. -/
def SideroLinkStatus.withoutTimestamps (l : SideroLinkStatus) : SideroLinkStatus :=
  { l with LastEventTime := none }

/-- A status without its timestamp fields: every field that is not a time is kept. -/
def AdoptedServerStatus.withoutTimestamps (s : AdoptedServerStatus) : AdoptedServerStatus :=
  { Ready := s.Ready
    Connected := s.Connected
    LastContactTime := none
    Conditions := s.Conditions.map Condition.withoutTimestamps
    Addresses := s.Addresses
    Health := s.Health.map HealthStatus.withoutTimestamps
    ManagementAPIStatus := s.ManagementAPIStatus.map ManagementAPIStatus.withoutTimestamps
    SideroLinkStatus := s.SideroLinkStatus.map SideroLinkStatus.withoutTimestamps
    NodeInfo := s.NodeInfo }

/-- The platform of the next invocation when nothing outside has changed: the store holds
under `req` the resource `as1` that the invocation before left, and the clock reads
`clock`. -/
def nextPlatform (P : Platform) (req : String) (as1 : AdoptedServer) (clock : Clock) :
    Platform :=
  { P with
    Get := fun name => if name = req then GetResult.found as1 else P.Get name
    clock := clock }

/-- The invocation of `Reconcile` that follows the invocation `first` for the same request
with no change from outside: it loads what `first` left, meets the registry in the state in
which `first` left it, reads the clock `clock` and has the integration points `H`. -/
def ReconcileAgain {W : Type} (P : Platform) (H : Hooks) (R : Remote W) (req : String)
    (clock : Clock) (first : AdoptedServerReconciler.Reconciled W) :
    AdoptedServerReconciler.Reconciled W :=
  match first.as with
  | some as1 =>
    AdoptedServerReconciler.Reconcile (nextPlatform P req as1 clock) H R req
      (World.start first.world.remote)
  | none =>
    AdoptedServerReconciler.Reconcile { P with clock := clock } H R req
      (World.start first.world.remote)

/-- The answers of the registry are fixed: the answer to a request depends on its method
and path only, not on the state of the registry, the client or the body. -/
def FixedAnswers {W : Type} (R : Remote W) : Prop :=
  ∀ (w w' : W) (c c' : Client) (r r' : Request), r.method = r'.method → r.path = r'.path →
    (R.roundTrip w c r).1 = (R.roundTrip w' c' r').1

/-- The integration points `H'` of a later invocation behave like the integration points
`H` of an earlier one on the same spec: the probe returns the same; node information, once
the resource carries it, is found again; the health check finds the same but for its
timestamp; the link setup, once the resource carries its status, returns the same status
but for its timestamp, and the same error. -/
def SameBehaviour (H H' : Hooks) : Prop :=
  (∀ a b : AdoptedServer, a.Spec = b.Spec →
    H'.checkTalosConnectivity b = H.checkTalosConnectivity a) ∧
  (∀ a b : AdoptedServer, a.Spec = b.Spec →
    b.Status.NodeInfo = (H.gatherNodeInfo a).1 →
    b.Status.Addresses = (H.gatherNodeInfo a).2.1 →
    (H'.gatherNodeInfo b).1 = (H.gatherNodeInfo a).1 ∧
    (H'.gatherNodeInfo b).2.1 = (H.gatherNodeInfo a).2.1) ∧
  (∀ a b : AdoptedServer, a.Spec = b.Spec →
    (H'.performHealthCheck b).1.map HealthStatus.withoutTimestamps
      = (H.performHealthCheck a).1.map HealthStatus.withoutTimestamps) ∧
  (∀ a b : AdoptedServer, a.Spec = b.Spec →
    b.Status.SideroLinkStatus.map SideroLinkStatus.withoutTimestamps
      = (H.setupSideroLink a).2.1.map SideroLinkStatus.withoutTimestamps →
    (H'.setupSideroLink b).2.1.map SideroLinkStatus.withoutTimestamps
      = (H.setupSideroLink a).2.1.map SideroLinkStatus.withoutTimestamps ∧
    (H'.setupSideroLink b).2.2 = (H.setupSideroLink a).2.2)

/-- The resource `a` carries the condition `c`: its condition list is in the order of
`sortConditions` and its first entry of the type of `c` has the state of `c`. -/
def Carries (a : AdoptedServer) (c : Condition) : Prop :=
  a.Status.Conditions.Sorted (fun x y => conditions.lexicographicLess y x = false) ∧
  ∃ e, conditions.Get a c.Type_ = some e ∧ conditions.HasSameState e c = true

/-- The condition that step 4 of `reconcileNormal` sets when the link setup returned
`err`. -/
def linkCondition (P : Platform) (err : Option String) : Condition :=
  match err with
  | some e =>
    conditions.FalseCondition ConditionSideroLinkReady "SetupFailed" ConditionSeverityWarning
      (P.Sprintf e)
  | none => conditions.TrueCondition ConditionSideroLinkReady

/-- The resource on which step 4 sets its condition: `setupSideroLink` has written the link
config and the link status. -/
def linkSetup (H : Hooks) (a : AdoptedServer) : AdoptedServer :=
  { a with
    Spec := { a.Spec with SideroLink := (H.setupSideroLink a).1 }
    Status := { a.Status with SideroLinkStatus := (H.setupSideroLink a).2.1 } }

/-- The condition that step 5 of `reconcileNormal` sets when the sync returned `err`. -/
def syncCondition (P : Platform) (err : Option String) : Condition :=
  match err with
  | some e =>
    conditions.FalseCondition ConditionManagementAPISync "SyncFailed" ConditionSeverityWarning
      (P.Sprintf e)
  | none => conditions.TrueCondition ConditionManagementAPISync

/-- The sync status that step 5 of `reconcileNormal` makes of `st` when the sync returned
`err`. -/
def syncStatus (P : Platform) (st : ManagementAPIStatus) (err : Option String) :
    ManagementAPIStatus :=
  match err with
  | some e => { st with Synced := false, Error := e }
  | none => { st with Synced := true, Error := "", LastSyncTime := some P.clock.lastSync }

/-- The resource `a` after step 5 has recorded the sync result `err` in its sync status. -/
def syncRecorded (P : Platform) (a : AdoptedServer) (err : Option String) : AdoptedServer :=
  { a with
    Status := { a.Status with
      ManagementAPIStatus :=
        some (syncStatus P (AdoptedServerReconciler.ensureManagementAPIStatus a) err) } }

/-- The resource `y` carries the results of steps 2 to 5 of `reconcileNormal`, run with the
platform `P`, the integration points `H` and the registry `R` on a resource of the same
spec: the marks `Adopted` and `Connected`, the node information, the health, the link
status and condition when link monitoring is enabled and no link condition when it is not,
the sync status and condition when remote sync is enabled and no sync condition when it is
not. -/
def Settled {W : Type} (P : Platform) (H : Hooks) (R : Remote W) (y : AdoptedServer) : Prop :=
  Carries y (conditions.TrueCondition ConditionAdopted) ∧
  Carries y (conditions.TrueCondition ConditionConnected) ∧
  y.Status.Connected = true ∧ y.Status.Ready = true ∧
  (∃ a : AdoptedServer, a.Spec = y.Spec ∧ y.Status.NodeInfo = (H.gatherNodeInfo a).1 ∧
    y.Status.Addresses = (H.gatherNodeInfo a).2.1) ∧
  (∃ a : AdoptedServer, a.Spec = y.Spec ∧ y.Status.Health = (H.performHealthCheck a).1) ∧
  (sideroLinkEnabled y = true → ∃ a : AdoptedServer, a.Spec = y.Spec ∧
    y.Status.SideroLinkStatus = (H.setupSideroLink a).2.1 ∧
    Carries y (linkCondition P (H.setupSideroLink a).2.2)) ∧
  (sideroLinkEnabled y = false →
    ∀ c ∈ y.Status.Conditions, c.Type_ ≠ ConditionSideroLinkReady) ∧
  (∀ cfg, y.Spec.ManagementAPI = some cfg → cfg.Enabled = true →
    ∃ (a : AdoptedServer) (σ : World W) (st : ManagementAPIStatus),
      a.Spec.ManagementAPI = some cfg ∧
      Carries y
        (syncCondition P (AdoptedServerReconciler.syncWithManagementAPI R a cfg σ).1) ∧
      y.Status.ManagementAPIStatus
        = some (syncStatus P st (AdoptedServerReconciler.syncWithManagementAPI R a cfg σ).1)) ∧
  (managementAPIEnabled y = false →
    ∀ c ∈ y.Status.Conditions, c.Type_ ≠ ConditionManagementAPISync)

/-- The condition that `reconcileNormal` sets when the probe does not return reachable:
`err` is the error of the probe, `none` when it returned `false, nil`. -/
def probeCondition (P : Platform) (err : Option String) : Condition :=
  match err with
  | some e =>
    conditions.FalseCondition ConditionConnected "ConnectivityCheckFailed"
      ConditionSeverityError (P.Sprintf e)
  | none =>
    conditions.FalseCondition ConditionConnected "Unreachable" ConditionSeverityWarning
      "Talos API endpoint is not reachable"

/-- The resource that `reconcileNormal` leaves when the probe does not return reachable:
marked adopted and not connected, `Status.Connected` and `Status.Ready` cleared. -/
def markNotConnected (P : Platform) (as : AdoptedServer) (err : Option String) :
    AdoptedServer :=
  { conditions.Set P.clock.connected
      (conditions.MarkTrue P.clock.adopted as ConditionAdopted) (probeCondition P err) with
    Status := { (conditions.Set P.clock.connected
        (conditions.MarkTrue P.clock.adopted as ConditionAdopted) (probeCondition P err)).Status with
      Connected := false, Ready := false } }

/-- The resource that the acceptance check leaves when the resource is not accepted. -/
def markNotAccepted (P : Platform) (as : AdoptedServer) : AdoptedServer :=
  conditions.MarkFalse P.clock.adopted { as with Status := { as.Status with Ready := false } }
    ConditionAdopted "NotAccepted" ConditionSeverityInfo "Server not accepted for management"

/-- Sample clock readings of a later invocation. -/
def laterClock : Clock :=
  { adopted := 41, connected := 42, lastContact := 43, healthCheck := 44, sideroLink := 45,
    managementAPISync := 46, lastSync := 47 }

/-- A registry that registers clusters but rejects nodes: a request to `/api/v1/nodes` is
answered with `500` and any other request with `200`; the cluster identifier it hands out is
`c-1`. -/
def nodeRejectingRemote : Remote Nat :=
  { sampleRemote "c-1" with
    roundTrip := fun n _ r =>
      if r.path = nodesPath then (Outcome.response 500 "node rejected", n + 1)
      else (Outcome.response 200 "ok", n + 1) }

/-! ## Environments (`api/v1alpha2/environment_types.go`) -/

/-- The struct `Asset`. -/
structure Asset where
  URL : String
  SHA512 : String
deriving DecidableEq, Repr

/-- The struct `Kernel`, which embeds `Asset`. -/
structure Kernel extends Asset where
  Args : List String
deriving DecidableEq, Repr

/-- The struct `Initrd`, which embeds `Asset`. -/
structure Initrd extends Asset where
deriving DecidableEq, Repr

/-- The struct `BootAsset`. -/
structure BootAsset where
  URL : String
  SHA512 : String
  SchematicID : String
  KernelArgs : List String
  Extensions : List String
deriving DecidableEq, Repr

/-- The struct `RegistryMirror`. -/
structure RegistryMirror where
  Endpoints : List String
  SkipVerify : Bool
  OverridePath : Bool
deriving DecidableEq, Repr

/-- The struct `LocalImageFactory`. -/
structure LocalImageFactory where
  Endpoint : String
  Registry : String
  InsecureSkipVerify : Bool
deriving DecidableEq, Repr

/-- The struct `AirGapConfig`; the map `RegistryMirrors` is an association list. -/
structure AirGapConfig where
  Enabled : Bool
  AssetMirror : String
  RegistryMirrors : List (String × RegistryMirror)
  ImageCacheURL : String
  LocalImageFactory : Option LocalImageFactory
deriving DecidableEq, Repr

/-- The struct `EnvironmentSpec`. -/
structure EnvironmentSpec where
  BootAsset : Option BootAsset
  Kernel : Kernel
  Initrd : Initrd
  AirGap : Option AirGapConfig
deriving DecidableEq, Repr

/-- The struct `AssetCondition`, which embeds `Asset` (its field `Type` is `Type_` here). -/
structure AssetCondition extends Asset where
  Status : String
  Type_ : String
deriving DecidableEq, Repr

/-- The struct `EnvironmentStatus`. -/
structure EnvironmentStatus where
  Conditions : List AssetCondition
deriving DecidableEq, Repr

/-- The struct `Environment`, without the metadata, which `IsReady` does not read. -/
structure Environment where
  Spec : EnvironmentSpec
  Status : EnvironmentStatus
deriving DecidableEq, Repr

/-- A Go `map[string]struct{}`: the list of its keys, each once. -/
abbrev KeySet := List String

/-- The assignment `m[k] = struct{}{}`. -/
def KeySet.assign (m : KeySet) (k : String) : KeySet :=
  if m.contains k then m else m ++ [k]

/-- The call `delete(m, k)`. -/
def KeySet.delete (m : KeySet) (k : String) : KeySet :=
  m.filter (fun x => x != k)

/-- The map `assetURLs` of `IsReady` when its loop over the conditions starts. -/
def Environment.assetURLs (env : Environment) : KeySet :=
  let assetURLs : KeySet := []
  let assetURLs :=
    match env.Spec.BootAsset with
    | some bootAsset => if bootAsset.URL ≠ "" then assetURLs.assign bootAsset.URL else assetURLs
    | none => assetURLs
  let assetURLs :=
    if env.Spec.Kernel.URL ≠ "" then assetURLs.assign env.Spec.Kernel.URL else assetURLs
  if env.Spec.Initrd.URL ≠ "" then assetURLs.assign env.Spec.Initrd.URL else assetURLs

/-- The method `Environment.IsReady`. -/
def Environment.IsReady (env : Environment) : Bool :=
  let assetURLs :=
    env.Status.Conditions.foldl
      (fun assetURLs cond =>
        if cond.Status = "True" ∧ cond.Type_ = "Ready" then assetURLs.delete cond.URL
        else assetURLs)
      env.assetURLs
  assetURLs.length == 0

/-- The asset URLs that the spec of an environment names: the URL of the boot asset when one
is set, the kernel URL and the initrd URL. -/
def Environment.namedURLs (env : Environment) : List String :=
  (match env.Spec.BootAsset with
   | some bootAsset => [bootAsset.URL]
   | none => []) ++ [env.Spec.Kernel.URL, env.Spec.Initrd.URL]

/-- A sample environment: the given boot asset, kernel and initrd URLs and the given
conditions. -/
def sampleEnvironment (boot : Option String) (kernel initrd : String)
    (conds : List (String × String × String)) : Environment :=
  { Spec :=
      { BootAsset := boot.map (fun u =>
          { URL := u, SHA512 := "", SchematicID := "", KernelArgs := [], Extensions := [] })
        Kernel := { URL := kernel, SHA512 := "", Args := [] }
        Initrd := { URL := initrd, SHA512 := "" }
        AirGap := none }
    Status :=
      { Conditions := conds.map (fun c =>
          { URL := c.1, SHA512 := "", Status := c.2.1, Type_ := c.2.2 }) } }

/-! ## The port rule of the scan, in words -/

/-- The leading optionally-signed decimal integer of a text: an optional sign and at least
one decimal digit at the very start of the text; what follows the digits is ignored.  `none`
when the text does not start with one. -/
def leadingInteger : List Char → Option Int
  | [] => none
  | c :: rest =>
    if (if c = '+' ∨ c = '-' then rest else c :: rest).takeWhile isDecimalDigit = [] then none
    else if c = '-' then
      some (-(digitsValue ((if c = '+' ∨ c = '-' then rest else c :: rest).takeWhile
        isDecimalDigit) : Int))
    else
      some (digitsValue ((if c = '+' ∨ c = '-' then rest else c :: rest).takeWhile
        isDecimalDigit) : Int)

/-- The integer that the verb `%d` reads from a text: the leading optionally-signed decimal
integer of what is left of the text when its leading white space has been skipped (a
newline in that white space leaves nothing to read). -/
def scannedInteger (text : List Char) : Option Int :=
  match SkipSpace text with
  | some s => leadingInteger s
  | none => none

/-- The port rule that scans the colons from left to right: the port is the integer that
`read` finds in the text after the earliest `':'` for which that integer exists and lies in
`(0, 65535]`, and `50000` when no `':'` qualifies. -/
def earliestPort (read : List Char → Option Int) : List Char → Int
  | [] => 50000
  | c :: rest =>
    if c = ':' then
      match read rest with
      | some v => if 0 < v ∧ v ≤ 65535 then v else earliestPort read rest
      | none => earliestPort read rest
    else earliestPort read rest

/-- Integration points like those of the source, but for the probe, which returns
`result`. -/
def probeHooks (clock : Clock) (result : Bool × Option String) : Hooks :=
  { AdoptedServerReconciler.sourceHooks clock with checkTalosConnectivity := fun _ => result }

/-- What `Reconcile` returns when the code that runs after the patch is deferred returns
`ret`: the deferred patch is logged last. -/
def deferred {W : Type} (ret : AdoptedServerReconciler.Return W) :
    AdoptedServerReconciler.Reconciled W :=
  { result := ret.result, err := ret.err, as := some ret.as
    world := ret.world.log (Effect.deferredPatch ret.as) }

/-- The normal `Ready` event of `reconcileNormal`: the call
`r.Recorder.Event(asRef, corev1.EventTypeNormal, "Ready", ...)`. -/
def readyEvent : Effect :=
  Effect.event EventTypeNormal "Ready" "AdoptedServer is ready and being monitored"

/-- A normal event with reason `Ready`, whatever its message. -/
def Effect.isReadyEvent : Effect → Bool
  | .event eventtype reason _ => eventtype == EventTypeNormal && reason == "Ready"
  | _ => false

/-- The normal `Ready` events in the trace. -/
def World.readyEvents {W : Type} (σ : World W) : List Effect :=
  σ.trace.filter Effect.isReadyEvent

/-! ## Theorems: endpoint helpers -/

/-- The loop of `extractIPFromEndpoint`, entered at offset `pre.length` with `pre` already
passed, returns `pre` followed by the runes of `rest` before its first `':'`. -/
theorem extractIPLoop_eq (pre rest : List Char) :
    extractIPLoop (pre ++ rest) pre.length rest
      = pre ++ rest.takeWhile (fun c => c != ':') := by
  induction rest generalizing pre with
  | nil => simp [extractIPLoop]
  | cons c rest ih =>
    by_cases hc : c = ':'
    · simp [extractIPLoop, hc]
    · have h := ih (pre ++ [c])
      simp only [List.append_assoc, List.singleton_append, List.length_append,
        List.length_singleton] at h
      simp [extractIPLoop, hc, h]

/-- The runes before the first `':'` of `pre ++ ':' :: post` are `pre` when `pre` has none. -/
theorem takeWhile_ne_colon_append (pre post : List Char) (h : ':' ∉ pre) :
    (pre ++ ':' :: post).takeWhile (fun c => c != ':') = pre := by
  induction pre with
  | nil => simp
  | cons a pre ih =>
    have ha : a ≠ ':' := fun e => h (by simp [e])
    have hp : ':' ∉ pre := fun e => h (by simp [e])
    have hb : (a != ':') = true := by simpa using ha
    rw [List.cons_append, List.takeWhile_cons, hb]
    simp [ih hp]

/-- A string without `':'` is its own prefix before the first `':'`. -/
theorem takeWhile_ne_colon_self (l : List Char) (h : ':' ∉ l) :
    l.takeWhile (fun c => c != ':') = l := by
  induction l with
  | nil => simp
  | cons a l ih =>
    have ha : a ≠ ':' := fun e => h (by simp [e])
    have hp : ':' ∉ l := fun e => h (by simp [e])
    have hb : (a != ':') = true := by simpa using ha
    rw [List.takeWhile_cons, hb]
    simp [ih hp]

/-- The function `extractIPFromEndpoint` returns the runes before the first `':'`. -/
theorem extractIPFromEndpoint_eq_takeWhile (endpoint : String) :
    extractIPFromEndpoint endpoint
      = String.mk (endpoint.data.takeWhile (fun c => c != ':')) := by
  have h := extractIPLoop_eq [] endpoint.data
  simp only [List.nil_append, List.length_nil] at h
  simp [extractIPFromEndpoint, h]

/-- C5: for every endpoint string, `extractIPFromEndpoint` returns the substring before the
first `':'` when the string contains one (`endpoint = pre ++ ":" ++ post` with no `':'` in
`pre` gives `pre`), and the whole string unchanged when it contains none. -/
theorem extractIPFromEndpoint_spec (endpoint : String) :
    (∀ pre post : List Char, ':' ∉ pre → endpoint.data = pre ++ ':' :: post →
        extractIPFromEndpoint endpoint = String.mk pre) ∧
    (':' ∉ endpoint.data → extractIPFromEndpoint endpoint = endpoint) := by
  refine ⟨?_, ?_⟩
  · intro pre post hpre hsplit
    rw [extractIPFromEndpoint_eq_takeWhile, hsplit, takeWhile_ne_colon_append pre post hpre]
  · intro hnone
    rw [extractIPFromEndpoint_eq_takeWhile, takeWhile_ne_colon_self _ hnone]

/-- C5 at `"fd00::1"` (first `':'` after `"fd00"`) and at `"10.0.0.5"` (no `':'`). -/
theorem extractIPFromEndpoint_spec_witness :
    extractIPFromEndpoint "fd00::1" = "fd00" ∧ extractIPFromEndpoint "10.0.0.5" = "10.0.0.5" :=
  ⟨(extractIPFromEndpoint_spec "fd00::1").1 "fd00".data ":1".data (by decide) (by decide),
   (extractIPFromEndpoint_spec "10.0.0.5").2 (by decide)⟩

/-- C4: the port is not decided from the first `':'` only.  On `"h:0:80"` the text after the
first `':'` scans to `0`, which is outside `(0, 65535]`, so the rule of the specification
gives the default `50000`; the code goes on to the second `':'` and returns `80`.  On the
IPv6 address `"fd00::1"`, which specifies no port, the code returns `1`. -/
theorem extractPortFromEndpoint_not_first_colon_only :
    Sscanf_d "0:80".data = 0 ∧ firstColonPort "h:0:80" = 50000 ∧
    extractPortFromEndpoint "h:0:80" = 80 ∧
    firstColonPort "fd00::1" = 50000 ∧ extractPortFromEndpoint "fd00::1" = 1 := by
  decide

/-- C6: the three endpoints of the specification. -/
theorem endpoint_parsing_examples :
    extractIPFromEndpoint "10.0.0.5:6443" = "10.0.0.5" ∧
    extractPortFromEndpoint "10.0.0.5:6443" = 6443 ∧
    extractIPFromEndpoint "10.0.0.5" = "10.0.0.5" ∧
    extractPortFromEndpoint "10.0.0.5" = 50000 ∧
    extractIPFromEndpoint "10.0.0.5:99999" = "10.0.0.5" ∧
    extractPortFromEndpoint "10.0.0.5:99999" = 50000 := by
  decide

/-! ## Theorems: the synchronisation service -/

/-- Every call of `doRequest` adds exactly its own request to the trace, whatever the
answer. -/
theorem doRequest_trace {W ρ : Type} (R : Remote W) (c : Client) (method : Method)
    (path : String) (body : Option RequestBody) (unmarshal : String → Except String ρ)
    (σ : World W) :
    (doRequest R c method path body unmarshal σ).2.trace
      = σ.trace ++ [Effect.request { method := method, path := path, body := body }] := by
  simp only [doRequest]
  split <;> try rfl
  split
  · split <;> rfl
  · split <;> rfl

/-- The effect of `registerCluster`: one register-cluster request. -/
theorem registerCluster_trace {W : Type} (R : Remote W) (s : SyncService) (as : AdoptedServer)
    (cfg : ManagementAPIConfig) (σ : World W) :
    (s.registerCluster R as cfg σ).2.trace
      = σ.trace ++ [Effect.request ⟨Method.POST, clustersPath,
          some (RequestBody.clusterRegister (clusterRegisterRequest as cfg))⟩] := by
  simp [SyncService.registerCluster, Client.RegisterCluster, doRequest_trace]

/-- The effect of `updateClusterStatus`: one update-cluster-status request. -/
theorem updateClusterStatus_trace {W : Type} (R : Remote W) (s : SyncService)
    (as : AdoptedServer) (clusterID : String) (σ : World W) :
    (s.updateClusterStatus R as clusterID σ).2.trace
      = σ.trace ++ [Effect.request ⟨Method.PATCH, clusterStatusPath clusterID,
          some (RequestBody.statusUpdate (statusUpdateRequest as))⟩] := by
  have h := doRequest_trace R s.client Method.PATCH (clusterStatusPath clusterID)
    (some (RequestBody.statusUpdate (statusUpdateRequest as))) R.unmarshalStatusUpdateResponse σ
  simp only [SyncService.updateClusterStatus, Client.UpdateClusterStatus]
  split <;> simp_all

/-- The effect of step 2 of `SyncAdoptedServer`: one node register request; the resource is
not touched. -/
theorem syncNode_spec {W : Type} (R : Remote W) (s : SyncService) (as : AdoptedServer)
    (clusterID : String) (σ : World W) :
    (s.syncNode R as clusterID σ).2.1 = as ∧
    (s.syncNode R as clusterID σ).2.2.trace
      = σ.trace ++ [Effect.request ⟨Method.POST, nodesPath,
          some (RequestBody.nodeRegister (nodeRegisterRequest as clusterID))⟩] := by
  have h := doRequest_trace R s.client Method.POST nodesPath
    (some (RequestBody.nodeRegister (nodeRegisterRequest as clusterID)))
    R.unmarshalNodeRegisterResponse σ
  simp only [SyncService.syncNode, SyncService.registerOrUpdateNode, Client.RegisterNode]
  split <;> split at * <;> simp_all

/-- The update branch of `SyncAdoptedServer` (integration enabled, identifier recorded):
the resource is returned as it was, and the requests are the update-cluster-status request
for the recorded identifier, followed by the node register request when the update
succeeded. -/
theorem SyncAdoptedServer_update_branch {W : Type} (R : Remote W) (s : SyncService)
    (as : AdoptedServer) (cfg : ManagementAPIConfig) (σ : World W)
    (hcfg : as.Spec.ManagementAPI = some cfg) (hen : cfg.Enabled = true)
    (hid : cfg.ClusterID ≠ "") :
    (s.SyncAdoptedServer R as σ).2.1 = as ∧
    ((s.SyncAdoptedServer R as σ).2.2.trace
        = σ.trace ++ [Effect.request ⟨Method.PATCH, clusterStatusPath cfg.ClusterID,
            some (RequestBody.statusUpdate (statusUpdateRequest as))⟩] ∨
     (s.SyncAdoptedServer R as σ).2.2.trace
        = σ.trace ++ [Effect.request ⟨Method.PATCH, clusterStatusPath cfg.ClusterID,
            some (RequestBody.statusUpdate (statusUpdateRequest as))⟩,
          Effect.request ⟨Method.POST, nodesPath,
            some (RequestBody.nodeRegister (nodeRegisterRequest as cfg.ClusterID))⟩]) := by
  have hu := updateClusterStatus_trace R s as cfg.ClusterID σ
  simp only [SyncService.SyncAdoptedServer, hcfg, hen, hid]
  rcases hres : s.updateClusterStatus R as cfg.ClusterID σ with ⟨e, σ1⟩
  rw [hres] at hu
  cases e with
  | some err => exact ⟨rfl, Or.inl (by simpa using hu)⟩
  | none =>
    have hn := syncNode_spec R s as cfg.ClusterID σ1
    refine ⟨by simpa using hn.1, Or.inr ?_⟩
    have : σ1.trace = σ.trace ++ [Effect.request ⟨Method.PATCH,
        clusterStatusPath cfg.ClusterID,
        some (RequestBody.statusUpdate (statusUpdateRequest as))⟩] := by simpa using hu
    simp [hn.2, this]

/-- The register branch of `SyncAdoptedServer` (integration enabled, no identifier): the
register-cluster request is issued first; when it fails nothing else happens and the
resource is untouched; when it succeeds the returned identifier is written to the resource
and the node register request follows. -/
theorem SyncAdoptedServer_register_branch {W : Type} (R : Remote W) (s : SyncService)
    (as : AdoptedServer) (cfg : ManagementAPIConfig) (σ : World W)
    (hcfg : as.Spec.ManagementAPI = some cfg) (hen : cfg.Enabled = true)
    (hid : cfg.ClusterID = "") :
    (∀ err σ1, s.registerCluster R as cfg σ = (.error err, σ1) →
      (s.SyncAdoptedServer R as σ).2.1 = as ∧
      (s.SyncAdoptedServer R as σ).2.2.trace
        = σ.trace ++ [Effect.request ⟨Method.POST, clustersPath,
            some (RequestBody.clusterRegister (clusterRegisterRequest as cfg))⟩]) ∧
    (∀ resp σ1, s.registerCluster R as cfg σ = (.ok resp, σ1) →
      (s.SyncAdoptedServer R as σ).2.1
        = { as with Spec := { as.Spec with
              ManagementAPI := some { cfg with ClusterID := resp.ClusterID } } } ∧
      (s.SyncAdoptedServer R as σ).2.2.trace
        = σ.trace ++ [Effect.request ⟨Method.POST, clustersPath,
            some (RequestBody.clusterRegister (clusterRegisterRequest as cfg))⟩,
          Effect.request ⟨Method.POST, nodesPath,
            some (RequestBody.nodeRegister (nodeRegisterRequest
              { as with Spec := { as.Spec with
                  ManagementAPI := some { cfg with ClusterID := resp.ClusterID } } }
              resp.ClusterID))⟩]) := by
  have hr := registerCluster_trace R s as cfg σ
  refine ⟨?_, ?_⟩
  · intro err σ1 hres
    rw [hres] at hr
    simp only [SyncService.SyncAdoptedServer, hcfg, hen, hid, hres]
    exact ⟨rfl, by simpa using hr⟩
  · intro resp σ1 hres
    rw [hres] at hr
    have hσ1 : σ1.trace = σ.trace ++ [Effect.request ⟨Method.POST, clustersPath,
        some (RequestBody.clusterRegister (clusterRegisterRequest as cfg))⟩] := by
      simpa using hr
    have hn := syncNode_spec R s
      { as with Spec := { as.Spec with
          ManagementAPI := some { cfg with ClusterID := resp.ClusterID } } }
      resp.ClusterID σ1
    simp only [SyncService.SyncAdoptedServer, hcfg, hen, hid, hres]
    simp only [hen] at hn
    refine ⟨by simpa using hn.1, ?_⟩
    simp [hn.2, hσ1]

/-- On the update branch the requests of `SyncAdoptedServer` contain an
update-cluster-status request for the recorded identifier and no register-cluster request. -/
theorem SyncAdoptedServer_update_requests {W : Type} (R : Remote W) (s : SyncService)
    (as : AdoptedServer) (cfg : ManagementAPIConfig) (w : W)
    (hcfg : as.Spec.ManagementAPI = some cfg) (hen : cfg.Enabled = true)
    (hid : cfg.ClusterID ≠ "") :
    (∃ e ∈ (s.SyncAdoptedServer R as (World.start w)).2.2.trace,
      e.isUpdateClusterStatus cfg.ClusterID = true) ∧
    ∀ e ∈ (s.SyncAdoptedServer R as (World.start w)).2.2.trace,
      e.isRegisterCluster = false := by
  have hnode : (nodesPath == clustersPath) = false := by decide
  rcases (SyncAdoptedServer_update_branch R s as cfg (World.start w) hcfg hen hid).2 with ht | ht
  · rw [ht]
    simp [World.start, Effect.isUpdateClusterStatus, Effect.isRegisterCluster]
  · rw [ht]
    simp [World.start, Effect.isUpdateClusterStatus, Effect.isRegisterCluster, hnode]

/-- C1: for every AdoptedServer with Management API integration enabled,
`SyncAdoptedServer` issues a register-cluster request (`POST /api/v1/clusters`) if and only
if the recorded `Spec.ManagementAPI.ClusterID` is empty; when it is not empty it issues an
update-cluster-status request for that identifier and never a register-cluster request. -/
theorem SyncAdoptedServer_registers_iff_no_cluster_id {W : Type} (R : Remote W)
    (s : SyncService) (as : AdoptedServer) (cfg : ManagementAPIConfig) (w : W)
    (hcfg : as.Spec.ManagementAPI = some cfg) (hen : cfg.Enabled = true) :
    ((∃ e ∈ (s.SyncAdoptedServer R as (World.start w)).2.2.trace, e.isRegisterCluster = true)
        ↔ cfg.ClusterID = "") ∧
    (cfg.ClusterID ≠ "" →
      (∃ e ∈ (s.SyncAdoptedServer R as (World.start w)).2.2.trace,
          e.isUpdateClusterStatus cfg.ClusterID = true) ∧
      ∀ e ∈ (s.SyncAdoptedServer R as (World.start w)).2.2.trace,
          e.isRegisterCluster = false) := by
  by_cases hid : cfg.ClusterID = ""
  · refine ⟨⟨fun _ => hid, fun _ => ?_⟩, fun h => absurd hid h⟩
    have hb := SyncAdoptedServer_register_branch R s as cfg (World.start w) hcfg hen hid
    rcases hres : s.registerCluster R as cfg (World.start w) with ⟨r, σ1⟩
    cases r with
    | error err =>
      rw [(hb.1 err σ1 hres).2]
      exact ⟨_, List.mem_append_right _ (List.mem_singleton_self _),
        by simp [Effect.isRegisterCluster]⟩
    | ok resp =>
      rw [(hb.2 resp σ1 hres).2]
      exact ⟨_, List.mem_append_right _ (List.mem_cons_self _ _),
        by simp [Effect.isRegisterCluster]⟩
  · have key := SyncAdoptedServer_update_requests R s as cfg w hcfg hen hid
    refine ⟨⟨fun ⟨e, he, hreg⟩ => ?_, fun h => absurd h hid⟩, fun _ => key⟩
    have := key.2 e he
    simp [this] at hreg

/-- C1 on a resource without identifier (a register-cluster request is issued) and with the
identifier `"c-1"` (an update for `"c-1"` is issued, no register-cluster request). -/
theorem SyncAdoptedServer_registers_iff_no_cluster_id_witness :
    (∃ e ∈ (sampleService.SyncAdoptedServer (sampleRemote "c-1")
        (sampleServer [] none true (some (sampleConfig ""))) (World.start 0)).2.2.trace,
        e.isRegisterCluster = true) ∧
    ((∃ e ∈ (sampleService.SyncAdoptedServer (sampleRemote "c-1")
        (sampleServer [] none true (some (sampleConfig "c-1"))) (World.start 0)).2.2.trace,
        e.isUpdateClusterStatus "c-1" = true) ∧
     ∀ e ∈ (sampleService.SyncAdoptedServer (sampleRemote "c-1")
        (sampleServer [] none true (some (sampleConfig "c-1"))) (World.start 0)).2.2.trace,
        e.isRegisterCluster = false) :=
  ⟨(SyncAdoptedServer_registers_iff_no_cluster_id (sampleRemote "c-1") sampleService
      (sampleServer [] none true (some (sampleConfig ""))) (sampleConfig "") 0 rfl rfl).1.mpr rfl,
   (SyncAdoptedServer_registers_iff_no_cluster_id (sampleRemote "c-1") sampleService
      (sampleServer [] none true (some (sampleConfig "c-1"))) (sampleConfig "c-1") 0 rfl rfl).2
      (by decide)⟩

/-- C2: for every AdoptedServer whose `Spec.ManagementAPI.ClusterID` is not empty,
`SyncAdoptedServer` leaves `ClusterID` unchanged (indeed the whole resource), whatever the
registry answers to the update-cluster-status and node register requests. -/
theorem SyncAdoptedServer_keeps_cluster_id {W : Type} (R : Remote W) (s : SyncService)
    (as : AdoptedServer) (cfg : ManagementAPIConfig) (σ : World W)
    (hcfg : as.Spec.ManagementAPI = some cfg) (hid : cfg.ClusterID ≠ "") :
    (s.SyncAdoptedServer R as σ).2.1.Spec.ManagementAPI = some cfg ∧
    (s.SyncAdoptedServer R as σ).2.1 = as := by
  have hsame : (s.SyncAdoptedServer R as σ).2.1 = as := by
    by_cases hen : cfg.Enabled = true
    · exact (SyncAdoptedServer_update_branch R s as cfg σ hcfg hen hid).1
    · simp [SyncService.SyncAdoptedServer, hcfg, hen]
  exact ⟨by rw [hsame, hcfg], hsame⟩

/-- C2 on the sample resource with identifier `"c-1"`, against a registry that would hand
out `"c-2"`. -/
theorem SyncAdoptedServer_keeps_cluster_id_witness :
    (sampleService.SyncAdoptedServer (sampleRemote "c-2")
        (sampleServer [] none true (some (sampleConfig "c-1")))
        (World.start 0)).2.1.Spec.ManagementAPI = some (sampleConfig "c-1") :=
  (SyncAdoptedServer_keeps_cluster_id (sampleRemote "c-2") sampleService
    (sampleServer [] none true (some (sampleConfig "c-1"))) (sampleConfig "c-1")
    (World.start 0) rfl (by decide)).1

/-- C3, as stated, fails when the registry answers the registration with an empty
`cluster_id`: on the sample resource without identifier the register-cluster request
succeeds with `cluster_id = ""`, `SyncAdoptedServer` returns no error and stores `""`, and
the next invocation on the resulting resource issues exactly two requests, the first a
register-cluster request again, the second the node register request (no update). -/
theorem SyncAdoptedServer_empty_cluster_id_registers_again :
    (sampleService.registerCluster (sampleRemote "")
        (sampleServer [] none true (some (sampleConfig ""))) (sampleConfig "")
        (World.start 0)).1
      = .ok { ClusterID := "", Name := "edge", Status := "registered", Message := "" } ∧
    (sampleService.SyncAdoptedServer (sampleRemote "")
        (sampleServer [] none true (some (sampleConfig ""))) (World.start 0)).1 = none ∧
    (sampleService.SyncAdoptedServer (sampleRemote "")
        (sampleServer [] none true (some (sampleConfig ""))) (World.start 0)).2.1
      = sampleServer [] none true (some (sampleConfig "")) ∧
    (sampleService.SyncAdoptedServer (sampleRemote "")
        (sampleService.SyncAdoptedServer (sampleRemote "")
          (sampleServer [] none true (some (sampleConfig ""))) (World.start 0)).2.1
        (World.start 1)).2.2.trace.map Effect.isRegisterCluster = [true, false] ∧
    (sampleService.SyncAdoptedServer (sampleRemote "")
        (sampleService.SyncAdoptedServer (sampleRemote "")
          (sampleServer [] none true (some (sampleConfig ""))) (World.start 0)).2.1
        (World.start 1)).2.2.trace.map Effect.isRegisterNode = [false, true] := by
  refine ⟨rfl, rfl, rfl, ?_, ?_⟩ <;> decide

/-- C3 (amended): for every AdoptedServer with integration enabled and an empty `ClusterID`,
when the register-cluster request succeeds `SyncAdoptedServer` stores the returned
`cluster_id` in `Spec.ManagementAPI.ClusterID`; and when that `cluster_id` is not empty, the
next `SyncAdoptedServer` invocation on the resource (any client, any state of the registry)
issues an update-cluster-status request for it and no register-cluster request. -/
theorem SyncAdoptedServer_stores_cluster_id {W : Type} (R R' : Remote W)
    (s s' : SyncService) (as : AdoptedServer) (cfg : ManagementAPIConfig) (σ σ1 : World W)
    (w' : W) (resp : ClusterRegisterResponse)
    (hcfg : as.Spec.ManagementAPI = some cfg) (hen : cfg.Enabled = true)
    (hid : cfg.ClusterID = "")
    (hreg : s.registerCluster R as cfg σ = (.ok resp, σ1)) :
    (s.SyncAdoptedServer R as σ).2.1.Spec.ManagementAPI
      = some { cfg with ClusterID := resp.ClusterID } ∧
    (resp.ClusterID ≠ "" →
      (∃ e ∈ (s'.SyncAdoptedServer R' (s.SyncAdoptedServer R as σ).2.1
          (World.start w')).2.2.trace, e.isUpdateClusterStatus resp.ClusterID = true) ∧
      ∀ e ∈ (s'.SyncAdoptedServer R' (s.SyncAdoptedServer R as σ).2.1
          (World.start w')).2.2.trace, e.isRegisterCluster = false) := by
  have hb := ((SyncAdoptedServer_register_branch R s as cfg σ hcfg hen hid).2 resp σ1 hreg).1
  refine ⟨by rw [hb], fun hne => ?_⟩
  rw [hb]
  exact SyncAdoptedServer_update_requests R' s'
    { as with Spec := { as.Spec with
        ManagementAPI := some { cfg with ClusterID := resp.ClusterID } } }
    { cfg with ClusterID := resp.ClusterID } w' rfl hen hne

/-- C3 (amended) on the sample resource, the registry handing out `"c-1"`. -/
theorem SyncAdoptedServer_stores_cluster_id_witness :
    (sampleService.SyncAdoptedServer (sampleRemote "c-1")
        (sampleServer [] none true (some (sampleConfig ""))) (World.start 0)).2.1.Spec.ManagementAPI
      = some (sampleConfig "c-1") ∧
    ∀ e ∈ (sampleService.SyncAdoptedServer (sampleRemote "c-1")
        (sampleService.SyncAdoptedServer (sampleRemote "c-1")
          (sampleServer [] none true (some (sampleConfig ""))) (World.start 0)).2.1
        (World.start 2)).2.2.trace, e.isRegisterCluster = false :=
  ⟨(SyncAdoptedServer_stores_cluster_id (sampleRemote "c-1") (sampleRemote "c-1")
      sampleService sampleService (sampleServer [] none true (some (sampleConfig "")))
      (sampleConfig "") (World.start 0) _ 2 _ rfl rfl rfl rfl).1,
   ((SyncAdoptedServer_stores_cluster_id (sampleRemote "c-1") (sampleRemote "c-1")
      sampleService sampleService (sampleServer [] none true (some (sampleConfig "")))
      (sampleConfig "") (World.start 0) _ 2 _ rfl rfl rfl rfl).2 (by decide)).2⟩

/-! ## Theorems: conditions -/

/-- Two conditions of one type are not ordered by `lexicographicLess`. -/
theorem lexicographicLess_same_type (a b : Condition) (h : a.Type_ = b.Type_) :
    conditions.lexicographicLess b a = false := by
  by_cases hr : a.Type_ = ReadyCondition
  · simp [conditions.lexicographicLess, hr]
  · have hb : b.Type_ ≠ ReadyCondition := fun e => hr (h.trans e)
    simp [conditions.lexicographicLess, hb, h]

/-- The sort of `sortConditions` is stable: the entries of one type keep their order. -/
theorem filter_sortConditions (t : String) (l : List Condition) :
    (conditions.sortConditions l).filter (fun c => c.Type_ == t)
      = l.filter (fun c => c.Type_ == t) := by
  have hpair : (l.filter (fun c => c.Type_ == t)).Pairwise
      (fun a b => conditions.lexicographicLess b a = false) := by
    apply List.pairwise_of_forall_mem_list
    intro a ha b hb
    have ha' : a.Type_ = t := by simpa using (List.mem_filter.mp ha).2
    have hb' : b.Type_ = t := by simpa using (List.mem_filter.mp hb).2
    exact lexicographicLess_same_type a b (ha'.trans hb'.symm)
  have hsub : List.Sublist (l.filter (fun c => c.Type_ == t)) (conditions.sortConditions l) :=
    List.sublist_insertionSort hpair (List.filter_sublist l)
  have hsub' := hsub.filter (fun c => c.Type_ == t)
  rw [List.filter_filter] at hsub'
  simp only [Bool.and_self] at hsub'
  have hperm : ((conditions.sortConditions l).filter (fun c => c.Type_ == t)).Perm
      (l.filter (fun c => c.Type_ == t)) :=
    (List.perm_insertionSort _ l).filter _
  exact (hsub'.eq_of_length hperm.length_eq.symm).symm

/-- Sorting does not change which entry `Get` finds for a type. -/
theorem find?_sortConditions (t : String) (l : List Condition) :
    (conditions.sortConditions l).find? (fun c => c.Type_ == t)
      = l.find? (fun c => c.Type_ == t) := by
  rw [← List.filter_head?, ← List.filter_head?, filter_sortConditions]

/-- After the loop of `conditions.Set` (and the append when the type was absent), the first
entry of the type of `condition` has the state of `condition`. -/
theorem find?_setLoop (now : Time) (condition : Condition) (l : List Condition) :
    ∃ c, (if (conditions.setLoop now condition l).2 then (conditions.setLoop now condition l).1
          else (conditions.setLoop now condition l).1 ++ [{ condition with
            LastTransitionTime :=
              if condition.LastTransitionTime = 0 then now
              else condition.LastTransitionTime }]).find?
            (fun x => x.Type_ == condition.Type_) = some c ∧
      conditions.HasSameState c condition = true := by
  induction l with
  | nil =>
    exact ⟨{ condition with
        LastTransitionTime :=
          if condition.LastTransitionTime = 0 then now else condition.LastTransitionTime },
      by simp [conditions.setLoop], by simp [conditions.HasSameState]⟩
  | cons x rest ih =>
    by_cases hx : x.Type_ = condition.Type_
    · by_cases hs : conditions.HasSameState x condition = true
      · exact ⟨x, by simp [conditions.setLoop, hx, hs], hs⟩
      · exact ⟨{ condition with LastTransitionTime := now },
          by simp [conditions.setLoop, hx, hs], by simp [conditions.HasSameState]⟩
    · obtain ⟨c, hc, hstate⟩ := ih
      refine ⟨c, ?_, hstate⟩
      simp only [conditions.setLoop, hx, if_false, List.cons_eq_cons]
      by_cases hflag : (conditions.setLoop now condition rest).2 = true
      · simp only [hflag, if_true] at hc ⊢
        simpa [List.find?_cons, hx] using hc
      · simp only [hflag] at hc ⊢
        simpa [List.find?_cons, hx] using hc

/-- After `conditions.Set`, `conditions.Get` of the type of the condition returns a
condition with the state (status, reason, severity, message) that was set. -/
theorem Get_Set (now : Time) (to_ : AdoptedServer) (condition : Condition) :
    ∃ c, conditions.Get (conditions.Set now to_ condition) condition.Type_ = some c ∧
      conditions.HasSameState c condition = true := by
  obtain ⟨c, hc, hstate⟩ := find?_setLoop now condition to_.GetConditions
  refine ⟨c, ?_, hstate⟩
  simp only [conditions.Get, conditions.Set, AdoptedServer.GetConditions,
    AdoptedServer.SetConditions]
  rw [find?_sortConditions]
  exact hc

/-- The function `conditions.Set` writes the condition list only. -/
theorem Set_frame (now : Time) (to_ : AdoptedServer) (condition : Condition) :
    (conditions.Set now to_ condition).Status.Ready = to_.Status.Ready ∧
    (conditions.Set now to_ condition).Status.Connected = to_.Status.Connected ∧
    (conditions.Set now to_ condition).Spec = to_.Spec ∧
    (conditions.Set now to_ condition).Finalizers = to_.Finalizers ∧
    (conditions.Set now to_ condition).DeletionTimestamp = to_.DeletionTimestamp := by
  simp [conditions.Set, AdoptedServer.SetConditions]

/-! ## Theorems: the reconciler -/

open AdoptedServerReconciler

/-- The function `AddFinalizer` writes the finalizer list only. -/
theorem AddFinalizer_frame (o : AdoptedServer) (finalizer : String) :
    (AddFinalizer o finalizer).Spec = o.Spec ∧ (AddFinalizer o finalizer).Status = o.Status ∧
    (AddFinalizer o finalizer).DeletionTimestamp = o.DeletionTimestamp := by
  unfold AddFinalizer
  split <;> simp

/-- The acceptance check on a resource that is not accepted: readiness is cleared, the
`Adopted` condition is marked false, the default requeue is returned, and nothing is done
to the world. -/
theorem checkAccepted_not_accepted {W : Type} (P : Platform) (H : Hooks) (R : Remote W)
    (as : AdoptedServer) (σ : World W) (hacc : as.Spec.Accepted = false) :
    (checkAccepted P H R as σ).result = { RequeueAfter := P.DefaultRequeueAfter } ∧
    (checkAccepted P H R as σ).err = none ∧
    (checkAccepted P H R as σ).world = σ ∧
    (checkAccepted P H R as σ).as.Status.Ready = false ∧
    ∃ c, conditions.Get (checkAccepted P H R as σ).as ConditionAdopted = some c ∧
      c.Status = ConditionFalse ∧ c.Reason = "NotAccepted" ∧
      c.Severity = ConditionSeverityInfo := by
  obtain ⟨c, hc, hstate⟩ := Get_Set P.clock.adopted
    { as with Status := { as.Status with Ready := false } }
    (conditions.FalseCondition ConditionAdopted "NotAccepted" ConditionSeverityInfo
      "Server not accepted for management")
  have hready := (Set_frame P.clock.adopted
    { as with Status := { as.Status with Ready := false } }
    (conditions.FalseCondition ConditionAdopted "NotAccepted" ConditionSeverityInfo
      "Server not accepted for management")).1
  simp only [conditions.HasSameState, conditions.FalseCondition, Bool.and_eq_true,
    beq_iff_eq] at hstate
  simp only [checkAccepted, hacc, conditions.MarkFalse]
  refine ⟨rfl, rfl, rfl, hready, c, hc, hstate.1.1.1.2, hstate.1.1.2, hstate.1.2⟩

/-- C7, as stated, fails when the finalizer has to be added and the patch that persists it
fails: the sample resource (no deletion timestamp, not accepted, no finalizer, `Ready`
true) stays ready and gets no `Adopted` condition, and `Reconcile` returns the error of the
patch with no requeue delay. -/
theorem Reconcile_not_accepted_patch_failure :
    (Reconcile (samplePlatform (sampleServer [] none false none) (some "conflict") none)
        (sourceHooks sampleClock) (sampleRemote "c-1") "node-1" (World.start 0)).err
      = some "conflict" ∧
    (Reconcile (samplePlatform (sampleServer [] none false none) (some "conflict") none)
        (sourceHooks sampleClock) (sampleRemote "c-1") "node-1" (World.start 0)).result
      = { Requeue := false, RequeueAfter := 0 } ∧
    ((Reconcile (samplePlatform (sampleServer [] none false none) (some "conflict") none)
        (sourceHooks sampleClock) (sampleRemote "c-1") "node-1" (World.start 0)).as.map
        (fun as => (as.Status.Ready, conditions.Get as ConditionAdopted)))
      = some (true, none) := by
  decide

/-- The method `Reconcile` on a loaded resource whose patch helper is created: the result of
the rest of the function, followed by the deferred patch. -/
theorem Reconcile_found {W : Type} (P : Platform) (H : Hooks) (R : Remote W) (req : String)
    (as : AdoptedServer) (σ : World W)
    (hget : P.Get req = GetResult.found as) (hhelper : P.NewHelper as = none) :
    Reconcile P H R req σ
      = { result := (reconcileLoaded P H R as σ).result
          err := (reconcileLoaded P H R as σ).err
          as := some (reconcileLoaded P H R as σ).as
          world := (reconcileLoaded P H R as σ).world.log
            (Effect.deferredPatch (reconcileLoaded P H R as σ).as) } := by
  simp [Reconcile, hget, hhelper]

/-- A live resource that carries the finalizer goes straight to the acceptance check. -/
theorem reconcileLoaded_with_finalizer {W : Type} (P : Platform) (H : Hooks) (R : Remote W)
    (as : AdoptedServer) (σ : World W) (href : P.GetReference as = none)
    (hdel : Time.IsZero as.DeletionTimestamp = true)
    (hc : ContainsFinalizer as adoptedServerFinalizer = true) :
    reconcileLoaded P H R as σ = checkAccepted P H R as σ := by
  simp [reconcileLoaded, href, hdel, hc]

/-- A live resource without the finalizer gets it, and goes to the acceptance check when the
patch that persists it succeeds. -/
theorem reconcileLoaded_add_finalizer {W : Type} (P : Platform) (H : Hooks) (R : Remote W)
    (as : AdoptedServer) (σ : World W) (href : P.GetReference as = none)
    (hdel : Time.IsZero as.DeletionTimestamp = true)
    (hc : ¬ ContainsFinalizer as adoptedServerFinalizer = true)
    (hpatch : P.Patch (AddFinalizer as adoptedServerFinalizer) = none) :
    reconcileLoaded P H R as σ
      = checkAccepted P H R (AddFinalizer as adoptedServerFinalizer)
          (σ.log (Effect.patch (AddFinalizer as adoptedServerFinalizer))) := by
  simp [reconcileLoaded, href, hdel, hc, hpatch]

/-- Logging an effect that is not a probe call leaves the probe calls as they are. -/
theorem probes_log {W : Type} (σ : World W) (e : Effect) (h : e.isProbe = false) :
    (σ.log e).probes = σ.probes := by
  simp [World.probes, World.log, List.filter_append, h]

/-- Recording an event leaves the probe calls as they are. -/
theorem probes_Event {W : Type} (σ : World W) (eventtype reason message : String) :
    (σ.Event eventtype reason message).probes = σ.probes := by
  simp [World.probes, World.Event, List.filter_append, Effect.isProbe]

/-- A call of `doRequest` is not a probe call. -/
theorem doRequest_probes {W ρ : Type} (R : Remote W) (c : Client) (method : Method)
    (path : String) (body : Option RequestBody) (unmarshal : String → Except String ρ)
    (σ : World W) :
    (doRequest R c method path body unmarshal σ).2.probes = σ.probes := by
  simp [World.probes, doRequest_trace, List.filter_append, Effect.isProbe]

/-- The method `SyncAdoptedServer` writes the spec only and makes no probe call. -/
theorem SyncAdoptedServer_frame {W : Type} (R : Remote W) (s : SyncService)
    (as : AdoptedServer) (σ : World W) :
    (s.SyncAdoptedServer R as σ).2.1.Status = as.Status ∧
    (s.SyncAdoptedServer R as σ).2.2.probes = σ.probes := by
  cases hcfg : as.Spec.ManagementAPI with
  | none => simp [SyncService.SyncAdoptedServer, hcfg]
  | some cfg =>
    by_cases hen : cfg.Enabled = true
    · by_cases hid : cfg.ClusterID = ""
      · have hb := SyncAdoptedServer_register_branch R s as cfg σ hcfg hen hid
        rcases hres : s.registerCluster R as cfg σ with ⟨r, σ1⟩
        cases r with
        | error err =>
          obtain ⟨h1, h2⟩ := hb.1 err σ1 hres
          refine ⟨by rw [h1], ?_⟩
          simp [World.probes, h2, List.filter_append, Effect.isProbe]
        | ok resp =>
          obtain ⟨h1, h2⟩ := hb.2 resp σ1 hres
          refine ⟨by rw [h1], ?_⟩
          simp [World.probes, h2, List.filter_append, Effect.isProbe]
      · obtain ⟨h1, h2⟩ := SyncAdoptedServer_update_branch R s as cfg σ hcfg hen hid
        refine ⟨by rw [h1], ?_⟩
        rcases h2 with h2 | h2 <;>
          simp [World.probes, h2, List.filter_append, Effect.isProbe]
    · simp [SyncService.SyncAdoptedServer, hcfg, hen]

/-- The method `syncWithManagementAPI` writes the spec only and makes no probe call. -/
theorem syncWithManagementAPI_frame {W : Type} (R : Remote W) (as : AdoptedServer)
    (cfg : ManagementAPIConfig) (σ : World W) :
    (syncWithManagementAPI R as cfg σ).2.1.Status = as.Status ∧
    (syncWithManagementAPI R as cfg σ).2.2.probes = σ.probes := by
  unfold syncWithManagementAPI
  cases hclient : NewClient R cfg.Endpoint [] with
  | error err => simp
  | ok client =>
    dsimp only
    have hh : (client.HealthCheck R σ).2.probes = σ.probes :=
      doRequest_probes R client Method.GET "/health" none R.unmarshalHealthCheckResponse σ
    rcases hhealth : client.HealthCheck R σ with ⟨r, σ1⟩
    rw [hhealth] at hh
    cases r with
    | error err => exact ⟨rfl, hh⟩
    | ok resp =>
      dsimp only
      obtain ⟨h1, h2⟩ := SyncAdoptedServer_frame R (NewSyncService client) as σ1
      rcases hsync : (NewSyncService client).SyncAdoptedServer R as σ1 with ⟨e, as1, σ2⟩
      rw [hsync] at h1 h2
      cases e <;> exact ⟨h1, h2.trans hh⟩

/-- The function `conditions.Delete` writes the condition list only. -/
theorem Delete_frame (to_ : AdoptedServer) (t : String) :
    (conditions.Delete to_ t).Status.Ready = to_.Status.Ready ∧
    (conditions.Delete to_ t).Status.Connected = to_.Status.Connected ∧
    (conditions.Delete to_ t).Spec = to_.Spec := by
  simp [conditions.Delete, AdoptedServer.SetConditions]

/-- Step 2 keeps `Status.Connected` and makes no probe call. -/
theorem stepGatherNodeInfo_frame {W : Type} (H : Hooks) (as : AdoptedServer) (σ : World W) :
    (stepGatherNodeInfo H as σ).1.Status.Connected = as.Status.Connected ∧
    (stepGatherNodeInfo H as σ).2.probes = σ.probes :=
  ⟨rfl, probes_log σ _ rfl⟩

/-- Step 3 keeps `Status.Connected` and makes no probe call. -/
theorem stepHealthCheck_frame {W : Type} (H : Hooks) (as : AdoptedServer) (σ : World W) :
    (stepHealthCheck H as σ).1.Status.Connected = as.Status.Connected ∧
    (stepHealthCheck H as σ).2.probes = σ.probes :=
  ⟨rfl, probes_log σ _ rfl⟩

/-- Step 4 keeps `Status.Connected` and makes no probe call, whether SideroLink is enabled
or not and whether its setup fails or not. -/
theorem stepSideroLink_frame {W : Type} (P : Platform) (H : Hooks) (as : AdoptedServer)
    (σ : World W) :
    (stepSideroLink P H as σ).1.Status.Connected = as.Status.Connected ∧
    (stepSideroLink P H as σ).2.probes = σ.probes := by
  unfold stepSideroLink
  cases hlink : as.Spec.SideroLink with
  | none => exact ⟨(Delete_frame as _).2.1, rfl⟩
  | some link =>
    dsimp only
    by_cases hen : link.Enabled = true
    · rw [if_pos hen]
      cases herr : (H.setupSideroLink as).2.2 with
      | none =>
        dsimp only
        exact ⟨(Set_frame _ _ _).2.1, probes_log σ _ rfl⟩
      | some err =>
        dsimp only
        exact ⟨(Set_frame _ _ _).2.1, (probes_Event _ _ _ _).trans (probes_log σ _ rfl)⟩
    · rw [if_neg hen]
      exact ⟨(Delete_frame as _).2.1, rfl⟩

/-- Step 5 keeps `Status.Connected` and makes no probe call, whether the integration is
enabled or not and whether the sync fails or not. -/
theorem stepManagementAPI_frame {W : Type} (P : Platform) (R : Remote W) (as : AdoptedServer)
    (σ : World W) :
    (stepManagementAPI P R as σ).1.Status.Connected = as.Status.Connected ∧
    (stepManagementAPI P R as σ).2.probes = σ.probes := by
  unfold stepManagementAPI
  cases hcfg : as.Spec.ManagementAPI with
  | none => exact ⟨(Delete_frame as _).2.1, rfl⟩
  | some cfg =>
    dsimp only
    by_cases hen : cfg.Enabled = true
    · rw [if_pos hen]
      obtain ⟨h1, h2⟩ := syncWithManagementAPI_frame R as cfg
        (σ.log Effect.syncWithManagementAPI)
      rw [probes_log σ Effect.syncWithManagementAPI rfl] at h2
      rcases hsync : syncWithManagementAPI R as cfg (σ.log Effect.syncWithManagementAPI)
        with ⟨e, as1, σ1⟩
      rw [hsync] at h1 h2
      have hconn : as1.Status.Connected = as.Status.Connected := by
        have : as1.Status = as.Status := h1
        rw [this]
      cases e with
      | none =>
        dsimp only
        exact ⟨((Set_frame _ _ _).2.1).trans hconn, h2⟩
      | some err =>
        dsimp only
        exact ⟨((Set_frame _ _ _).2.1).trans hconn, (probes_Event _ _ _ _).trans h2⟩
    · rw [if_neg hen]
      exact ⟨(Delete_frame as _).2.1, rfl⟩

/-- The end of `reconcileNormal` sets `Ready` to `Connected`, returns no error and the
health-check interval, and makes no probe call. -/
theorem finishNormal_spec {W : Type} (as : AdoptedServer) (σ : World W) :
    (finishNormal as σ).as.Status.Ready = as.Status.Connected ∧
    (finishNormal as σ).as.Status.Connected = as.Status.Connected ∧
    (finishNormal as σ).err = none ∧
    (finishNormal as σ).result = { RequeueAfter := healthCheckInterval } ∧
    (finishNormal as σ).world.probes = σ.probes := by
  refine ⟨rfl, rfl, rfl, rfl, ?_⟩
  unfold finishNormal
  dsimp only
  split
  · exact probes_Event _ _ _ _
  · rfl

/-- Logging a probe call adds it to the probe calls. -/
theorem probes_log_probe {W : Type} (σ : World W) (connected : Bool) (err : Option String) :
    (σ.log (Effect.checkTalosConnectivity connected err)).probes
      = σ.probes ++ [Effect.checkTalosConnectivity connected err] := by
  simp [World.probes, World.log, List.filter_append, Effect.isProbe]

/-- The part of `reconcileNormal` after a successful probe keeps `Status.Connected`, sets
`Ready` to it, returns no error and makes no probe call, whatever steps 2 to 5 do. -/
theorem afterConnected_spec {W : Type} (P : Platform) (H : Hooks) (R : Remote W)
    (as : AdoptedServer) (σ : World W) :
    (afterConnected P H R as σ).as.Status.Connected = as.Status.Connected ∧
    (afterConnected P H R as σ).as.Status.Ready
      = (afterConnected P H R as σ).as.Status.Connected ∧
    (afterConnected P H R as σ).err = none ∧
    (afterConnected P H R as σ).world.probes = σ.probes := by
  obtain ⟨g1, g2⟩ := stepGatherNodeInfo_frame H as σ
  obtain ⟨c1, c2⟩ := stepHealthCheck_frame H (stepGatherNodeInfo H as σ).1
    (stepGatherNodeInfo H as σ).2
  obtain ⟨l1, l2⟩ := stepSideroLink_frame P H
    (stepHealthCheck H (stepGatherNodeInfo H as σ).1 (stepGatherNodeInfo H as σ).2).1
    (stepHealthCheck H (stepGatherNodeInfo H as σ).1 (stepGatherNodeInfo H as σ).2).2
  obtain ⟨m1, m2⟩ := stepManagementAPI_frame P R
    (stepSideroLink P H
      (stepHealthCheck H (stepGatherNodeInfo H as σ).1 (stepGatherNodeInfo H as σ).2).1
      (stepHealthCheck H (stepGatherNodeInfo H as σ).1 (stepGatherNodeInfo H as σ).2).2).1
    (stepSideroLink P H
      (stepHealthCheck H (stepGatherNodeInfo H as σ).1 (stepGatherNodeInfo H as σ).2).1
      (stepHealthCheck H (stepGatherNodeInfo H as σ).1 (stepGatherNodeInfo H as σ).2).2).2
  obtain ⟨f1, f2, f3, _, f5⟩ := finishNormal_spec
    (stepManagementAPI P R
      (stepSideroLink P H
        (stepHealthCheck H (stepGatherNodeInfo H as σ).1 (stepGatherNodeInfo H as σ).2).1
        (stepHealthCheck H (stepGatherNodeInfo H as σ).1 (stepGatherNodeInfo H as σ).2).2).1
      (stepSideroLink P H
        (stepHealthCheck H (stepGatherNodeInfo H as σ).1 (stepGatherNodeInfo H as σ).2).1
        (stepHealthCheck H (stepGatherNodeInfo H as σ).1 (stepGatherNodeInfo H as σ).2).2).2).1
    (stepManagementAPI P R
      (stepSideroLink P H
        (stepHealthCheck H (stepGatherNodeInfo H as σ).1 (stepGatherNodeInfo H as σ).2).1
        (stepHealthCheck H (stepGatherNodeInfo H as σ).1 (stepGatherNodeInfo H as σ).2).2).1
      (stepSideroLink P H
        (stepHealthCheck H (stepGatherNodeInfo H as σ).1 (stepGatherNodeInfo H as σ).2).1
        (stepHealthCheck H (stepGatherNodeInfo H as σ).1 (stepGatherNodeInfo H as σ).2).2).2).2
  unfold afterConnected
  dsimp only
  exact ⟨f2.trans (m1.trans (l1.trans (c1.trans g1))), f1.trans f2.symm, f3,
    f5.trans (m2.trans (l2.trans (c2.trans g2)))⟩

/-- The method `reconcileNormal`: it calls the probe exactly once, on the resource marked
adopted; it returns no error; afterwards `Ready` implies `Connected`; and when the probe
returned reachable without error both are true, whatever the later steps did. -/
theorem reconcileNormal_spec {W : Type} (P : Platform) (H : Hooks) (R : Remote W)
    (as : AdoptedServer) (σ : World W) :
    (reconcileNormal P H R as σ).world.probes
      = σ.probes ++ [Effect.checkTalosConnectivity
          (H.checkTalosConnectivity (conditions.MarkTrue P.clock.adopted as ConditionAdopted)).1
          (H.checkTalosConnectivity (conditions.MarkTrue P.clock.adopted as ConditionAdopted)).2] ∧
    (reconcileNormal P H R as σ).err = none ∧
    ((reconcileNormal P H R as σ).as.Status.Ready = true →
      (reconcileNormal P H R as σ).as.Status.Connected = true) ∧
    ((H.checkTalosConnectivity (conditions.MarkTrue P.clock.adopted as ConditionAdopted)).1 = true →
      (H.checkTalosConnectivity (conditions.MarkTrue P.clock.adopted as ConditionAdopted)).2 = none →
      (reconcileNormal P H R as σ).as.Status.Connected = true ∧
      (reconcileNormal P H R as σ).as.Status.Ready = true) := by
  unfold reconcileNormal
  dsimp only
  cases herr :
      (H.checkTalosConnectivity (conditions.MarkTrue P.clock.adopted as ConditionAdopted)).2 with
  | some err =>
    dsimp only
    refine ⟨?_, rfl, fun h => by simp at h, fun _ h => by simp at h⟩
    exact (probes_Event _ _ _ _).trans (probes_log_probe σ _ _)
  | none =>
    dsimp only
    cases hconn :
        (H.checkTalosConnectivity (conditions.MarkTrue P.clock.adopted as ConditionAdopted)).1 with
    | false =>
      refine ⟨?_, rfl, fun h => by simp at h, fun h _ => by simp at h⟩
      exact (probes_Event _ _ _ _).trans (probes_log_probe σ _ _)
    | true =>
      obtain ⟨a1, a2, a3, a4⟩ := afterConnected_spec P H R
        { conditions.MarkTrue P.clock.connected
            (conditions.MarkTrue P.clock.adopted as ConditionAdopted) ConditionConnected with
          Status := { (conditions.MarkTrue P.clock.connected
              (conditions.MarkTrue P.clock.adopted as ConditionAdopted)
              ConditionConnected).Status with
            Connected := true, LastContactTime := some P.clock.lastContact } }
        (σ.log (Effect.checkTalosConnectivity true none))
      refine ⟨?_, a3, fun _ => a1, fun _ _ => ⟨a1, a2.trans a1⟩⟩
      exact a4.trans (probes_log_probe σ _ _)

/-- An accepted resource passes the acceptance check into `reconcileNormal`. -/
theorem checkAccepted_accepted {W : Type} (P : Platform) (H : Hooks) (R : Remote W)
    (as : AdoptedServer) (σ : World W) (hacc : as.Spec.Accepted = true) :
    checkAccepted P H R as σ = reconcileNormal P H R as σ := by
  simp [checkAccepted, hacc]

/-- A probe call that is in the trace is among the probe calls. -/
theorem mem_probes {W : Type} (σ : World W) (connected : Bool) (err : Option String)
    (h : Effect.checkTalosConnectivity connected err ∈ σ.trace) :
    Effect.checkTalosConnectivity connected err ∈ σ.probes := by
  simp [World.probes, List.mem_filter, h, Effect.isProbe]

/-- C8: for every accepted resource with no deletion timestamp for which the connectivity
probe returns reachable with no error (the invocation calls the probe and gets `true, nil`),
after one `Reconcile` invocation `Status.Connected = true` and `Status.Ready = true`,
whatever the outcomes of node-info gathering, health check, link setup and remote sync. -/
theorem Reconcile_reachable_ready {W : Type} (P : Platform) (H : Hooks) (R : Remote W)
    (req : String) (as : AdoptedServer) (w : W)
    (hget : P.Get req = GetResult.found as)
    (hdel : Time.IsZero as.DeletionTimestamp = true) (hacc : as.Spec.Accepted = true)
    (hprobe : Effect.checkTalosConnectivity true none
      ∈ (Reconcile P H R req (World.start w)).world.trace) :
    ∃ as', (Reconcile P H R req (World.start w)).as = some as' ∧
      as'.Status.Connected = true ∧ as'.Status.Ready = true := by
  cases hhelper : P.NewHelper as with
  | some err => simp [Reconcile, hget, hhelper, World.start] at hprobe
  | none =>
    rw [Reconcile_found P H R req as _ hget hhelper] at hprobe ⊢
    have hp := mem_probes _ _ _ hprobe
    rw [probes_log _ (Effect.deferredPatch _) rfl] at hp
    refine ⟨_, rfl, ?_⟩
    cases href : P.GetReference as with
    | some err => simp [reconcileLoaded, href, World.probes, World.start] at hp
    | none =>
      have key : ∀ (as1 : AdoptedServer) (σ1 : World W), as1.Spec.Accepted = true →
          σ1.probes = [] →
          Effect.checkTalosConnectivity true none ∈ (checkAccepted P H R as1 σ1).world.probes →
          (checkAccepted P H R as1 σ1).as.Status.Connected = true ∧
          (checkAccepted P H R as1 σ1).as.Status.Ready = true := by
        intro as1 σ1 hacc1 hσ1 hmem
        rw [checkAccepted_accepted P H R as1 σ1 hacc1] at hmem ⊢
        obtain ⟨s1, _, _, s4⟩ := reconcileNormal_spec P H R as1 σ1
        rw [s1, hσ1] at hmem
        simp only [List.nil_append, List.mem_singleton, Effect.checkTalosConnectivity.injEq] at hmem
        exact s4 hmem.1.symm hmem.2.symm
      by_cases hc : ContainsFinalizer as adoptedServerFinalizer = true
      · rw [reconcileLoaded_with_finalizer P H R as _ href hdel hc] at hp ⊢
        exact key as _ hacc rfl hp
      · cases hpatch : P.Patch (AddFinalizer as adoptedServerFinalizer) with
        | some err =>
          simp [reconcileLoaded, href, hdel, hc, hpatch, World.probes, World.start, World.log,
            Effect.isProbe] at hp
        | none =>
          rw [reconcileLoaded_add_finalizer P H R as _ href hdel hc hpatch] at hp ⊢
          refine key _ _ ?_ (probes_log _ (Effect.patch _) rfl) hp
          rw [(AddFinalizer_frame as adoptedServerFinalizer).1]; exact hacc

/-- C8 on the sample resource, accepted, with the placeholders of the source (whose probe
always returns `true, nil`). -/
theorem Reconcile_reachable_ready_witness :
    ∃ as', (Reconcile (samplePlatform (sampleServer [] none true none) none none)
        (sourceHooks sampleClock) (sampleRemote "c-1") "node-1" (World.start 0)).as = some as' ∧
      as'.Status.Connected = true ∧ as'.Status.Ready = true :=
  Reconcile_reachable_ready (samplePlatform (sampleServer [] none true none) none none)
    (sourceHooks sampleClock) (sampleRemote "c-1") "node-1" (sampleServer [] none true none) 0
    rfl rfl rfl (by decide)

/-- C9: readiness implies connectivity.  For every resource with no deletion timestamp and
every prior status, after `Reconcile` returns on one of its four regular paths (not
accepted, probe error, unreachable, full success: the returns without error),
`Status.Ready = true` only if `Status.Connected = true`. -/
theorem Reconcile_ready_implies_connected {W : Type} (P : Platform) (H : Hooks)
    (R : Remote W) (req : String) (as : AdoptedServer) (σ : World W)
    (hget : P.Get req = GetResult.found as)
    (hdel : Time.IsZero as.DeletionTimestamp = true)
    (herr : (Reconcile P H R req σ).err = none) :
    ∃ as', (Reconcile P H R req σ).as = some as' ∧
      (as'.Status.Ready = true → as'.Status.Connected = true) := by
  cases hhelper : P.NewHelper as with
  | some err => simp [Reconcile, hget, hhelper] at herr
  | none =>
    rw [Reconcile_found P H R req as _ hget hhelper] at herr ⊢
    refine ⟨_, rfl, ?_⟩
    dsimp only at herr ⊢
    cases href : P.GetReference as with
    | some err => simp [reconcileLoaded, href] at herr
    | none =>
      have key : ∀ (as1 : AdoptedServer) (σ1 : World W),
          (checkAccepted P H R as1 σ1).as.Status.Ready = true →
          (checkAccepted P H R as1 σ1).as.Status.Connected = true := by
        intro as1 σ1
        by_cases hacc : as1.Spec.Accepted = true
        · rw [checkAccepted_accepted P H R as1 σ1 hacc]
          exact (reconcileNormal_spec P H R as1 σ1).2.2.1
        · have hready := (checkAccepted_not_accepted P H R as1 σ1 (by simpa using hacc)).2.2.2.1
          intro h
          rw [hready] at h
          exact absurd h (by simp)
      by_cases hc : ContainsFinalizer as adoptedServerFinalizer = true
      · rw [reconcileLoaded_with_finalizer P H R as _ href hdel hc]
        exact key as σ
      · cases hpatch : P.Patch (AddFinalizer as adoptedServerFinalizer) with
        | some err => simp [reconcileLoaded, href, hdel, hc, hpatch] at herr
        | none =>
          rw [reconcileLoaded_add_finalizer P H R as _ href hdel hc hpatch]
          exact key _ _

/-- C9 on the sample resource (prior status `Ready` true, `Connected` false), not accepted. -/
theorem Reconcile_ready_implies_connected_witness :
    ∃ as', (Reconcile (samplePlatform (sampleServer [] none false none) none none)
        (sourceHooks sampleClock) (sampleRemote "c-1") "node-1" (World.start 0)).as = some as' ∧
      (as'.Status.Ready = true → as'.Status.Connected = true) :=
  Reconcile_ready_implies_connected (samplePlatform (sampleServer [] none false none) none none)
    (sourceHooks sampleClock) (sampleRemote "c-1") "node-1" (sampleServer [] none false none)
    (World.start 0) rfl rfl rfl

/-- C10, as stated, fails on the return value when the object reference cannot be created:
for the sample resource with a deletion timestamp and without the finalizer, `Reconcile`
then returns that error (and still does nothing else). -/
theorem Reconcile_deleted_without_finalizer_setup_failure :
    (Reconcile (samplePlatform (sampleServer [] (some 5) true none) none (some "no kind"))
        (sourceHooks sampleClock) (sampleRemote "c-1") "node-1" (World.start 0)).err
      = some "no kind" := by
  decide

/-- C10 (amended): for every resource with a deletion timestamp and without the finalizer,
`Reconcile` performs no cleanup call (no remote unregistration, no link teardown), emits no
notification and sends nothing to the registry (its only effect is the deferred patch of
the unmodified resource, when the patch helper exists), does not modify the resource, and
returns no requeue; it returns no error exactly when the patch helper and the object
reference could be created. -/
theorem Reconcile_deleted_without_finalizer {W : Type} (P : Platform) (H : Hooks)
    (R : Remote W) (req : String) (as : AdoptedServer) (w : W)
    (hget : P.Get req = GetResult.found as)
    (hdel : Time.IsZero as.DeletionTimestamp = false)
    (hfin : ContainsFinalizer as adoptedServerFinalizer = false) :
    (Reconcile P H R req (World.start w)).as = some as ∧
    (Reconcile P H R req (World.start w)).result = { Requeue := false, RequeueAfter := 0 } ∧
    (∀ e ∈ (Reconcile P H R req (World.start w)).world.trace, e = Effect.deferredPatch as) ∧
    (Reconcile P H R req (World.start w)).world.remote = w ∧
    ((Reconcile P H R req (World.start w)).err = none ↔
      P.NewHelper as = none ∧ P.GetReference as = none) := by
  cases hhelper : P.NewHelper as with
  | some err => simp [Reconcile, hget, hhelper, World.start]
  | none =>
    rw [Reconcile_found P H R req as _ hget hhelper]
    cases href : P.GetReference as with
    | some err => simp [reconcileLoaded, href, World.start, World.log]
    | none =>
      simp [reconcileLoaded, href, hdel, reconcileDelete, hfin, World.start, World.log]

/-- C10 (amended) on the sample resource with deletion timestamp `5` and no finalizer. -/
theorem Reconcile_deleted_without_finalizer_witness :
    (Reconcile (samplePlatform (sampleServer [] (some 5) true none) none none)
        (sourceHooks sampleClock) (sampleRemote "c-1") "node-1" (World.start 0)).as
      = some (sampleServer [] (some 5) true none) ∧
    (Reconcile (samplePlatform (sampleServer [] (some 5) true none) none none)
        (sourceHooks sampleClock) (sampleRemote "c-1") "node-1" (World.start 0)).err = none :=
  ⟨(Reconcile_deleted_without_finalizer
      (samplePlatform (sampleServer [] (some 5) true none) none none)
      (sourceHooks sampleClock) (sampleRemote "c-1") "node-1"
      (sampleServer [] (some 5) true none) 0 rfl rfl rfl).1,
   (Reconcile_deleted_without_finalizer
      (samplePlatform (sampleServer [] (some 5) true none) none none)
      (sourceHooks sampleClock) (sampleRemote "c-1") "node-1"
      (sampleServer [] (some 5) true none) 0 rfl rfl rfl).2.2.2.2.mpr ⟨rfl, rfl⟩⟩

/-! ## Theorems: where the port loop and the first-colon rule agree -/

/-- The loop of `extractPortFromEndpoint` passes over runes that are not `':'`. -/
theorem extractPortLoop_skip (endpoint : List Char) (i : Nat) (pre rest : List Char)
    (h : ':' ∉ pre) :
    extractPortLoop endpoint i (pre ++ rest) = extractPortLoop endpoint (i + pre.length) rest := by
  induction pre generalizing i with
  | nil => simp
  | cons a pre ih =>
    have ha : a ≠ ':' := fun e => h (by simp [e])
    have hp : ':' ∉ pre := fun e => h (by simp [e])
    have hstep := ih (i + 1) hp
    rw [show i + 1 + pre.length = i + (pre.length + 1) by omega] at hstep
    simp only [List.cons_append, extractPortLoop, ha, if_false, List.length_cons]
    exact hstep

/-- Without any `':'` the port is the default. -/
theorem extractPortLoop_no_colon (endpoint : List Char) (i : Nat) (rest : List Char)
    (h : ':' ∉ rest) : extractPortLoop endpoint i rest = 50000 := by
  have := extractPortLoop_skip endpoint i rest [] h
  simpa [extractPortLoop] using this

/-- At the first `':'` the code takes the integer scanned from the text after it when that
integer is in `(0, 65535]`, and otherwise continues the loop in that text. -/
theorem extractPortFromEndpoint_at_first_colon (endpoint : String) (pre post : List Char)
    (hpre : ':' ∉ pre) (hsplit : endpoint.data = pre ++ ':' :: post) :
    extractPortFromEndpoint endpoint
      = if Sscanf_d post > 0 ∧ Sscanf_d post ≤ 65535 then Sscanf_d post
        else extractPortLoop endpoint.data (pre.length + 1) post := by
  have hskip := extractPortLoop_skip endpoint.data 0 pre (':' :: post) hpre
  rw [← hsplit] at hskip
  have hdrop : endpoint.data.drop (pre.length + 1) = post := by
    rw [hsplit]
    simp
  simp only [extractPortFromEndpoint, hskip, Nat.zero_add, extractPortLoop, if_true, hdrop]

/-- The first-colon rule of the specification, unfolded at the first `':'`. -/
theorem firstColonPort_at_first_colon (endpoint : String) (pre post : List Char)
    (hpre : ':' ∉ pre) (hsplit : endpoint.data = pre ++ ':' :: post) :
    firstColonPort endpoint
      = if 0 < Sscanf_d post ∧ Sscanf_d post ≤ 65535 then Sscanf_d post else 50000 := by
  have hdw : (pre ++ ':' :: post).dropWhile (fun c => c != ':') = ':' :: post := by
    clear hsplit
    induction pre with
    | nil => simp
    | cons a pre ih =>
      have ha : a ≠ ':' := fun e => hpre (by simp [e])
      have hp : ':' ∉ pre := fun e => hpre (by simp [e])
      have hb : (a != ':') = true := by simpa using ha
      rw [List.cons_append, List.dropWhile_cons, hb]
      simpa using ih hp
  simp only [firstColonPort, hsplit, hdw]

/-- The code agrees with the first-colon rule on every endpoint with at most one `':'`, and
on every endpoint whose first `':'` is followed by a port in `(0, 65535]`. -/
theorem extractPortFromEndpoint_eq_firstColonPort (endpoint : String) :
    (':' ∉ endpoint.data → extractPortFromEndpoint endpoint = firstColonPort endpoint) ∧
    (∀ pre post : List Char, ':' ∉ pre → endpoint.data = pre ++ ':' :: post →
      (':' ∉ post ∨ (0 < Sscanf_d post ∧ Sscanf_d post ≤ 65535)) →
      extractPortFromEndpoint endpoint = firstColonPort endpoint) := by
  refine ⟨fun hnone => ?_, fun pre post hpre hsplit hcase => ?_⟩
  · have hdw : endpoint.data.dropWhile (fun c => c != ':') = [] := by
      rw [List.dropWhile_eq_nil_iff]
      intro c hc
      have : c ≠ ':' := fun e => hnone (e ▸ hc)
      simpa using this
    simp only [extractPortFromEndpoint, extractPortLoop_no_colon _ _ _ hnone, firstColonPort, hdw]
  · rw [extractPortFromEndpoint_at_first_colon endpoint pre post hpre hsplit,
      firstColonPort_at_first_colon endpoint pre post hpre hsplit]
    rcases hcase with hpost | hvalid
    · rw [extractPortLoop_no_colon _ _ _ hpost]
    · have hvalid' : Sscanf_d post > 0 ∧ Sscanf_d post ≤ 65535 := hvalid
      rw [if_pos hvalid', if_pos hvalid]

/-! ## Theorems: results of the normal path and requests of the sync -/

/-- The part of `reconcileNormal` after a successful probe returns no error and the
health-check interval. -/
theorem afterConnected_result {W : Type} (P : Platform) (H : Hooks) (R : Remote W)
    (as : AdoptedServer) (σ : World W) :
    (afterConnected P H R as σ).err = none ∧
    (afterConnected P H R as σ).result
      = { Requeue := false, RequeueAfter := healthCheckInterval } :=
  ⟨rfl, rfl⟩

/-- C12: the normal reconcile path never returns an error.  For every resource (accepted,
without deletion timestamp or not) and whatever the outcomes of the connectivity probe,
node-info gathering, health check, link setup and remote sync, `reconcileNormal` returns a
nil error and a requeue delay equal to the health-check interval, which is 30 seconds. -/
theorem reconcileNormal_never_fails {W : Type} (P : Platform) (H : Hooks) (R : Remote W)
    (as : AdoptedServer) (σ : World W) :
    (reconcileNormal P H R as σ).err = none ∧
    (reconcileNormal P H R as σ).result
      = { Requeue := false, RequeueAfter := healthCheckInterval } ∧
    healthCheckInterval = 30 * 1000000000 := by
  refine ⟨?_, ?_, rfl⟩
  · exact (reconcileNormal_spec P H R as σ).2.1
  · unfold reconcileNormal
    dsimp only
    split
    · rfl
    · split
      · rfl
      · exact (afterConnected_result P H R _ _).2

/-- Appending the `Address` of each address in turn gives the addresses mapped to their
`Address`, after what was there. -/
theorem foldl_append_address (l : List NodeAddress) (init : List String) :
    l.foldl (fun acc addr => acc ++ [addr.Address]) init = init ++ l.map (fun a => a.Address) := by
  induction l generalizing init with
  | nil => simp
  | cons a l ih => simp [ih]

/-- C19: for every resource, the status update request that `updateClusterStatus` builds
and sends has status `"active"` if and only if `Status.Connected` is true and `"unknown"`
otherwise; health equal to `Status.Health.Status` when a health snapshot exists and
`"unknown"` when none exists; and an address list equal to the `Address` fields of
`Status.Addresses`, in the same order and of the same length. -/
theorem updateClusterStatus_request {W : Type} (R : Remote W) (s : SyncService)
    (as : AdoptedServer) (clusterID : String) (σ : World W) :
    ∃ req : StatusUpdateRequest,
      (s.updateClusterStatus R as clusterID σ).2.trace
        = σ.trace ++ [Effect.request ⟨Method.PATCH, clusterStatusPath clusterID,
            some (RequestBody.statusUpdate req)⟩] ∧
      (req.Status = "active" ↔ as.Status.Connected = true) ∧
      (as.Status.Connected = false → req.Status = "unknown") ∧
      (∀ h, as.Status.Health = some h → req.Health = h.Status) ∧
      (as.Status.Health = none → req.Health = "unknown") ∧
      req.Addresses = as.Status.Addresses.map (fun a => a.Address) ∧
      req.Addresses.length = as.Status.Addresses.length := by
  refine ⟨statusUpdateRequest as, updateClusterStatus_trace R s as clusterID σ, ?_⟩
  have haddr : (statusUpdateRequest as).Addresses
      = as.Status.Addresses.map (fun a => a.Address) := by
    unfold statusUpdateRequest
    cases as.Status.LastContactTime <;> simp [foldl_append_address]
  have hstatus : (statusUpdateRequest as).Status
      = if as.Status.Connected then "active" else "unknown" := by
    unfold statusUpdateRequest
    cases as.Status.LastContactTime <;> rfl
  have hhealth : (statusUpdateRequest as).Health
      = match as.Status.Health with
        | some h => h.Status
        | none => "unknown" := by
    unfold statusUpdateRequest
    cases as.Status.LastContactTime <;> rfl
  refine ⟨?_, ?_, ?_, ?_, haddr, by rw [haddr, List.length_map]⟩
  · rw [hstatus]
    cases as.Status.Connected
    · simp
    · simp
  · intro h
    rw [hstatus, h]
    rfl
  · intro h hh
    rw [hhealth, hh]
  · intro hh
    rw [hhealth, hh]

/-- The update branch of `SyncAdoptedServer`, by the outcome of the update: when it fails,
its error is returned at once; when it succeeds, step 2 follows. -/
theorem SyncAdoptedServer_update_outcome {W : Type} (R : Remote W) (s : SyncService)
    (as : AdoptedServer) (cfg : ManagementAPIConfig) (σ : World W)
    (hcfg : as.Spec.ManagementAPI = some cfg) (hen : cfg.Enabled = true)
    (hid : cfg.ClusterID ≠ "") :
    (∀ err σ1, s.updateClusterStatus R as cfg.ClusterID σ = (some err, σ1) →
      s.SyncAdoptedServer R as σ = (some ("failed to update cluster status: " ++ err), as, σ1)) ∧
    (∀ σ1, s.updateClusterStatus R as cfg.ClusterID σ = (none, σ1) →
      s.SyncAdoptedServer R as σ = s.syncNode R as cfg.ClusterID σ1) := by
  refine ⟨fun err σ1 h => ?_, fun σ1 h => ?_⟩ <;>
    simp [SyncService.SyncAdoptedServer, hcfg, hen, hid, h]

/-- C17, as stated, fails when the cluster step fails: against a registry that cannot be
reached, `SyncAdoptedServer` issues one request only, the cluster request, on the register
branch (no identifier) and on the update branch (identifier `"c-1"`), and no node register
request. -/
theorem SyncAdoptedServer_no_node_request_after_failure :
    (sampleService.SyncAdoptedServer unreachableRemote
        (sampleServer [] none true (some (sampleConfig ""))) (World.start 0)).2.2.trace.map
        (fun e => (e.isRegisterCluster, e.isRegisterNode)) = [(true, false)] ∧
    (sampleService.SyncAdoptedServer unreachableRemote
        (sampleServer [] none true (some (sampleConfig "c-1"))) (World.start 0)).2.2.trace.map
        (fun e => (e.isUpdateClusterStatus "c-1", e.isRegisterNode)) = [(true, false)] := by
  decide

/-- C17 (amended): for every `SyncAdoptedServer` invocation on a resource with integration
enabled, on both branches, a node register request is issued after the cluster request when
the cluster step succeeds (the requests are the cluster request, then the node register
request); when the cluster step fails, the cluster request is the only request. -/
theorem SyncAdoptedServer_node_after_cluster {W : Type} (R : Remote W) (s : SyncService)
    (as : AdoptedServer) (cfg : ManagementAPIConfig) (w : W)
    (hcfg : as.Spec.ManagementAPI = some cfg) (hen : cfg.Enabled = true) :
    (cfg.ClusterID = "" →
      (∀ resp σ1, s.registerCluster R as cfg (World.start w) = (.ok resp, σ1) →
        (s.SyncAdoptedServer R as (World.start w)).2.2.trace.map
          (fun e => (e.isRegisterCluster, e.isRegisterNode)) = [(true, false), (false, true)]) ∧
      (∀ err σ1, s.registerCluster R as cfg (World.start w) = (.error err, σ1) →
        (s.SyncAdoptedServer R as (World.start w)).2.2.trace.map
          (fun e => (e.isRegisterCluster, e.isRegisterNode)) = [(true, false)])) ∧
    (cfg.ClusterID ≠ "" →
      (∀ σ1, s.updateClusterStatus R as cfg.ClusterID (World.start w) = (none, σ1) →
        (s.SyncAdoptedServer R as (World.start w)).2.2.trace.map
          (fun e => (e.isUpdateClusterStatus cfg.ClusterID, e.isRegisterNode))
          = [(true, false), (false, true)]) ∧
      (∀ err σ1, s.updateClusterStatus R as cfg.ClusterID (World.start w) = (some err, σ1) →
        (s.SyncAdoptedServer R as (World.start w)).2.2.trace.map
          (fun e => (e.isUpdateClusterStatus cfg.ClusterID, e.isRegisterNode))
          = [(true, false)])) := by
  have h1 : (nodesPath == clustersPath) = false := by decide
  have h2 : (clustersPath == nodesPath) = false := by decide
  refine ⟨fun hid => ⟨fun resp σ1 hres => ?_, fun err σ1 hres => ?_⟩,
    fun hid => ⟨fun σ1 hres => ?_, fun err σ1 hres => ?_⟩⟩
  · rw [((SyncAdoptedServer_register_branch R s as cfg _ hcfg hen hid).2 resp σ1 hres).2]
    simp [World.start, Effect.isRegisterCluster, Effect.isRegisterNode, h1, h2]
  · rw [((SyncAdoptedServer_register_branch R s as cfg _ hcfg hen hid).1 err σ1 hres).2]
    simp [World.start, Effect.isRegisterCluster, Effect.isRegisterNode, h2]
  · have ht := updateClusterStatus_trace R s as cfg.ClusterID (World.start w)
    rw [hres] at ht
    rw [(SyncAdoptedServer_update_outcome R s as cfg _ hcfg hen hid).2 σ1 hres,
      (syncNode_spec R s as cfg.ClusterID σ1).2]
    have ht' : σ1.trace = [Effect.request ⟨Method.PATCH, clusterStatusPath cfg.ClusterID,
        some (RequestBody.statusUpdate (statusUpdateRequest as))⟩] := by
      simpa [World.start] using ht
    simp [ht', Effect.isUpdateClusterStatus, Effect.isRegisterNode]
  · have ht := updateClusterStatus_trace R s as cfg.ClusterID (World.start w)
    rw [hres] at ht
    rw [(SyncAdoptedServer_update_outcome R s as cfg _ hcfg hen hid).1 err σ1 hres]
    have ht' : σ1.trace = [Effect.request ⟨Method.PATCH, clusterStatusPath cfg.ClusterID,
        some (RequestBody.statusUpdate (statusUpdateRequest as))⟩] := by
      simpa [World.start] using ht
    simp [ht', Effect.isUpdateClusterStatus, Effect.isRegisterNode]

/-- C17 (amended) on the sample resource: without identifier against the sample registry
(registration succeeds, the node register request follows), and with identifier `"c-1"`
against the registry that cannot be reached (the update fails, no node register request). -/
theorem SyncAdoptedServer_node_after_cluster_witness :
    (sampleService.SyncAdoptedServer (sampleRemote "c-1")
        (sampleServer [] none true (some (sampleConfig ""))) (World.start 0)).2.2.trace.map
        (fun e => (e.isRegisterCluster, e.isRegisterNode)) = [(true, false), (false, true)] ∧
    (sampleService.SyncAdoptedServer unreachableRemote
        (sampleServer [] none true (some (sampleConfig "c-1"))) (World.start 0)).2.2.trace.map
        (fun e => (e.isUpdateClusterStatus "c-1", e.isRegisterNode)) = [(true, false)] :=
  ⟨((SyncAdoptedServer_node_after_cluster (sampleRemote "c-1") sampleService
      (sampleServer [] none true (some (sampleConfig ""))) (sampleConfig "") 0 rfl rfl).1
      rfl).1 _ _ rfl,
   ((SyncAdoptedServer_node_after_cluster unreachableRemote sampleService
      (sampleServer [] none true (some (sampleConfig "c-1"))) (sampleConfig "c-1") 0 rfl rfl).2
      (by decide)).2 _ _ rfl⟩

/-- C18: for every resource, every node register request sent by `SyncAdoptedServer`
carries the cluster identifier in effect after the cluster step, which is the identifier
the resource records after the call (the identifier just returned by registration on the
register branch, the recorded identifier on the update branch), a hostname equal to
`Spec.Talos.Hostname`, or to the resource name when that is empty, and an IP address equal
to `extractIPFromEndpoint` of the Talos endpoint. -/
theorem SyncAdoptedServer_node_request {W : Type} (R : Remote W) (s : SyncService)
    (as : AdoptedServer) (w : W) (r : Request)
    (hr : Effect.request r ∈ (s.SyncAdoptedServer R as (World.start w)).2.2.trace)
    (hm : r.method = Method.POST) (hp : r.path = nodesPath) :
    ∃ (req : NodeRegisterRequest) (cfg' : ManagementAPIConfig),
      r.body = some (RequestBody.nodeRegister req) ∧
      (s.SyncAdoptedServer R as (World.start w)).2.1.Spec.ManagementAPI = some cfg' ∧
      req.ClusterID = cfg'.ClusterID ∧
      (∀ cfg, as.Spec.ManagementAPI = some cfg → cfg.ClusterID ≠ "" →
        req.ClusterID = cfg.ClusterID) ∧
      (∀ cfg resp σ1, as.Spec.ManagementAPI = some cfg → cfg.ClusterID = "" →
        s.registerCluster R as cfg (World.start w) = (.ok resp, σ1) →
        req.ClusterID = resp.ClusterID) ∧
      req.Hostname = (if as.Spec.Talos.Hostname = "" then as.Name else as.Spec.Talos.Hostname) ∧
      req.IPAddress = extractIPFromEndpoint as.Spec.Talos.Endpoint := by
  have hne : clustersPath ≠ nodesPath := by decide
  cases hcfg : as.Spec.ManagementAPI with
  | none => simp [SyncService.SyncAdoptedServer, hcfg, World.start] at hr
  | some cfg =>
    by_cases hen : cfg.Enabled = true
    · by_cases hid : cfg.ClusterID = ""
      · have hb := SyncAdoptedServer_register_branch R s as cfg (World.start w) hcfg hen hid
        rcases hres : s.registerCluster R as cfg (World.start w) with ⟨res, σ1⟩
        cases res with
        | error err =>
          rw [(hb.1 err σ1 hres).2] at hr
          simp only [World.start, List.nil_append, List.mem_singleton,
            Effect.request.injEq] at hr
          rw [hr] at hp
          exact absurd hp hne
        | ok resp =>
          obtain ⟨has, htr⟩ := hb.2 resp σ1 hres
          rw [htr] at hr
          simp only [World.start, List.nil_append, List.mem_cons, List.mem_singleton,
            Effect.request.injEq, List.not_mem_nil, or_false] at hr
          rcases hr with hr | hr
          · rw [hr] at hp
            exact absurd hp hne
          · refine ⟨_, { cfg with ClusterID := resp.ClusterID }, by rw [hr], by rw [has],
              rfl, fun cfg2 h2 hid2 => ?_, fun cfg2 resp2 σ2 h2 _ hres2 => ?_, rfl, rfl⟩
            · rw [Option.some.inj h2] at hid
              exact absurd hid hid2
            · rw [← Option.some.inj h2, hres] at hres2
              have := (Prod.mk.inj hres2).1
              rw [Except.ok.injEq] at this
              rw [← this]
              rfl
      · obtain ⟨has, htr⟩ := SyncAdoptedServer_update_branch R s as cfg (World.start w)
          hcfg hen hid
        have hnode : r = ⟨Method.POST, nodesPath,
            some (RequestBody.nodeRegister (nodeRegisterRequest as cfg.ClusterID))⟩ := by
          rcases htr with htr | htr
          · rw [htr] at hr
            simp only [World.start, List.nil_append, List.mem_singleton,
              Effect.request.injEq] at hr
            rw [hr] at hm
            exact absurd hm (fun h => by cases h)
          · rw [htr] at hr
            simp only [World.start, List.nil_append, List.mem_cons, List.mem_singleton,
              Effect.request.injEq, List.not_mem_nil, or_false] at hr
            rcases hr with hr | hr
            · rw [hr] at hm
              exact absurd hm (fun h => by cases h)
            · exact hr
        refine ⟨_, cfg, by rw [hnode], by rw [has, hcfg], rfl,
          fun cfg2 h2 _ => ?_, fun cfg2 resp2 σ2 h2 hid2 _ => ?_, rfl, rfl⟩
        · rw [← Option.some.inj h2]
          rfl
        · rw [← Option.some.inj h2] at hid2
          exact absurd hid2 hid
    · simp [SyncService.SyncAdoptedServer, hcfg, hen, World.start] at hr

/-- C18 on the sample resource without identifier, the registry handing out `"c-1"`: the
node register request carries `"c-1"`, the resource name and the host of the endpoint. -/
theorem SyncAdoptedServer_node_request_witness :
    ∃ (req : NodeRegisterRequest) (cfg' : ManagementAPIConfig),
      some (RequestBody.nodeRegister (nodeRegisterRequest
        (sampleServer [] none true (some (sampleConfig "c-1"))) "c-1"))
        = some (RequestBody.nodeRegister req) ∧
      (sampleService.SyncAdoptedServer (sampleRemote "c-1")
        (sampleServer [] none true (some (sampleConfig ""))) (World.start 0)).2.1.Spec.ManagementAPI
        = some cfg' ∧
      req.ClusterID = cfg'.ClusterID ∧
      req.Hostname = "node-1" ∧ req.IPAddress = "10.0.0.5" := by
  obtain ⟨req, cfg', h1, h2, h3, _, _, h6, h7⟩ :=
    SyncAdoptedServer_node_request (sampleRemote "c-1") sampleService
      (sampleServer [] none true (some (sampleConfig ""))) 0
      ⟨Method.POST, nodesPath, some (RequestBody.nodeRegister (nodeRegisterRequest
        (sampleServer [] none true (some (sampleConfig "c-1"))) "c-1"))⟩
      (by decide) rfl rfl
  exact ⟨req, cfg', h1, h2, h3, h6, by rw [h7]; decide⟩

/-! ## Theorems: the client -/

/-- C15: for every HTTP response whose status is outside `[200, 300)`, `doRequest` returns
an error.  When the body decodes as the JSON error shape, the error text is
`API error (status <code>): <detail>` and so contains the decoded detail; when the body does
not decode, the error text contains the numeric status code and the raw body text. -/
theorem doRequest_error_status {W ρ : Type} (R : Remote W) (c : Client) (method : Method)
    (path : String) (body : Option RequestBody) (unmarshal : String → Except String ρ)
    (σ : World W) (StatusCode : Int) (respBody : String)
    (hresp : (R.roundTrip σ.remote c ⟨method, path, body⟩).1
      = Outcome.response StatusCode respBody)
    (hstatus : StatusCode < 200 ∨ 300 ≤ StatusCode) :
    (∃ e, (doRequest R c method path body unmarshal σ).1 = .error e) ∧
    (∀ errResp, R.unmarshalErrorResponse respBody = .ok errResp →
      ∃ e, (doRequest R c method path body unmarshal σ).1 = .error e ∧
        e = "API error (status " ++ toString StatusCode ++ "): " ++ errResp.Detail ∧
        List.IsInfix errResp.Detail.data e.data) ∧
    (∀ x, R.unmarshalErrorResponse respBody = .error x →
      ∃ e, (doRequest R c method path body unmarshal σ).1 = .error e ∧
        List.IsInfix (toString StatusCode).data e.data ∧
        List.IsInfix respBody.data e.data) := by
  have hs : StatusCode < 200 ∨ StatusCode ≥ 300 := hstatus
  have hok : ∀ errResp, R.unmarshalErrorResponse respBody = .ok errResp →
      (doRequest R c method path body unmarshal σ).1
        = .error ("API error (status " ++ toString StatusCode ++ "): " ++ errResp.Detail) := by
    intro errResp hdec
    simp only [doRequest, hresp, hs, if_true, hdec]
  have hraw : ∀ x, R.unmarshalErrorResponse respBody = .error x →
      (doRequest R c method path body unmarshal σ).1
        = .error ("API request failed with status " ++ toString StatusCode ++ ": "
            ++ respBody) := by
    intro x hdec
    simp only [doRequest, hresp, hs, if_true, hdec]
  refine ⟨?_, fun errResp hdec => ?_, fun x hdec => ?_⟩
  · cases hdec : R.unmarshalErrorResponse respBody with
    | error x => exact ⟨_, hraw x hdec⟩
    | ok errResp => exact ⟨_, hok errResp hdec⟩
  · refine ⟨_, hok errResp hdec, rfl, ?_⟩
    exact ⟨("API error (status " ++ toString StatusCode ++ "): ").data, [], by simp⟩
  · refine ⟨_, hraw x hdec, ?_, ?_⟩
    · exact ⟨"API request failed with status ".data, (": " ++ respBody).data, by simp⟩
    · exact ⟨("API request failed with status " ++ toString StatusCode ++ ": ").data, [],
        by simp⟩

/-- C15 on the scenario of the specification: a `503` with body `{"detail":"overloaded"}`
gives the error `API error (status 503): overloaded`. -/
theorem doRequest_error_status_witness :
    (doRequest overloadedRemote sampleService.client Method.GET "/health" none
        overloadedRemote.unmarshalHealthCheckResponse (World.start 0)).1
      = .error "API error (status 503): overloaded" := by
  obtain ⟨e, h1, h2, _⟩ :=
    (doRequest_error_status overloadedRemote sampleService.client Method.GET "/health" none
      overloadedRemote.unmarshalHealthCheckResponse (World.start 0) 503
      "\x7b\"detail\":\"overloaded\"\x7d" rfl (Or.inr (by decide))).2.1
      { Detail := "overloaded", Error := "", Code := 0 } rfl
  rw [h1, h2]
  rfl

/-- The options of the package keep the base URL. -/
theorem foldl_options_baseURL (opts : List ClientOption) (c : Client)
    (hstd : ∀ o ∈ opts, (∃ t, o = WithTimeout t) ∨ (∃ k, o = WithAPIKey k)) :
    (opts.foldl (fun client opt => opt client) c).baseURL = c.baseURL := by
  induction opts generalizing c with
  | nil => rfl
  | cons o opts ih =>
    have hrest : ∀ o' ∈ opts, (∃ t, o' = WithTimeout t) ∨ (∃ k, o' = WithAPIKey k) :=
      fun o' ho' => hstd o' (List.mem_cons_of_mem _ ho')
    rw [List.foldl_cons, ih _ hrest]
    rcases hstd o (List.mem_cons_self _ _) with ⟨t, rfl⟩ | ⟨k, rfl⟩ <;> rfl

/-- The option `WithAPIKey` keeps the timeout. -/
theorem foldl_apiKeys_timeout (opts : List ClientOption) (c : Client)
    (hkeys : ∀ o ∈ opts, ∃ k, o = WithAPIKey k) :
    (opts.foldl (fun client opt => opt client) c).timeout = c.timeout := by
  induction opts generalizing c with
  | nil => rfl
  | cons o opts ih =>
    have hrest : ∀ o' ∈ opts, ∃ k, o' = WithAPIKey k :=
      fun o' ho' => hkeys o' (List.mem_cons_of_mem _ ho')
    rw [List.foldl_cons, ih _ hrest]
    obtain ⟨k, rfl⟩ := hkeys o (List.mem_cons_self _ _)
    rfl

/-- C16: `NewClient` fails with an error, and returns no client, for every base URL that
does not parse or whose scheme is neither `http` nor `https` (a URL that declares no scheme
has the scheme `""`); for every parseable base URL with scheme `http` or `https` it returns
a client whose base URL is the input unchanged (the options being those of the package,
`WithTimeout` and `WithAPIKey`) and whose timeout is 30 seconds unless a `WithTimeout`
option overrides it, in which case it is that of the last such option. -/
theorem NewClient_spec {W : Type} (R : Remote W) (baseURL : String) (opts : List ClientOption) :
    (∀ err, R.urlParse baseURL = .error err → ∃ e, NewClient R baseURL opts = .error e) ∧
    (∀ u, R.urlParse baseURL = .ok u → u.Scheme ≠ "http" → u.Scheme ≠ "https" →
      ∃ e, NewClient R baseURL opts = .error e) ∧
    (∀ u, R.urlParse baseURL = .ok u → u.Scheme = "http" ∨ u.Scheme = "https" →
      (∀ o ∈ opts, (∃ t, o = WithTimeout t) ∨ (∃ k, o = WithAPIKey k)) →
      ∃ c, NewClient R baseURL opts = .ok c ∧ c.baseURL = baseURL ∧
        ((∀ o ∈ opts, ∃ k, o = WithAPIKey k) → c.timeout = defaultTimeout) ∧
        (∀ pre t post, opts = pre ++ WithTimeout t :: post →
          (∀ o ∈ post, ∃ k, o = WithAPIKey k) → c.timeout = t)) ∧
    defaultTimeout = 30 * 1000000000 := by
  refine ⟨fun err h => ?_, fun u h h1 h2 => ?_, fun u h hs hstd => ?_, rfl⟩
  · simp only [NewClient, h]
    exact ⟨_, rfl⟩
  · simp only [NewClient, h, h1, h2, ne_eq, not_false_eq_true, and_self, if_true]
    exact ⟨_, rfl⟩
  · have hcond : ¬ (u.Scheme ≠ "http" ∧ u.Scheme ≠ "https") := by
      rcases hs with hs | hs <;> simp [hs]
    simp only [NewClient, h, hcond, if_false]
    refine ⟨_, rfl, ?_, ?_, ?_⟩
    · exact foldl_options_baseURL opts _ hstd
    · intro hkeys
      exact foldl_apiKeys_timeout opts _ hkeys
    · intro pre t post hsplit hkeys
      rw [hsplit, List.foldl_append, List.foldl_cons, foldl_apiKeys_timeout post _ hkeys]
      rfl

/-- C16 on three base URLs: `"example.com"` declares no scheme and `"ftp://files"` another
one, and both are refused; `"https://api:8090"` with the options `WithTimeout 5s`,
`WithAPIKey` gives a client with that base URL and a timeout of five seconds, and without
options one with the default timeout. -/
theorem NewClient_spec_witness :
    (∃ e, NewClient overloadedRemote "example.com" [] = .error e) ∧
    (∃ e, NewClient overloadedRemote "ftp://files" [] = .error e) ∧
    (∃ c, NewClient overloadedRemote "https://api:8090"
        [WithTimeout 5000000000, WithAPIKey "k"] = .ok c ∧
      c.baseURL = "https://api:8090" ∧ c.timeout = 5000000000) ∧
    (∃ c, NewClient overloadedRemote "https://api:8090" [] = .ok c ∧
      c.baseURL = "https://api:8090" ∧ c.timeout = defaultTimeout) := by
  refine ⟨?_, ?_, ?_, ?_⟩
  · exact (NewClient_spec overloadedRemote "example.com" []).2.1 { Scheme := "" } rfl
      (by decide) (by decide)
  · exact (NewClient_spec overloadedRemote "ftp://files" []).2.1 { Scheme := "" } rfl
      (by decide) (by decide)
  · obtain ⟨c, h1, h2, _, h4⟩ :=
      (NewClient_spec overloadedRemote "https://api:8090"
        [WithTimeout 5000000000, WithAPIKey "k"]).2.2.1 { Scheme := "https" } rfl (Or.inr rfl)
        (by
          intro o ho
          simp only [List.mem_cons, List.mem_singleton, List.not_mem_nil, or_false] at ho
          rcases ho with rfl | rfl
          · exact Or.inl ⟨_, rfl⟩
          · exact Or.inr ⟨_, rfl⟩)
    exact ⟨c, h1, h2, h4 [] 5000000000 [WithAPIKey "k"] rfl
      (by intro o ho; exact ⟨"k", by simpa using ho⟩)⟩
  · obtain ⟨c, h1, h2, h3, _⟩ :=
      (NewClient_spec overloadedRemote "https://api:8090" []).2.2.1 { Scheme := "https" } rfl
        (Or.inr rfl) (by intro o ho; simp at ho)
    exact ⟨c, h1, h2, h3 (by intro o ho; simp at ho)⟩

/-! ## Theorems: the delete path -/

/-- The delete path on a resource that carries the finalizer: the two cleanup blocks in
order, then the removal of the finalizer and the update. -/
theorem reconcileDelete_with_finalizer {W : Type} (P : Platform) (H : Hooks) (R : Remote W)
    (as : AdoptedServer) (σ : World W)
    (hfin : ContainsFinalizer as adoptedServerFinalizer = true) :
    reconcileDelete P H R as σ
      = match P.Update (RemoveFinalizer as adoptedServerFinalizer) with
        | some err =>
          { result := {}, err := some err, as := RemoveFinalizer as adoptedServerFinalizer
            world := (cleanupSideroLink H as (cleanupManagementAPI R as σ)).log
              (Effect.update (RemoveFinalizer as adoptedServerFinalizer)) }
        | none =>
          { result := {}, err := none, as := RemoveFinalizer as adoptedServerFinalizer
            world := ((cleanupSideroLink H as (cleanupManagementAPI R as σ)).log
              (Effect.update (RemoveFinalizer as adoptedServerFinalizer))).Event
                EventTypeNormal "Deleted" "AdoptedServer deleted successfully" } := by
  simp only [reconcileDelete, hfin, Bool.not_true, Bool.false_eq_true, if_false]
  rfl

/-- The first cleanup block appends to the trace; what it appends contains the
unregistration call exactly when remote sync is enabled, and neither a teardown nor an
update. -/
theorem cleanupManagementAPI_trace {W : Type} (R : Remote W) (as : AdoptedServer)
    (σ : World W) :
    ∃ u, (cleanupManagementAPI R as σ).trace = σ.trace ++ u ∧
      (Effect.unregisterFromManagementAPI ∈ u ↔ managementAPIEnabled as = true) ∧
      Effect.teardownSideroLink ∉ u ∧ ∀ e ∈ u, ∀ a, e ≠ Effect.update a := by
  unfold cleanupManagementAPI managementAPIEnabled
  cases hcfg : as.Spec.ManagementAPI with
  | none => exact ⟨[], by simp⟩
  | some cfg =>
    dsimp only
    by_cases hen : cfg.Enabled = true
    · rw [if_pos hen]
      have hun : ∀ σ0 : World W,
          (unregisterFromManagementAPI R as cfg σ0).2 = σ0 := by
        intro σ0
        unfold unregisterFromManagementAPI
        cases NewClient R cfg.Endpoint [] <;> rfl
      rcases hres : unregisterFromManagementAPI R as cfg
        (σ.log Effect.unregisterFromManagementAPI) with ⟨e, σ'⟩
      have hσ' : σ' = σ.log Effect.unregisterFromManagementAPI := by
        have := hun (σ.log Effect.unregisterFromManagementAPI)
        rw [hres] at this
        exact this
      cases e with
      | none =>
        refine ⟨[Effect.unregisterFromManagementAPI], ?_, by simp [hen], by simp, by simp⟩
        simp [hσ', World.log]
      | some err =>
        refine ⟨[Effect.unregisterFromManagementAPI, Effect.event EventTypeWarning
          "UnregisterFailed" ("Failed to unregister from Management API: " ++ err)],
          ?_, by simp [hen], by simp, by simp⟩
        simp [hσ', World.log, World.Event]
    · rw [if_neg hen]
      exact ⟨[], by simp [hen]⟩

/-- The second cleanup block appends to the trace; what it appends contains the teardown
call exactly when link monitoring is enabled, and neither an unregistration nor an update. -/
theorem cleanupSideroLink_trace {W : Type} (H : Hooks) (as : AdoptedServer) (σ : World W) :
    ∃ t, (cleanupSideroLink H as σ).trace = σ.trace ++ t ∧
      (Effect.teardownSideroLink ∈ t ↔ sideroLinkEnabled as = true) ∧
      Effect.unregisterFromManagementAPI ∉ t ∧ ∀ e ∈ t, ∀ a, e ≠ Effect.update a := by
  unfold cleanupSideroLink sideroLinkEnabled
  cases hlink : as.Spec.SideroLink with
  | none => exact ⟨[], by simp⟩
  | some link =>
    dsimp only
    by_cases hen : link.Enabled = true
    · rw [if_pos hen]
      cases H.teardownSideroLink as with
      | none =>
        exact ⟨[Effect.teardownSideroLink], by simp [World.log], by simp [hen], by simp,
          by simp⟩
      | some err =>
        exact ⟨[Effect.teardownSideroLink, Effect.event EventTypeWarning
          "SideroLinkTeardownFailed" ("Failed to teardown SideroLink: " ++ err)],
          by simp [World.log, World.Event], by simp [hen], by simp, by simp⟩
    · rw [if_neg hen]
      exact ⟨[], by simp [hen]⟩

/-- After `RemoveFinalizer` the finalizer is not contained. -/
theorem ContainsFinalizer_RemoveFinalizer (o : AdoptedServer) (finalizer : String) :
    ContainsFinalizer (RemoveFinalizer o finalizer) finalizer = false := by
  simp [ContainsFinalizer, RemoveFinalizer, List.contains_eq_any_beq, List.any_eq_false]

/-- C11: for every resource that carries the finalizer (the delete path is run on it when
it has a deletion timestamp), the delete path removes the finalizer whether remote
unregistration and link teardown succeed or fail, and removes it (and sends the update that
persists the removal) only after each enabled cleanup step has been attempted: the trace is
the effects `u` of the unregistration block, which contain the unregistration call exactly
when remote sync is enabled, then the effects `t` of the teardown block, which contain the
teardown call exactly when link monitoring is enabled, then the update of the resource
without the finalizer, then at most the `Deleted` notification. -/
theorem reconcileDelete_removes_finalizer {W : Type} (P : Platform) (H : Hooks)
    (R : Remote W) (as : AdoptedServer) (w : W)
    (hfin : ContainsFinalizer as adoptedServerFinalizer = true) :
    (reconcileDelete P H R as (World.start w)).as
      = RemoveFinalizer as adoptedServerFinalizer ∧
    ContainsFinalizer (reconcileDelete P H R as (World.start w)).as adoptedServerFinalizer
      = false ∧
    ∃ u t post,
      (reconcileDelete P H R as (World.start w)).world.trace
        = u ++ t ++ Effect.update (RemoveFinalizer as adoptedServerFinalizer) :: post ∧
      (Effect.unregisterFromManagementAPI ∈ u ↔ managementAPIEnabled as = true) ∧
      (Effect.teardownSideroLink ∈ t ↔ sideroLinkEnabled as = true) ∧
      Effect.teardownSideroLink ∉ u ∧ Effect.unregisterFromManagementAPI ∉ t ∧
      (∀ e ∈ u ++ t, ∀ a, e ≠ Effect.update a) ∧
      (∀ e ∈ post,
        e = Effect.event EventTypeNormal "Deleted" "AdoptedServer deleted successfully") := by
  obtain ⟨u, hu, hu1, hu2, hu3⟩ := cleanupManagementAPI_trace R as (World.start w)
  obtain ⟨t, ht, ht1, ht2, ht3⟩ :=
    cleanupSideroLink_trace H as (cleanupManagementAPI R as (World.start w))
  have hclean : (cleanupSideroLink H as (cleanupManagementAPI R as (World.start w))).trace
      = u ++ t := by
    rw [ht, hu]
    simp [World.start]
  have hno : ∀ e ∈ u ++ t, ∀ a, e ≠ Effect.update a := by
    intro e he
    rcases List.mem_append.mp he with h | h
    · exact hu3 e h
    · exact ht3 e h
  rw [reconcileDelete_with_finalizer P H R as _ hfin]
  cases P.Update (RemoveFinalizer as adoptedServerFinalizer) with
  | some err =>
    refine ⟨rfl, ContainsFinalizer_RemoveFinalizer as _, u, t, [], ?_, hu1, ht1, hu2, ht2,
      hno, by simp⟩
    simp [World.log, hclean]
  | none =>
    refine ⟨rfl, ContainsFinalizer_RemoveFinalizer as _, u, t,
      [Effect.event EventTypeNormal "Deleted" "AdoptedServer deleted successfully"],
      ?_, hu1, ht1, hu2, ht2, hno, by simp⟩
    simp [World.log, World.Event, hclean]

/-- C11 on a resource with the finalizer, remote sync and link monitoring enabled, against
the registry that cannot be reached. -/
theorem reconcileDelete_removes_finalizer_witness :
    ContainsFinalizer
      (reconcileDelete
        (samplePlatform (linkedServer [adoptedServerFinalizer] (some 5) true
          (some (sampleConfig "c-1"))) none none)
        (sourceHooks sampleClock) unreachableRemote
        (linkedServer [adoptedServerFinalizer] (some 5) true (some (sampleConfig "c-1")))
        (World.start 0)).as adoptedServerFinalizer
      = false :=
  (reconcileDelete_removes_finalizer
    (samplePlatform (linkedServer [adoptedServerFinalizer] (some 5) true
      (some (sampleConfig "c-1"))) none none)
    (sourceHooks sampleClock) unreachableRemote
    (linkedServer [adoptedServerFinalizer] (some 5) true (some (sampleConfig "c-1")))
    0 (by decide)).2.1

/-! ## Theorems: the steps after a successful probe -/

/-- The function `AddFinalizer` does nothing to a resource that carries the finalizer. -/
theorem AddFinalizer_of_contains (o : AdoptedServer) (finalizer : String)
    (h : ContainsFinalizer o finalizer = true) : AddFinalizer o finalizer = o := by
  unfold AddFinalizer ContainsFinalizer at *
  rw [if_pos h]

/-- When the probe returns reachable, `reconcileNormal` continues with steps 2 to 5. -/
theorem reconcileNormal_reachable {W : Type} (P : Platform) (H : Hooks) (R : Remote W)
    (as : AdoptedServer) (σ : World W)
    (hprobe : H.checkTalosConnectivity (conditions.MarkTrue P.clock.adopted as ConditionAdopted)
      = (true, none)) :
    reconcileNormal P H R as σ
      = afterConnected P H R (markConnected P as)
          (σ.log (Effect.checkTalosConnectivity true none)) := by
  simp only [reconcileNormal, hprobe]
  rfl

/-- The steps after a successful probe: step 5 applied to the state `beforeSync`, then the
end of `reconcileNormal`. -/
theorem afterConnected_eq {W : Type} (P : Platform) (H : Hooks) (R : Remote W)
    (as : AdoptedServer) (σ : World W) :
    afterConnected P H R (markConnected P as) (σ.log (Effect.checkTalosConnectivity true none))
      = finishNormal
          (stepManagementAPI P R (beforeSync P H as σ).1 (beforeSync P H as σ).2).1
          (stepManagementAPI P R (beforeSync P H as σ).1 (beforeSync P H as σ).2).2 :=
  rfl

/-- On a live, accepted resource for which the invocation calls the probe and gets
`true, nil`, `Reconcile` leaves the resource that step 5 and the end of `reconcileNormal`
make of the state `syncInput`, and returns no error. -/
theorem Reconcile_reachable {W : Type} (P : Platform) (H : Hooks) (R : Remote W)
    (req : String) (as : AdoptedServer) (w : W)
    (hget : P.Get req = GetResult.found as)
    (hdel : Time.IsZero as.DeletionTimestamp = true) (hacc : as.Spec.Accepted = true)
    (hprobe : Effect.checkTalosConnectivity true none
      ∈ (Reconcile P H R req (World.start w)).world.trace) :
    (Reconcile P H R req (World.start w)).as
      = some (finishNormal
          (stepManagementAPI P R (syncInput P H as w).1 (syncInput P H as w).2).1
          (stepManagementAPI P R (syncInput P H as w).1 (syncInput P H as w).2).2).as ∧
    (Reconcile P H R req (World.start w)).err = none := by
  cases hhelper : P.NewHelper as with
  | some err => simp [Reconcile, hget, hhelper, World.start] at hprobe
  | none =>
    rw [Reconcile_found P H R req as _ hget hhelper] at hprobe ⊢
    have hp := mem_probes _ _ _ hprobe
    rw [probes_log _ (Effect.deferredPatch _) rfl] at hp
    dsimp only
    cases href : P.GetReference as with
    | some err => simp [reconcileLoaded, href, World.probes, World.start] at hp
    | none =>
      have key : ∀ (as1 : AdoptedServer) (σ1 : World W), as1.Spec.Accepted = true →
          σ1.probes = [] →
          Effect.checkTalosConnectivity true none ∈ (checkAccepted P H R as1 σ1).world.probes →
          checkAccepted P H R as1 σ1
            = finishNormal
                (stepManagementAPI P R (beforeSync P H as1 σ1).1 (beforeSync P H as1 σ1).2).1
                (stepManagementAPI P R (beforeSync P H as1 σ1).1 (beforeSync P H as1 σ1).2).2 := by
        intro as1 σ1 hacc1 hσ1 hmem
        rw [checkAccepted_accepted P H R as1 σ1 hacc1] at hmem ⊢
        obtain ⟨s1, _, _, _⟩ := reconcileNormal_spec P H R as1 σ1
        rw [s1, hσ1] at hmem
        simp only [List.nil_append, List.mem_singleton, Effect.checkTalosConnectivity.injEq] at hmem
        rw [reconcileNormal_reachable P H R as1 σ1 (Prod.ext hmem.1.symm hmem.2.symm),
          afterConnected_eq]
      by_cases hc : ContainsFinalizer as adoptedServerFinalizer = true
      · rw [reconcileLoaded_with_finalizer P H R as _ href hdel hc] at hp ⊢
        have hk := key as (World.start w) hacc rfl hp
        have hin : syncInput P H as w = beforeSync P H as (World.start w) := by
          unfold syncInput afterFinalizer
          rw [if_pos hc, AddFinalizer_of_contains as _ hc]
        rw [hk, hin]
        exact ⟨rfl, rfl⟩
      · cases hpatch : P.Patch (AddFinalizer as adoptedServerFinalizer) with
        | some err =>
          simp [reconcileLoaded, href, hdel, hc, hpatch, World.probes, World.start, World.log,
            Effect.isProbe] at hp
        | none =>
          rw [reconcileLoaded_add_finalizer P H R as _ href hdel hc hpatch] at hp ⊢
          have hacc1 : (AddFinalizer as adoptedServerFinalizer).Spec.Accepted = true := by
            rw [(AddFinalizer_frame as adoptedServerFinalizer).1]; exact hacc
          have hk := key (AddFinalizer as adoptedServerFinalizer)
            ((World.start w).log (Effect.patch (AddFinalizer as adoptedServerFinalizer))) hacc1
            (probes_log (World.start w) (Effect.patch _) rfl) hp
          have hin : syncInput P H as w = beforeSync P H (AddFinalizer as adoptedServerFinalizer)
              ((World.start w).log (Effect.patch (AddFinalizer as adoptedServerFinalizer))) := by
            unfold syncInput afterFinalizer
            rw [if_neg hc]
          rw [hk, hin]
          exact ⟨rfl, rfl⟩

/-! ## Theorems: what `Set` and `Delete` do to the other condition types -/

/-- The loop of `conditions.Set` only keeps entries or puts the condition itself (stamped). -/
theorem mem_setLoop (now : Time) (condition : Condition) (l : List Condition) (c : Condition)
    (h : c ∈ (conditions.setLoop now condition l).1) :
    c ∈ l ∨ c.Type_ = condition.Type_ := by
  induction l with
  | nil => simp [conditions.setLoop] at h
  | cons x rest ih =>
    unfold conditions.setLoop at h
    by_cases hx : x.Type_ = condition.Type_
    · rw [if_pos hx] at h
      by_cases hs : conditions.HasSameState x condition = true
      · simp only [hs, Bool.not_true, Bool.false_eq_true, if_false] at h
        exact Or.inl h
      · simp only [hs, Bool.not_false, if_true, List.mem_cons] at h
        rcases h with h | h
        · exact Or.inr (by rw [h])
        · exact Or.inl (List.mem_cons_of_mem _ h)
    · rw [if_neg hx] at h
      simp only [List.cons, List.mem_cons] at h
      rcases h with h | h
      · exact Or.inl (by rw [h]; exact List.mem_cons_self _ _)
      · rcases ih h with h' | h'
        · exact Or.inl (List.mem_cons_of_mem _ h')
        · exact Or.inr h'

/-- Every condition after `conditions.Set` was there before or has the type that was set. -/
theorem mem_Set (now : Time) (to_ : AdoptedServer) (condition c : Condition)
    (h : c ∈ (conditions.Set now to_ condition).Status.Conditions) :
    c ∈ to_.Status.Conditions ∨ c.Type_ = condition.Type_ := by
  simp only [conditions.Set, AdoptedServer.SetConditions, AdoptedServer.GetConditions,
    conditions.sortConditions] at h
  rw [(List.perm_insertionSort _ _).mem_iff] at h
  split at h
  · exact mem_setLoop now condition _ c h
  · rcases List.mem_append.mp h with h | h
    · exact mem_setLoop now condition _ c h
    · simp only [List.mem_singleton] at h
      exact Or.inr (by rw [h])

/-- After `conditions.Delete` no condition of the deleted type is left, and the other
conditions are those that were there. -/
theorem mem_Delete (to_ : AdoptedServer) (t : String) (c : Condition) :
    c ∈ (conditions.Delete to_ t).Status.Conditions ↔
      c ∈ to_.Status.Conditions ∧ c.Type_ ≠ t := by
  simp [conditions.Delete, AdoptedServer.SetConditions, AdoptedServer.GetConditions,
    List.mem_filter]

/-- The function `conditions.Get` returns nothing exactly when no condition has the type. -/
theorem Get_eq_none_iff (a : AdoptedServer) (t : String) :
    conditions.Get a t = none ↔ ∀ c ∈ a.Status.Conditions, c.Type_ ≠ t := by
  simp [conditions.Get, AdoptedServer.GetConditions, List.find?_eq_none]

/-- Step 5 only keeps conditions or writes one of type `ManagementAPISync`. -/
theorem mem_stepManagementAPI {W : Type} (P : Platform) (R : Remote W) (as : AdoptedServer)
    (σ : World W) (c : Condition)
    (h : c ∈ (stepManagementAPI P R as σ).1.Status.Conditions) :
    c ∈ as.Status.Conditions ∨ c.Type_ = ConditionManagementAPISync := by
  unfold stepManagementAPI at h
  cases hcfg : as.Spec.ManagementAPI with
  | none =>
    rw [hcfg] at h
    exact Or.inl ((mem_Delete as _ c).mp h).1
  | some cfg =>
    rw [hcfg] at h
    dsimp only at h
    by_cases hen : cfg.Enabled = true
    · rw [if_pos hen] at h
      have hst := (syncWithManagementAPI_frame R as cfg
        (σ.log Effect.syncWithManagementAPI)).1
      rcases hsync : syncWithManagementAPI R as cfg (σ.log Effect.syncWithManagementAPI)
        with ⟨e, as1, σ1⟩
      rw [hsync] at h hst
      have hconds : as1.Status.Conditions = as.Status.Conditions := by
        have : as1.Status = as.Status := hst
        rw [this]
      cases e with
      | none =>
        rcases mem_Set _ _ _ c h with h' | h'
        · exact Or.inl (hconds ▸ h')
        · exact Or.inr h'
      | some err =>
        rcases mem_Set _ _ _ c h with h' | h'
        · exact Or.inl (hconds ▸ h')
        · exact Or.inr h'
    · rw [if_neg hen] at h
      exact Or.inl ((mem_Delete as _ c).mp h).1

/-- Steps 2, 3 and 4, the marking as connected and the finalizer keep
`Spec.ManagementAPI`; steps 2 and 3, the marking and the finalizer keep `Spec.SideroLink`. -/
theorem markConnected_frame (P : Platform) (as : AdoptedServer) :
    (markConnected P as).Spec = as.Spec ∧ (markConnected P as).Status.Connected = true ∧
    (markConnected P as).Name = as.Name := by
  refine ⟨?_, rfl, ?_⟩
  · show (conditions.MarkTrue P.clock.connected
        (conditions.MarkTrue P.clock.adopted as ConditionAdopted) ConditionConnected).Spec = _
    unfold conditions.MarkTrue
    rw [(Set_frame _ _ _).2.2.1, (Set_frame _ _ _).2.2.1]
  · simp [markConnected, conditions.MarkTrue, conditions.Set, AdoptedServer.SetConditions]

/-! ## Theorems: the link and sync steps of `Reconcile` -/

/-- Step 4 on a resource whose link monitoring is absent or disabled deletes the
`SideroLinkReady` condition and does nothing else. -/
theorem stepSideroLink_disabled {W : Type} (P : Platform) (H : Hooks) (as : AdoptedServer)
    (σ : World W) (hoff : sideroLinkEnabled as = false) :
    stepSideroLink P H as σ = (conditions.Delete as ConditionSideroLinkReady, σ) := by
  unfold stepSideroLink
  unfold sideroLinkEnabled at hoff
  cases hlink : as.Spec.SideroLink with
  | none => rfl
  | some link =>
    rw [hlink] at hoff
    dsimp only at hoff ⊢
    rw [hoff]
    rfl

/-- The resource that enters step 4 has the spec of the resource that entered
`reconcileNormal`. -/
theorem beforeLink_spec {W : Type} (P : Platform) (H : Hooks) (as : AdoptedServer)
    (σ : World W) :
    (stepHealthCheck H
      (stepGatherNodeInfo H (markConnected P as)
        (σ.log (Effect.checkTalosConnectivity true none))).1
      (stepGatherNodeInfo H (markConnected P as)
        (σ.log (Effect.checkTalosConnectivity true none))).2).1.Spec = as.Spec :=
  (markConnected_frame P as).1

/-- When link monitoring is absent or disabled, no `SideroLinkReady` condition is left when
step 5 starts. -/
theorem beforeSync_link_disabled {W : Type} (P : Platform) (H : Hooks) (as : AdoptedServer)
    (σ : World W) (hoff : sideroLinkEnabled as = false) :
    ∀ c ∈ (beforeSync P H as σ).1.Status.Conditions, c.Type_ ≠ ConditionSideroLinkReady := by
  intro c hc
  unfold beforeSync at hc
  rw [stepSideroLink_disabled P H _ _ (by
    unfold sideroLinkEnabled
    rw [beforeLink_spec P H as σ]
    exact hoff)] at hc
  exact ((mem_Delete _ _ c).mp hc).2

/-- C13: for every accepted resource with no deletion timestamp whose connectivity probe
succeeds (the invocation calls the probe and gets `true, nil`) and whose link-monitoring
config is absent or disabled, `Reconcile` removes the `SideroLinkReady` condition from the
status: whatever the conditions were before, afterwards no condition of that type is left
(`conditions.Get` finds none), neither with status `True` nor with status `False`. -/
theorem Reconcile_clears_link_condition {W : Type} (P : Platform) (H : Hooks) (R : Remote W)
    (req : String) (as : AdoptedServer) (w : W)
    (hget : P.Get req = GetResult.found as)
    (hdel : Time.IsZero as.DeletionTimestamp = true) (hacc : as.Spec.Accepted = true)
    (hprobe : Effect.checkTalosConnectivity true none
      ∈ (Reconcile P H R req (World.start w)).world.trace)
    (hoff : sideroLinkEnabled as = false) :
    ∃ as', (Reconcile P H R req (World.start w)).as = some as' ∧
      conditions.Get as' ConditionSideroLinkReady = none ∧
      ∀ c ∈ as'.Status.Conditions, c.Type_ ≠ ConditionSideroLinkReady := by
  have hno : ∀ c ∈ (finishNormal
      (stepManagementAPI P R (syncInput P H as w).1 (syncInput P H as w).2).1
      (stepManagementAPI P R (syncInput P H as w).1 (syncInput P H as w).2).2).as.Status.Conditions,
      c.Type_ ≠ ConditionSideroLinkReady := by
    intro c hc
    have hc' : c ∈ (stepManagementAPI P R (syncInput P H as w).1
        (syncInput P H as w).2).1.Status.Conditions := hc
    rcases mem_stepManagementAPI P R _ _ c hc' with h | h
    · refine beforeSync_link_disabled P H _ _ ?_ c h
      unfold sideroLinkEnabled
      rw [(AddFinalizer_frame as adoptedServerFinalizer).1]
      exact hoff
    · rw [h]
      decide
  exact ⟨_, (Reconcile_reachable P H R req as w hget hdel hacc hprobe).1,
    (Get_eq_none_iff _ _).mpr hno, hno⟩

/-- C13 on a resource that carries `SideroLinkReady = True` from an earlier invocation and
whose link monitoring is now disabled. -/
theorem Reconcile_clears_link_condition_witness :
    ∃ as', (Reconcile (samplePlatform (linkedServer [] none false none) none none)
        (sourceHooks sampleClock) (sampleRemote "c-1") "node-1" (World.start 0)).as = some as' ∧
      conditions.Get as' ConditionSideroLinkReady = none ∧
      ∀ c ∈ as'.Status.Conditions, c.Type_ ≠ ConditionSideroLinkReady :=
  Reconcile_clears_link_condition (samplePlatform (linkedServer [] none false none) none none)
    (sourceHooks sampleClock) (sampleRemote "c-1") "node-1" (linkedServer [] none false none) 0
    rfl rfl rfl (by decide) rfl

/-- Step 4 keeps `Spec.ManagementAPI`. -/
theorem stepSideroLink_managementAPI {W : Type} (P : Platform) (H : Hooks)
    (as : AdoptedServer) (σ : World W) :
    (stepSideroLink P H as σ).1.Spec.ManagementAPI = as.Spec.ManagementAPI := by
  unfold stepSideroLink
  cases hlink : as.Spec.SideroLink with
  | none =>
    dsimp only
    rw [(Delete_frame as _).2.2]
  | some link =>
    dsimp only
    by_cases hen : link.Enabled = true
    · rw [if_pos hen]
      cases herr : (H.setupSideroLink as).2.2 with
      | none =>
        dsimp only
        unfold conditions.MarkTrue
        rw [(Set_frame _ _ _).2.2.1]
      | some err =>
        dsimp only
        unfold conditions.MarkFalse
        rw [(Set_frame _ _ _).2.2.1]
    · rw [if_neg hen]
      dsimp only
      rw [(Delete_frame as _).2.2]

/-- When step 5 starts, the resource is connected and has the integration config with
which it entered `reconcileNormal`. -/
theorem beforeSync_frame {W : Type} (P : Platform) (H : Hooks) (as : AdoptedServer)
    (σ : World W) :
    (beforeSync P H as σ).1.Status.Connected = true ∧
    (beforeSync P H as σ).1.Spec.ManagementAPI = as.Spec.ManagementAPI := by
  unfold beforeSync
  refine ⟨?_, ?_⟩
  · rw [(stepSideroLink_frame P H _ _).1]
    rfl
  · rw [stepSideroLink_managementAPI, beforeLink_spec]

/-- Step 5 when the sync fails with the error `e`: the `ManagementAPISync` condition is
`False` with reason `SyncFailed` and severity `Warning`, `Synced` is false and `Error` is
`e`; `Status.Connected` is kept. -/
theorem stepManagementAPI_failure {W : Type} (P : Platform) (R : Remote W)
    (as as1 : AdoptedServer) (cfg : ManagementAPIConfig) (σ σ1 : World W) (e : String)
    (hcfg : as.Spec.ManagementAPI = some cfg) (hen : cfg.Enabled = true)
    (hsync : syncWithManagementAPI R as cfg (σ.log Effect.syncWithManagementAPI)
      = (some e, as1, σ1)) :
    (∃ c, conditions.Get (stepManagementAPI P R as σ).1 ConditionManagementAPISync = some c ∧
      c.Status = ConditionFalse ∧ c.Reason = "SyncFailed" ∧
      c.Severity = ConditionSeverityWarning) ∧
    (∃ st, (stepManagementAPI P R as σ).1.Status.ManagementAPIStatus = some st ∧
      st.Synced = false ∧ st.Error = e) := by
  obtain ⟨c, hc, hstate⟩ := Get_Set P.clock.managementAPISync as1
    (conditions.FalseCondition ConditionManagementAPISync "SyncFailed"
      ConditionSeverityWarning (P.Sprintf e))
  simp only [conditions.HasSameState, conditions.FalseCondition, Bool.and_eq_true,
    beq_iff_eq] at hstate
  simp only [stepManagementAPI, hcfg, hen, if_true, hsync]
  exact ⟨⟨c, hc, hstate.1.1.1.2, hstate.1.1.2, hstate.1.2⟩, ⟨_, rfl, rfl, rfl⟩⟩

/-- Step 5 when the sync succeeds: the `ManagementAPISync` condition is `True`, `Synced` is
true and `Error` is empty. -/
theorem stepManagementAPI_success {W : Type} (P : Platform) (R : Remote W)
    (as as1 : AdoptedServer) (cfg : ManagementAPIConfig) (σ σ1 : World W)
    (hcfg : as.Spec.ManagementAPI = some cfg) (hen : cfg.Enabled = true)
    (hsync : syncWithManagementAPI R as cfg (σ.log Effect.syncWithManagementAPI)
      = (none, as1, σ1)) :
    (∃ c, conditions.Get (stepManagementAPI P R as σ).1 ConditionManagementAPISync = some c ∧
      c.Status = ConditionTrue) ∧
    (∃ st, (stepManagementAPI P R as σ).1.Status.ManagementAPIStatus = some st ∧
      st.Synced = true ∧ st.Error = "") := by
  obtain ⟨c, hc, hstate⟩ := Get_Set P.clock.managementAPISync as1
    (conditions.TrueCondition ConditionManagementAPISync)
  simp only [conditions.HasSameState, conditions.TrueCondition, Bool.and_eq_true,
    beq_iff_eq] at hstate
  simp only [stepManagementAPI, hcfg, hen, if_true, hsync]
  exact ⟨⟨c, hc, hstate.1.1.1.2⟩, ⟨_, rfl, rfl, rfl⟩⟩

/-- C14: for every accepted, reachable resource (no deletion timestamp, the invocation
calls the probe and gets `true, nil`) with remote sync enabled: if the sync of this
invocation, `syncWithManagementAPI` on the state `syncInput`, returns an error `e`, then
after `Reconcile` the `ManagementAPISync` condition is `False` with reason `SyncFailed` and
severity `Warning`, `ManagementAPIStatus.Synced` is false, `ManagementAPIStatus.Error`
equals the text of `e`, and `Status.Ready` is still true; if the sync succeeds, the
condition is `True`, `Synced` is true and `Error` is the empty string. -/
theorem Reconcile_sync_outcome {W : Type} (P : Platform) (H : Hooks) (R : Remote W)
    (req : String) (as : AdoptedServer) (cfg : ManagementAPIConfig) (w : W)
    (hget : P.Get req = GetResult.found as)
    (hdel : Time.IsZero as.DeletionTimestamp = true) (hacc : as.Spec.Accepted = true)
    (hprobe : Effect.checkTalosConnectivity true none
      ∈ (Reconcile P H R req (World.start w)).world.trace)
    (hcfg : as.Spec.ManagementAPI = some cfg) (hen : cfg.Enabled = true) :
    ∃ as', (Reconcile P H R req (World.start w)).as = some as' ∧
      (∀ e as1 σ1,
        syncWithManagementAPI R (syncInput P H as w).1 cfg
          ((syncInput P H as w).2.log Effect.syncWithManagementAPI) = (some e, as1, σ1) →
        (∃ c, conditions.Get as' ConditionManagementAPISync = some c ∧
          c.Status = ConditionFalse ∧ c.Reason = "SyncFailed" ∧
          c.Severity = ConditionSeverityWarning) ∧
        (∃ st, as'.Status.ManagementAPIStatus = some st ∧ st.Synced = false ∧ st.Error = e) ∧
        as'.Status.Ready = true) ∧
      (∀ as1 σ1,
        syncWithManagementAPI R (syncInput P H as w).1 cfg
          ((syncInput P H as w).2.log Effect.syncWithManagementAPI) = (none, as1, σ1) →
        (∃ c, conditions.Get as' ConditionManagementAPISync = some c ∧
          c.Status = ConditionTrue) ∧
        (∃ st, as'.Status.ManagementAPIStatus = some st ∧ st.Synced = true ∧ st.Error = "") ∧
        as'.Status.Ready = true) := by
  obtain ⟨hconn, hmgmt⟩ := beforeSync_frame P H (AddFinalizer as adoptedServerFinalizer)
    (afterFinalizer as (World.start w))
  have hcfg' : (syncInput P H as w).1.Spec.ManagementAPI = some cfg := by
    unfold syncInput
    rw [hmgmt, (AddFinalizer_frame as adoptedServerFinalizer).1, hcfg]
  have hready : (finishNormal
      (stepManagementAPI P R (syncInput P H as w).1 (syncInput P H as w).2).1
      (stepManagementAPI P R (syncInput P H as w).1 (syncInput P H as w).2).2).as.Status.Ready
      = true := by
    rw [(finishNormal_spec _ _).1, (stepManagementAPI_frame P R _ _).1]
    exact hconn
  refine ⟨_, (Reconcile_reachable P H R req as w hget hdel hacc hprobe).1,
    fun e as1 σ1 hsync => ?_, fun as1 σ1 hsync => ?_⟩
  · obtain ⟨h1, h2⟩ := stepManagementAPI_failure P R _ as1 cfg _ σ1 e hcfg' hen hsync
    exact ⟨h1, h2, hready⟩
  · obtain ⟨h1, h2⟩ := stepManagementAPI_success P R _ as1 cfg _ σ1 hcfg' hen hsync
    exact ⟨h1, h2, hready⟩

/-- C14 on the sample resource with remote sync enabled: against the registry that cannot
be reached the sync fails in its health check and the status records that error; against
the sample registry the sync succeeds. -/
theorem Reconcile_sync_outcome_witness :
    (∃ as', (Reconcile
        (samplePlatform (sampleServer [] none true (some (sampleConfig "c-1"))) none none)
        (sourceHooks sampleClock) unreachableRemote "node-1" (World.start 0)).as = some as' ∧
      (∃ st, as'.Status.ManagementAPIStatus = some st ∧ st.Synced = false ∧
        st.Error = "failed to connect to Management API: "
          ++ "failed to execute HTTP request: connection refused") ∧
      as'.Status.Ready = true) ∧
    (∃ as', (Reconcile
        (samplePlatform (sampleServer [] none true (some (sampleConfig "c-1"))) none none)
        (sourceHooks sampleClock) (sampleRemote "c-1") "node-1" (World.start 0)).as = some as' ∧
      (∃ st, as'.Status.ManagementAPIStatus = some st ∧ st.Synced = true ∧ st.Error = "") ∧
      as'.Status.Ready = true) := by
  refine ⟨?_, ?_⟩
  · obtain ⟨as', h1, h2, _⟩ := Reconcile_sync_outcome
      (samplePlatform (sampleServer [] none true (some (sampleConfig "c-1"))) none none)
      (sourceHooks sampleClock) unreachableRemote "node-1"
      (sampleServer [] none true (some (sampleConfig "c-1"))) (sampleConfig "c-1") 0
      rfl rfl rfl (by decide) rfl rfl
    exact ⟨as', h1, (h2 _ _ _ rfl).2⟩
  · obtain ⟨as', h1, _, h3⟩ := Reconcile_sync_outcome
      (samplePlatform (sampleServer [] none true (some (sampleConfig "c-1"))) none none)
      (sourceHooks sampleClock) (sampleRemote "c-1") "node-1"
      (sampleServer [] none true (some (sampleConfig "c-1"))) (sampleConfig "c-1") 0
      rfl rfl rfl (by decide) rfl rfl
    exact ⟨as', h1, (h3 _ _ rfl).2⟩

/-! ## Theorems: two invocations in succession -/

/-- When `lexicographicLess` says no: `j` is `Ready`, or `i` is not `Ready` and its type
does not come before that of `j`. -/
theorem lexicographicLess_eq_false_iff (i j : Condition) :
    conditions.lexicographicLess i j = false ↔
      j.Type_ = ReadyCondition ∨ (i.Type_ ≠ ReadyCondition ∧ ¬ i.Type_.data < j.Type_.data) := by
  unfold conditions.lexicographicLess
  by_cases hj : j.Type_ = ReadyCondition
  · simp [hj]
  · by_cases hi : i.Type_ = ReadyCondition
    · simp [hi, hj]
    · simp [hi, hj]

/-- The order of `sortConditions` is total. -/
theorem sortOrder_total (a b : Condition) :
    conditions.lexicographicLess b a = false ∨ conditions.lexicographicLess a b = false := by
  rw [lexicographicLess_eq_false_iff, lexicographicLess_eq_false_iff]
  by_cases ha : a.Type_ = ReadyCondition
  · exact Or.inl (Or.inl ha)
  · by_cases hb : b.Type_ = ReadyCondition
    · exact Or.inr (Or.inl hb)
    · rcases lt_or_ge a.Type_.data b.Type_.data with h | h
      · exact Or.inl (Or.inr ⟨hb, not_lt.mpr (le_of_lt h)⟩)
      · exact Or.inr (Or.inr ⟨ha, not_lt.mpr h⟩)

/-- The order of `sortConditions` is transitive. -/
theorem sortOrder_trans (a b c : Condition)
    (hab : conditions.lexicographicLess b a = false)
    (hbc : conditions.lexicographicLess c b = false) :
    conditions.lexicographicLess c a = false := by
  rw [lexicographicLess_eq_false_iff] at hab hbc ⊢
  rcases hab with ha | ⟨hb, hba⟩
  · exact Or.inl ha
  · rcases hbc with hb' | ⟨hc, hcb⟩
    · exact absurd hb' hb
    · exact Or.inr ⟨hc, not_lt.mpr (le_trans (not_lt.mp hba) (not_lt.mp hcb))⟩

/-- The list that `sortConditions` returns is in its order. -/
theorem sortConditions_sorted (l : List Condition) :
    (conditions.sortConditions l).Sorted
      (fun x y => conditions.lexicographicLess y x = false) := by
  haveI : IsTotal Condition (fun x y => conditions.lexicographicLess y x = false) :=
    ⟨sortOrder_total⟩
  haveI : IsTrans Condition (fun x y => conditions.lexicographicLess y x = false) :=
    ⟨sortOrder_trans⟩
  exact List.sorted_insertionSort _ l

/-- The call `sortConditions` leaves a list that is in its order as it is. -/
theorem sortConditions_of_sorted (l : List Condition)
    (h : l.Sorted (fun x y => conditions.lexicographicLess y x = false)) :
    conditions.sortConditions l = l :=
  List.Sorted.insertionSort_eq h

/-- The loop of `conditions.Set` changes nothing when the first entry of the type has the
state of the condition. -/
theorem setLoop_of_same_state (now : Time) (c e : Condition) (l : List Condition)
    (hfind : l.find? (fun x => x.Type_ == c.Type_) = some e)
    (hstate : conditions.HasSameState e c = true) :
    conditions.setLoop now c l = (l, true) := by
  induction l with
  | nil => simp at hfind
  | cons x rest ih =>
    unfold conditions.setLoop
    by_cases hx : x.Type_ = c.Type_
    · have hxe : x = e := by simpa [List.find?_cons, hx] using hfind
      rw [if_pos hx, hxe, hstate]
      rfl
    · have hrest : rest.find? (fun x => x.Type_ == c.Type_) = some e := by
        simpa [List.find?_cons, hx] using hfind
      rw [if_neg hx, ih hrest]

/-- The function `conditions.Set` leaves a resource that carries the condition as it is. -/
theorem Set_of_Carries (now : Time) (a : AdoptedServer) (c : Condition) (h : Carries a c) :
    conditions.Set now a c = a := by
  obtain ⟨hsorted, e, hget, hstate⟩ := h
  have hloop := setLoop_of_same_state now c e a.Status.Conditions hget hstate
  unfold conditions.Set
  simp only [AdoptedServer.GetConditions, hloop, if_true, AdoptedServer.SetConditions]
  rw [sortConditions_of_sorted _ hsorted]

/-- After `conditions.Set` the resource carries the condition. -/
theorem Carries_Set (now : Time) (a : AdoptedServer) (c : Condition) :
    Carries (conditions.Set now a c) c :=
  ⟨by
    simp only [conditions.Set, AdoptedServer.SetConditions]
    exact sortConditions_sorted _, Get_Set now a c⟩

/-- The loop of `conditions.Set`, and the append when the type was absent, do not change
which entry is the first of another type. -/
theorem find?_setLoop_other (now : Time) (c : Condition) (t : String) (l : List Condition)
    (stamped : Condition) (hstamped : stamped.Type_ = c.Type_) (ht : c.Type_ ≠ t) :
    (if (conditions.setLoop now c l).2 then (conditions.setLoop now c l).1
      else (conditions.setLoop now c l).1 ++ [stamped]).find? (fun x => x.Type_ == t)
      = l.find? (fun x => x.Type_ == t) := by
  induction l with
  | nil => simp [conditions.setLoop, List.find?_cons, hstamped, ht]
  | cons x rest ih =>
    unfold conditions.setLoop
    by_cases hx : x.Type_ = c.Type_
    · have hxt : ¬ x.Type_ = t := fun e => ht (hx.symm.trans e)
      rw [if_pos hx]
      by_cases hs : conditions.HasSameState x c = true
      · simp [hs]
      · simp [hs, List.find?_cons, hxt, ht]
    · rw [if_neg hx]
      by_cases hflag : (conditions.setLoop now c rest).2 = true
      · simp only [hflag, if_true] at ih ⊢
        by_cases hxt : x.Type_ = t
        · simp [List.find?_cons, hxt]
        · simpa [List.find?_cons, hxt] using ih
      · simp only [hflag] at ih ⊢
        by_cases hxt : x.Type_ = t
        · simp [List.find?_cons, hxt]
        · simpa [List.find?_cons, hxt] using ih

/-- The function `conditions.Set` does not change what `conditions.Get` finds for another
type. -/
theorem Get_Set_other (now : Time) (a : AdoptedServer) (c : Condition) (t : String)
    (ht : c.Type_ ≠ t) : conditions.Get (conditions.Set now a c) t = conditions.Get a t := by
  simp only [conditions.Get, conditions.Set, AdoptedServer.GetConditions,
    AdoptedServer.SetConditions]
  rw [find?_sortConditions]
  exact find?_setLoop_other now c t _ _ rfl ht

/-- A resource that carries a condition still carries it after `conditions.Set` of a
condition of another type. -/
theorem Carries_Set_other (now : Time) (a : AdoptedServer) (c c' : Condition)
    (h : Carries a c) (ht : c'.Type_ ≠ c.Type_) : Carries (conditions.Set now a c') c := by
  refine ⟨(Carries_Set now a c').1, ?_⟩
  rw [Get_Set_other now a c' c.Type_ ht]
  exact h.2

/-- The function `conditions.Delete` does not change what `conditions.Get` finds for another
type. -/
theorem Get_Delete_other (a : AdoptedServer) (t' t : String) (ht : t' ≠ t) :
    conditions.Get (conditions.Delete a t') t = conditions.Get a t := by
  simp only [conditions.Get, conditions.Delete, AdoptedServer.GetConditions,
    AdoptedServer.SetConditions]
  induction a.Status.Conditions with
  | nil => rfl
  | cons x rest ih =>
    by_cases hx : x.Type_ = t'
    · have hxt : ¬ x.Type_ = t := fun e => ht (hx.symm.trans e)
      simpa [List.filter_cons, hx, List.find?_cons, hxt, ht] using ih
    · by_cases hxt : x.Type_ = t
      · have htt : ¬ t = t' := fun e => ht e.symm
        simp [List.filter_cons, List.find?_cons, hxt, htt]
      · simpa [List.filter_cons, hx, List.find?_cons, hxt] using ih

/-- A resource that carries a condition still carries it after `conditions.Delete` of
another type. -/
theorem Carries_Delete_other (a : AdoptedServer) (c : Condition) (t' : String)
    (h : Carries a c) (ht : t' ≠ c.Type_) : Carries (conditions.Delete a t') c := by
  refine ⟨?_, ?_⟩
  · simp only [conditions.Delete, AdoptedServer.SetConditions, AdoptedServer.GetConditions]
    exact List.Pairwise.filter _ h.1
  · rw [Get_Delete_other a t' c.Type_ ht]
    exact h.2

/-- The function `conditions.Delete` leaves a resource without a condition of the type as
it is. -/
theorem Delete_of_absent (a : AdoptedServer) (t : String)
    (h : ∀ c ∈ a.Status.Conditions, c.Type_ ≠ t) : conditions.Delete a t = a := by
  have hfilter : a.Status.Conditions.filter (fun condition => condition.Type_ != t)
      = a.Status.Conditions :=
    List.filter_eq_self.mpr (fun c hc => by simpa using h c hc)
  simp only [conditions.Delete, AdoptedServer.SetConditions, AdoptedServer.GetConditions,
    hfilter]

/-- Whether a resource carries a condition depends on its condition list only. -/
theorem Carries_congr (a b : AdoptedServer) (c : Condition)
    (hconds : b.Status.Conditions = a.Status.Conditions) (h : Carries a c) : Carries b c := by
  unfold Carries conditions.Get AdoptedServer.GetConditions at *
  rw [hconds]
  exact h

/-! ## Theorems: a registry with fixed answers -/

/-- Against a registry with fixed answers the result of `doRequest` depends on the method,
the path and the decoder only. -/
theorem doRequest_fixed {W ρ : Type} (R : Remote W) (hR : FixedAnswers R) (c c' : Client)
    (method : Method) (path : String) (body body' : Option RequestBody)
    (unmarshal : String → Except String ρ) (σ σ' : World W) :
    (doRequest R c method path body unmarshal σ).1
      = (doRequest R c' method path body' unmarshal σ').1 := by
  have h := hR σ.remote σ'.remote c c' ⟨method, path, body⟩ ⟨method, path, body'⟩ rfl rfl
  simp only [doRequest]
  rw [h]
  cases (R.roundTrip σ'.remote c' ⟨method, path, body'⟩).1 with
  | marshalFailed err => rfl
  | createFailed err => rfl
  | executeFailed err => rfl
  | readFailed err => rfl
  | response StatusCode respBody =>
    dsimp only
    by_cases hcode : StatusCode < 200 ∨ StatusCode ≥ 300
    · rw [if_pos hcode, if_pos hcode]
      cases R.unmarshalErrorResponse respBody <;> rfl
    · rw [if_neg hcode, if_neg hcode]
      cases unmarshal respBody <;> rfl

/-- Against a registry with fixed answers the node step returns the same error for every
resource. -/
theorem syncNode_fixed {W : Type} (R : Remote W) (hR : FixedAnswers R) (s s' : SyncService)
    (a b : AdoptedServer) (clusterID clusterID' : String) (σ σ' : World W) :
    (s.syncNode R a clusterID σ).1 = (s'.syncNode R b clusterID' σ').1 := by
  have h := doRequest_fixed R hR s.client s'.client Method.POST nodesPath
    (some (RequestBody.nodeRegister (nodeRegisterRequest a clusterID)))
    (some (RequestBody.nodeRegister (nodeRegisterRequest b clusterID')))
    R.unmarshalNodeRegisterResponse σ σ'
  unfold SyncService.syncNode SyncService.registerOrUpdateNode Client.RegisterNode
  rcases h1 : doRequest R s.client Method.POST nodesPath
    (some (RequestBody.nodeRegister (nodeRegisterRequest a clusterID)))
    R.unmarshalNodeRegisterResponse σ with ⟨r1, σ1⟩
  rcases h2 : doRequest R s'.client Method.POST nodesPath
    (some (RequestBody.nodeRegister (nodeRegisterRequest b clusterID')))
    R.unmarshalNodeRegisterResponse σ' with ⟨r2, σ2⟩
  rw [h1, h2] at h
  dsimp only at h
  subst h
  cases r1 <;> rfl

/-- Against a registry with fixed answers `SyncAdoptedServer` returns the same error for
two resources with the same enabled integration config. -/
theorem SyncAdoptedServer_fixed {W : Type} (R : Remote W) (hR : FixedAnswers R)
    (s s' : SyncService) (a b : AdoptedServer) (cfg : ManagementAPIConfig) (σ σ' : World W)
    (ha : a.Spec.ManagementAPI = some cfg) (hb : b.Spec.ManagementAPI = some cfg)
    (hen : cfg.Enabled = true) :
    (s.SyncAdoptedServer R a σ).1 = (s'.SyncAdoptedServer R b σ').1 := by
  unfold SyncService.SyncAdoptedServer
  rw [ha, hb]
  simp only [hen, Bool.not_true, Bool.false_eq_true, if_false]
  by_cases hid : cfg.ClusterID = ""
  · rw [if_pos hid, if_pos hid]
    have h := doRequest_fixed R hR s.client s'.client Method.POST clustersPath
      (some (RequestBody.clusterRegister (clusterRegisterRequest a cfg)))
      (some (RequestBody.clusterRegister (clusterRegisterRequest b cfg)))
      R.unmarshalClusterRegisterResponse σ σ'
    unfold SyncService.registerCluster Client.RegisterCluster
    rcases h1 : doRequest R s.client Method.POST clustersPath
      (some (RequestBody.clusterRegister (clusterRegisterRequest a cfg)))
      R.unmarshalClusterRegisterResponse σ with ⟨r1, σ1⟩
    rcases h2 : doRequest R s'.client Method.POST clustersPath
      (some (RequestBody.clusterRegister (clusterRegisterRequest b cfg)))
      R.unmarshalClusterRegisterResponse σ' with ⟨r2, σ2⟩
    rw [h1, h2] at h
    dsimp only at h
    subst h
    cases r1 with
    | error err => rfl
    | ok resp => exact syncNode_fixed R hR s s' _ _ _ _ σ1 σ2
  · rw [if_neg hid, if_neg hid]
    have h := doRequest_fixed R hR s.client s'.client Method.PATCH
      (clusterStatusPath cfg.ClusterID)
      (some (RequestBody.statusUpdate (statusUpdateRequest a)))
      (some (RequestBody.statusUpdate (statusUpdateRequest b)))
      R.unmarshalStatusUpdateResponse σ σ'
    unfold SyncService.updateClusterStatus Client.UpdateClusterStatus
    rcases h1 : doRequest R s.client Method.PATCH (clusterStatusPath cfg.ClusterID)
      (some (RequestBody.statusUpdate (statusUpdateRequest a)))
      R.unmarshalStatusUpdateResponse σ with ⟨r1, σ1⟩
    rcases h2 : doRequest R s'.client Method.PATCH (clusterStatusPath cfg.ClusterID)
      (some (RequestBody.statusUpdate (statusUpdateRequest b)))
      R.unmarshalStatusUpdateResponse σ' with ⟨r2, σ2⟩
    rw [h1, h2] at h
    dsimp only at h
    subst h
    cases r1 with
    | error err => rfl
    | ok resp => exact syncNode_fixed R hR s s' _ _ _ _ σ1 σ2

/-- Against a registry with fixed answers `syncWithManagementAPI` returns the same error
for two resources with the same enabled integration config. -/
theorem syncWithManagementAPI_fixed {W : Type} (R : Remote W) (hR : FixedAnswers R)
    (a b : AdoptedServer) (cfg : ManagementAPIConfig) (σ σ' : World W)
    (ha : a.Spec.ManagementAPI = some cfg) (hb : b.Spec.ManagementAPI = some cfg)
    (hen : cfg.Enabled = true) :
    (syncWithManagementAPI R a cfg σ).1 = (syncWithManagementAPI R b cfg σ').1 := by
  unfold syncWithManagementAPI
  cases NewClient R cfg.Endpoint [] with
  | error err => rfl
  | ok client =>
    dsimp only
    have h := doRequest_fixed R hR client client Method.GET "/health" none none
      R.unmarshalHealthCheckResponse σ σ'
    unfold Client.HealthCheck
    rcases h1 : doRequest R client Method.GET "/health" none
      R.unmarshalHealthCheckResponse σ with ⟨r1, σ1⟩
    rcases h2 : doRequest R client Method.GET "/health" none
      R.unmarshalHealthCheckResponse σ' with ⟨r2, σ2⟩
    rw [h1, h2] at h
    dsimp only at h
    subst h
    cases r1 with
    | error err => rfl
    | ok resp =>
      dsimp only
      have hs := SyncAdoptedServer_fixed R hR (NewSyncService client) (NewSyncService client)
        a b cfg σ1 σ2 ha hb hen
      rcases h3 : (NewSyncService client).SyncAdoptedServer R a σ1 with ⟨e1, a1, τ1⟩
      rcases h4 : (NewSyncService client).SyncAdoptedServer R b σ2 with ⟨e2, b1, τ2⟩
      rw [h3, h4] at hs
      dsimp only at hs
      subst hs
      cases e1 <;> rfl

/-! ## Theorems: what steps 4 and 5 of `reconcileNormal` write -/

/-- Step 4 on a resource with link monitoring enabled: the setup writes the link config and
status, then the link condition is set. -/
theorem stepSideroLink_enabled {W : Type} (P : Platform) (H : Hooks) (a : AdoptedServer)
    (σ : World W) (hon : sideroLinkEnabled a = true) :
    (stepSideroLink P H a σ).1
      = conditions.Set P.clock.sideroLink (linkSetup H a)
          (linkCondition P (H.setupSideroLink a).2.2) := by
  unfold stepSideroLink
  unfold sideroLinkEnabled at hon
  cases hlink : a.Spec.SideroLink with
  | none => rw [hlink] at hon; cases hon
  | some link =>
    rw [hlink] at hon
    dsimp only at hon ⊢
    rw [if_pos hon]
    cases herr : (H.setupSideroLink a).2.2 <;> rfl

/-- Step 5 on a resource with remote sync enabled: the condition for the sync result is set
on the resource that the sync returns, then the result is recorded in the sync status. -/
theorem stepManagementAPI_enabled {W : Type} (P : Platform) (R : Remote W)
    (a : AdoptedServer) (cfg : ManagementAPIConfig) (σ : World W)
    (hcfg : a.Spec.ManagementAPI = some cfg) (hen : cfg.Enabled = true) :
    (stepManagementAPI P R a σ).1
      = syncRecorded P
          (conditions.Set P.clock.managementAPISync
            (syncWithManagementAPI R a cfg (σ.log Effect.syncWithManagementAPI)).2.1
            (syncCondition P
              (syncWithManagementAPI R a cfg (σ.log Effect.syncWithManagementAPI)).1))
          (syncWithManagementAPI R a cfg (σ.log Effect.syncWithManagementAPI)).1 := by
  unfold stepManagementAPI
  rw [hcfg]
  dsimp only
  rw [if_pos hen]
  rcases syncWithManagementAPI R a cfg (σ.log Effect.syncWithManagementAPI) with ⟨e, a1, σ1⟩
  cases e <;> rfl

/-- Step 5 on a resource with remote sync absent or disabled deletes the
`ManagementAPISync` condition and does nothing else. -/
theorem stepManagementAPI_disabled {W : Type} (P : Platform) (R : Remote W)
    (a : AdoptedServer) (σ : World W) (hoff : managementAPIEnabled a = false) :
    stepManagementAPI P R a σ = (conditions.Delete a ConditionManagementAPISync, σ) := by
  unfold stepManagementAPI
  unfold managementAPIEnabled at hoff
  cases hcfg : a.Spec.ManagementAPI with
  | none => rfl
  | some cfg =>
    rw [hcfg] at hoff
    dsimp only at hoff ⊢
    rw [hoff]
    rfl

/-- Step 4 keeps every condition of another type than `SideroLinkReady` that the resource
carries, and the fields of the status that are not the link status. -/
theorem stepSideroLink_keeps {W : Type} (P : Platform) (H : Hooks) (a : AdoptedServer)
    (σ : World W) :
    (∀ c, Carries a c → c.Type_ ≠ ConditionSideroLinkReady →
      Carries (stepSideroLink P H a σ).1 c) ∧
    (stepSideroLink P H a σ).1.Status.NodeInfo = a.Status.NodeInfo ∧
    (stepSideroLink P H a σ).1.Status.Addresses = a.Status.Addresses ∧
    (stepSideroLink P H a σ).1.Status.Health = a.Status.Health := by
  by_cases hon : sideroLinkEnabled a = true
  · rw [stepSideroLink_enabled P H a σ hon]
    refine ⟨fun c hc ht => ?_, rfl, rfl, rfl⟩
    refine Carries_Set_other _ _ c _ (Carries_congr a _ c rfl hc) ?_
    intro e
    apply ht
    rw [← e]
    cases (H.setupSideroLink a).2.2 <;> rfl
  · have hoff : sideroLinkEnabled a = false := by simpa using hon
    rw [stepSideroLink_disabled P H a σ hoff]
    exact ⟨fun c hc ht => Carries_Delete_other a c _ hc (fun e => ht e.symm), rfl, rfl, rfl⟩

/-- Step 5 keeps every condition of another type than `ManagementAPISync` that the resource
carries, and the fields of the status that are not the sync status. -/
theorem stepManagementAPI_keeps {W : Type} (P : Platform) (R : Remote W) (a : AdoptedServer)
    (σ : World W) :
    (∀ c, Carries a c → c.Type_ ≠ ConditionManagementAPISync →
      Carries (stepManagementAPI P R a σ).1 c) ∧
    (stepManagementAPI P R a σ).1.Status.NodeInfo = a.Status.NodeInfo ∧
    (stepManagementAPI P R a σ).1.Status.Addresses = a.Status.Addresses ∧
    (stepManagementAPI P R a σ).1.Status.Health = a.Status.Health ∧
    (stepManagementAPI P R a σ).1.Status.SideroLinkStatus = a.Status.SideroLinkStatus := by
  by_cases hon : managementAPIEnabled a = true
  · unfold managementAPIEnabled at hon
    cases hcfg : a.Spec.ManagementAPI with
    | none => rw [hcfg] at hon; cases hon
    | some cfg =>
      rw [hcfg] at hon
      dsimp only at hon
      rw [stepManagementAPI_enabled P R a cfg σ hcfg hon]
      have hst := (syncWithManagementAPI_frame R a cfg (σ.log Effect.syncWithManagementAPI)).1
      refine ⟨fun c hc ht => ?_, ?_, ?_, ?_, ?_⟩
      · refine Carries_congr (conditions.Set P.clock.managementAPISync
          (syncWithManagementAPI R a cfg (σ.log Effect.syncWithManagementAPI)).2.1
          (syncCondition P
            (syncWithManagementAPI R a cfg (σ.log Effect.syncWithManagementAPI)).1)) _ c rfl ?_
        refine Carries_Set_other _ _ c _ (Carries_congr a _ c (by rw [hst]) hc) ?_
        intro e
        apply ht
        rw [← e]
        cases (syncWithManagementAPI R a cfg (σ.log Effect.syncWithManagementAPI)).1 <;> rfl
      · show (syncWithManagementAPI R a cfg _).2.1.Status.NodeInfo = _
        rw [hst]
      · show (syncWithManagementAPI R a cfg _).2.1.Status.Addresses = _
        rw [hst]
      · show (syncWithManagementAPI R a cfg _).2.1.Status.Health = _
        rw [hst]
      · show (syncWithManagementAPI R a cfg _).2.1.Status.SideroLinkStatus = _
        rw [hst]
  · have hoff : managementAPIEnabled a = false := by simpa using hon
    rw [stepManagementAPI_disabled P R a σ hoff]
    exact ⟨fun c hc ht => Carries_Delete_other a c _ hc (fun e => ht e.symm),
      rfl, rfl, rfl, rfl⟩

/-! ## Theorems: the second invocation finds what the first left -/

/-- The types of the conditions of steps 4 and 5. -/
theorem stepCondition_types (P : Platform) (err : Option String) :
    (linkCondition P err).Type_ = ConditionSideroLinkReady ∧
    (syncCondition P err).Type_ = ConditionManagementAPISync := by
  cases err <;> exact ⟨rfl, rfl⟩

/-- After the steps that follow a successful probe the resource carries their results,
when they leave the spec as it was. -/
theorem afterConnected_settled {W : Type} (P : Platform) (H : Hooks) (R : Remote W)
    (m : AdoptedServer) (σ : World W)
    (hA : Carries m (conditions.TrueCondition ConditionAdopted))
    (hC : Carries m (conditions.TrueCondition ConditionConnected))
    (hconn : m.Status.Connected = true)
    (hspec : (afterConnected P H R m σ).as.Spec = m.Spec) :
    Settled P H R (afterConnected P H R m σ).as := by
  obtain ⟨s1, s2, _, _⟩ := afterConnected_spec P H R m σ
  unfold afterConnected at hspec s1 s2 ⊢
  dsimp only at hspec s1 s2 ⊢
  generalize hg : stepGatherNodeInfo H m σ = g at hspec s1 s2 ⊢
  have hgSpec : g.1.Spec = m.Spec := by rw [← hg]; rfl
  have hgConds : g.1.Status.Conditions = m.Status.Conditions := by rw [← hg]; rfl
  have hgInfo : g.1.Status.NodeInfo = (H.gatherNodeInfo m).1 ∧
      g.1.Status.Addresses = (H.gatherNodeInfo m).2.1 := by rw [← hg]; exact ⟨rfl, rfl⟩
  generalize hh : stepHealthCheck H g.1 g.2 = h at hspec s1 s2 ⊢
  have hhSpec : h.1.Spec = m.Spec := by rw [← hh]; exact hgSpec
  have hhConds : h.1.Status.Conditions = m.Status.Conditions := by rw [← hh]; exact hgConds
  have hhInfo : h.1.Status.NodeInfo = (H.gatherNodeInfo m).1 ∧
      h.1.Status.Addresses = (H.gatherNodeInfo m).2.1 := by rw [← hh]; exact hgInfo
  have hhHealth : h.1.Status.Health = (H.performHealthCheck g.1).1 := by rw [← hh]; rfl
  obtain ⟨kL, kLinfo, kLaddr, kLhealth⟩ := stepSideroLink_keeps P H h.1 h.2
  have hlMgmt := stepSideroLink_managementAPI P H h.1 h.2
  have hlEnabled := stepSideroLink_enabled P H h.1 h.2
  have hlDisabled := stepSideroLink_disabled P H h.1 h.2
  generalize hl : stepSideroLink P H h.1 h.2 = l at hspec s1 s2 kL kLinfo kLaddr kLhealth hlMgmt hlEnabled hlDisabled ⊢
  obtain ⟨kM, kMinfo, kMaddr, kMhealth, kMlink⟩ := stepManagementAPI_keeps P R l.1 l.2
  have hsMem := mem_stepManagementAPI P R l.1 l.2
  have hsEnabled := fun cfg => stepManagementAPI_enabled P R l.1 cfg l.2
  have hsDisabled := stepManagementAPI_disabled P R l.1 l.2
  generalize hs : stepManagementAPI P R l.1 l.2 = s at hspec s1 s2 kM kMinfo kMaddr kMhealth kMlink hsMem hsEnabled hsDisabled ⊢
  have hyConds : (finishNormal s.1 s.2).as.Status.Conditions = s.1.Status.Conditions := rfl
  have hySpec : (finishNormal s.1 s.2).as.Spec = s.1.Spec := rfl
  have hsSpec : s.1.Spec = m.Spec := hySpec.symm.trans hspec
  have hlinkEq : sideroLinkEnabled (finishNormal s.1 s.2).as = sideroLinkEnabled h.1 := by
    unfold sideroLinkEnabled
    rw [hspec, hhSpec]
  have hmgmtEq : (finishNormal s.1 s.2).as.Spec.ManagementAPI = l.1.Spec.ManagementAPI := by
    rw [hspec, hlMgmt, hhSpec]
  refine ⟨?_, ?_, ?_, ?_, ?_, ?_, ?_, ?_, ?_, ?_⟩
  · exact Carries_congr s.1 _ _ hyConds
      (kM _ (kL _ (Carries_congr m _ _ hhConds hA) (by decide)) (by decide))
  · exact Carries_congr s.1 _ _ hyConds
      (kM _ (kL _ (Carries_congr m _ _ hhConds hC) (by decide)) (by decide))
  · rw [s1]; exact hconn
  · rw [s2, s1]; exact hconn
  · refine ⟨m, hspec.symm, ?_, ?_⟩
    · show s.1.Status.NodeInfo = _
      rw [kMinfo, kLinfo, hhInfo.1]
    · show s.1.Status.Addresses = _
      rw [kMaddr, kLaddr, hhInfo.2]
  · refine ⟨g.1, hgSpec.trans hspec.symm, ?_⟩
    show s.1.Status.Health = _
    rw [kMhealth, kLhealth, hhHealth]
  · intro hon
    rw [hlinkEq] at hon
    refine ⟨h.1, hhSpec.trans hspec.symm, ?_, ?_⟩
    · show s.1.Status.SideroLinkStatus = _
      rw [kMlink, hlEnabled hon]
      rfl
    · refine Carries_congr s.1 _ _ hyConds (kM _ ?_ ?_)
      · rw [hlEnabled hon]
        exact Carries_Set _ _ _
      · rw [(stepCondition_types P _).1]
        decide
  · intro hoff c hc
    rw [hlinkEq] at hoff
    rcases hsMem c hc with hmem | hmem
    · rw [hlDisabled hoff] at hmem
      exact ((mem_Delete _ _ c).mp hmem).2
    · rw [hmem]
      decide
  · intro cfg hcfg hen
    rw [hmgmtEq] at hcfg
    refine ⟨l.1, l.2.log Effect.syncWithManagementAPI,
      ensureManagementAPIStatus (conditions.Set P.clock.managementAPISync
        (syncWithManagementAPI R l.1 cfg (l.2.log Effect.syncWithManagementAPI)).2.1
        (syncCondition P
          (syncWithManagementAPI R l.1 cfg (l.2.log Effect.syncWithManagementAPI)).1)),
      hcfg, ?_, ?_⟩
    · refine Carries_congr _ _ _ ?_ (Carries_Set P.clock.managementAPISync
        (syncWithManagementAPI R l.1 cfg (l.2.log Effect.syncWithManagementAPI)).2.1 _)
      rw [hyConds, hsEnabled cfg hcfg hen]
      rfl
    · show s.1.Status.ManagementAPIStatus = _
      rw [hsEnabled cfg hcfg hen]
      rfl
  · intro hoff c hc
    have hoff' : managementAPIEnabled l.1 = false := by
      unfold managementAPIEnabled at hoff ⊢
      rw [← hmgmtEq]
      exact hoff
    rw [hyConds, hsDisabled hoff'] at hc
    exact ((mem_Delete _ _ c).mp hc).2

/-- Two statuses are equal but for their timestamps when their other fields are equal. -/
theorem withoutTimestamps_eq_iff (s t : AdoptedServerStatus) :
    s.withoutTimestamps = t.withoutTimestamps ↔
      s.Ready = t.Ready ∧ s.Connected = t.Connected ∧
      s.Conditions.map Condition.withoutTimestamps
        = t.Conditions.map Condition.withoutTimestamps ∧
      s.Addresses = t.Addresses ∧
      s.Health.map HealthStatus.withoutTimestamps
        = t.Health.map HealthStatus.withoutTimestamps ∧
      s.ManagementAPIStatus.map ManagementAPIStatus.withoutTimestamps
        = t.ManagementAPIStatus.map ManagementAPIStatus.withoutTimestamps ∧
      s.SideroLinkStatus.map SideroLinkStatus.withoutTimestamps
        = t.SideroLinkStatus.map SideroLinkStatus.withoutTimestamps ∧
      s.NodeInfo = t.NodeInfo := by
  simp [AdoptedServerStatus.withoutTimestamps]

/-- Step 2 on a resource that carries the node information of an earlier run finds it
again and changes nothing. -/
theorem stepGatherNodeInfo_again {W : Type} (P : Platform) (H H2 : Hooks) (R : Remote W)
    (y x : AdoptedServer) (σ : World W) (hset : Settled P H R y) (hH : SameBehaviour H H2)
    (hxSpec : x.Spec = y.Spec)
    (hxwt : x.Status.withoutTimestamps = y.Status.withoutTimestamps) :
    (stepGatherNodeInfo H2 x σ).1 = x := by
  obtain ⟨_, _, _, _, ⟨a, ha, hinfo, haddr⟩, _⟩ := hset
  rw [withoutTimestamps_eq_iff] at hxwt
  obtain ⟨_, _, _, xAddr, _, _, _, xInfo⟩ := hxwt
  obtain ⟨h1, h2⟩ := hH.2.1 a x (ha.trans hxSpec.symm) (xInfo.trans hinfo) (xAddr.trans haddr)
  unfold stepGatherNodeInfo
  dsimp only
  rw [h1, h2, ← hinfo, ← haddr, ← xInfo, ← xAddr]

/-- Step 3 on a resource that agrees, but for timestamps, with one that carries the health
of an earlier run keeps the agreement. -/
theorem stepHealthCheck_again {W : Type} (P : Platform) (H H2 : Hooks) (R : Remote W)
    (y x : AdoptedServer) (σ : World W) (hset : Settled P H R y) (hH : SameBehaviour H H2)
    (hxSpec : x.Spec = y.Spec)
    (hxwt : x.Status.withoutTimestamps = y.Status.withoutTimestamps) :
    (stepHealthCheck H2 x σ).1.Spec = x.Spec ∧
    (stepHealthCheck H2 x σ).1.Status.Conditions = x.Status.Conditions ∧
    (stepHealthCheck H2 x σ).1.Status.withoutTimestamps = y.Status.withoutTimestamps := by
  obtain ⟨_, _, _, _, _, ⟨a, ha, hhealth⟩, _⟩ := hset
  rw [withoutTimestamps_eq_iff] at hxwt ⊢
  obtain ⟨xReady, xConn, xConds, xAddr, _, xMgmt, xLink, xInfo⟩ := hxwt
  have h := hH.2.2.1 a x (ha.trans hxSpec.symm)
  rw [← hhealth] at h
  exact ⟨rfl, rfl, xReady, xConn, xConds, xAddr, h, xMgmt, xLink, xInfo⟩

/-- The condition of step 4 depends on the platform through `Sprintf` only. -/
theorem stepCondition_platform (P P2 : Platform) (hS : P2.Sprintf = P.Sprintf)
    (err : Option String) :
    linkCondition P2 err = linkCondition P err ∧ syncCondition P2 err = syncCondition P err := by
  cases err with
  | none => exact ⟨rfl, rfl⟩
  | some e =>
    unfold linkCondition syncCondition
    rw [hS]
    exact ⟨rfl, rfl⟩

/-- Step 4 on a resource that agrees, but for timestamps, with one that carries the link
results of an earlier run keeps the agreement. -/
theorem stepSideroLink_again {W : Type} (P P2 : Platform) (H H2 : Hooks) (R : Remote W)
    (y x : AdoptedServer) (σ : World W) (hset : Settled P H R y) (hH : SameBehaviour H H2)
    (hS : P2.Sprintf = P.Sprintf) (hxSpec : x.Spec = y.Spec)
    (hxConds : x.Status.Conditions = y.Status.Conditions)
    (hxwt : x.Status.withoutTimestamps = y.Status.withoutTimestamps) :
    (stepSideroLink P2 H2 x σ).1.Spec.ManagementAPI = y.Spec.ManagementAPI ∧
    (stepSideroLink P2 H2 x σ).1.Status.Conditions = y.Status.Conditions ∧
    (stepSideroLink P2 H2 x σ).1.Status.withoutTimestamps = y.Status.withoutTimestamps := by
  obtain ⟨_, _, _, _, _, _, hLon, hLoff, _⟩ := hset
  have hmgmt : (stepSideroLink P2 H2 x σ).1.Spec.ManagementAPI = y.Spec.ManagementAPI := by
    rw [stepSideroLink_managementAPI, hxSpec]
  have hen : sideroLinkEnabled x = sideroLinkEnabled y := by
    unfold sideroLinkEnabled
    rw [hxSpec]
  refine ⟨hmgmt, ?_⟩
  by_cases hon : sideroLinkEnabled x = true
  · obtain ⟨a, ha, hstatus, hcarries⟩ := hLon (hen ▸ hon)
    rw [withoutTimestamps_eq_iff] at hxwt
    obtain ⟨xReady, xConn, xConds, xAddr, xHealth, xMgmt, xLink, xInfo⟩ := hxwt
    obtain ⟨h1, h2⟩ := hH.2.2.2 a x (ha.trans hxSpec.symm) (by rw [xLink, hstatus])
    have hnoop : conditions.Set P2.clock.sideroLink (linkSetup H2 x)
        (linkCondition P2 (H2.setupSideroLink x).2.2) = linkSetup H2 x := by
      apply Set_of_Carries
      rw [h2, (stepCondition_platform P P2 hS _).1]
      exact Carries_congr y _ _ hxConds hcarries
    rw [stepSideroLink_enabled P2 H2 x σ hon, hnoop, withoutTimestamps_eq_iff]
    refine ⟨hxConds, xReady, xConn, xConds, xAddr, xHealth, xMgmt, ?_, xInfo⟩
    show (H2.setupSideroLink x).2.1.map SideroLinkStatus.withoutTimestamps = _
    rw [h1, hstatus]
  · have hoff : sideroLinkEnabled x = false := by simpa using hon
    rw [stepSideroLink_disabled P2 H2 x σ hoff]
    dsimp only
    rw [Delete_of_absent x _ (by rw [hxConds]; exact hLoff (hen ▸ hoff))]
    exact ⟨hxConds, hxwt⟩

/-- The sync status that step 5 writes is, but for its timestamp, the same whatever the
sync status was before and whatever the clock reads. -/
theorem syncStatus_withoutTimestamps (P P2 : Platform) (st st2 : ManagementAPIStatus)
    (err : Option String) :
    (syncStatus P2 st2 err).withoutTimestamps = (syncStatus P st err).withoutTimestamps := by
  cases err <;> rfl

/-- Step 5 on a resource that agrees, but for timestamps, with one that carries the sync
results of an earlier run against a registry with fixed answers keeps the agreement. -/
theorem stepManagementAPI_again {W : Type} (P P2 : Platform) (H : Hooks) (R : Remote W)
    (y x : AdoptedServer) (σ : World W) (hset : Settled P H R y) (hR : FixedAnswers R)
    (hS : P2.Sprintf = P.Sprintf) (hxMgmt : x.Spec.ManagementAPI = y.Spec.ManagementAPI)
    (hxConds : x.Status.Conditions = y.Status.Conditions)
    (hxwt : x.Status.withoutTimestamps = y.Status.withoutTimestamps) :
    (stepManagementAPI P2 R x σ).1.Status.Conditions = y.Status.Conditions ∧
    (stepManagementAPI P2 R x σ).1.Status.withoutTimestamps = y.Status.withoutTimestamps := by
  obtain ⟨_, _, _, _, _, _, _, _, hMon, hMoff⟩ := hset
  have hen : managementAPIEnabled x = managementAPIEnabled y := by
    unfold managementAPIEnabled
    rw [hxMgmt]
  by_cases hon : managementAPIEnabled x = true
  · unfold managementAPIEnabled at hon
    cases hcfg : x.Spec.ManagementAPI with
    | none => rw [hcfg] at hon; cases hon
    | some cfg =>
      rw [hcfg] at hon
      dsimp only at hon
      obtain ⟨a, σ', st, ha, hcarries, hstatus⟩ := hMon cfg (hxMgmt ▸ hcfg) hon
      have he := syncWithManagementAPI_fixed R hR x a cfg
        (σ.log Effect.syncWithManagementAPI) σ' hcfg ha hon
      have hst := (syncWithManagementAPI_frame R x cfg (σ.log Effect.syncWithManagementAPI)).1
      rw [stepManagementAPI_enabled P2 R x cfg σ hcfg hon, he]
      generalize (syncWithManagementAPI R a cfg σ').1 = e1 at hcarries hstatus ⊢
      generalize (syncWithManagementAPI R x cfg (σ.log Effect.syncWithManagementAPI)).2.1 = r1
        at hst ⊢
      have hnoop : conditions.Set P2.clock.managementAPISync r1 (syncCondition P2 e1) = r1 := by
        apply Set_of_Carries
        rw [(stepCondition_platform P P2 hS _).2]
        exact Carries_congr y _ _ (by rw [hst]; exact hxConds) hcarries
      rw [hnoop, withoutTimestamps_eq_iff]
      rw [withoutTimestamps_eq_iff] at hxwt
      obtain ⟨xReady, xConn, xConds, xAddr, xHealth, xMgmt, xLink, xInfo⟩ := hxwt
      rw [← hst] at hxConds xReady xConn xConds xAddr xHealth xLink xInfo
      refine ⟨hxConds, xReady, xConn, xConds, xAddr, xHealth, ?_, xLink, xInfo⟩
      rw [hstatus]
      exact congrArg some (syncStatus_withoutTimestamps P P2 st _ e1)
  · have hoff : managementAPIEnabled x = false := by simpa using hon
    rw [stepManagementAPI_disabled P2 R x σ hoff]
    dsimp only
    rw [Delete_of_absent x _ (by rw [hxConds]; exact hMoff (hen ▸ hoff))]
    exact ⟨hxConds, hxwt⟩

/-- The steps after a successful probe, run with another clock on a resource that agrees,
but for timestamps, with one that carries their results from an earlier run, keep the
agreement: the conditions are those of the earlier run, and so is every field of the
status that is not a timestamp. -/
theorem afterConnected_again {W : Type} (P P2 : Platform) (H H2 : Hooks) (R : Remote W)
    (y x : AdoptedServer) (σ : World W) (hset : Settled P H R y) (hH : SameBehaviour H H2)
    (hR : FixedAnswers R) (hS : P2.Sprintf = P.Sprintf) (hxSpec : x.Spec = y.Spec)
    (hxConds : x.Status.Conditions = y.Status.Conditions)
    (hxwt : x.Status.withoutTimestamps = y.Status.withoutTimestamps) :
    (afterConnected P2 H2 R x σ).as.Status.Conditions = y.Status.Conditions ∧
    (afterConnected P2 H2 R x σ).as.Status.withoutTimestamps
      = y.Status.withoutTimestamps := by
  unfold afterConnected
  dsimp only
  rw [stepGatherNodeInfo_again P H H2 R y x σ hset hH hxSpec hxwt]
  obtain ⟨c1, c2, c3⟩ := stepHealthCheck_again P H H2 R y x (stepGatherNodeInfo H2 x σ).2
    hset hH hxSpec hxwt
  generalize stepHealthCheck H2 x (stepGatherNodeInfo H2 x σ).2 = h at c1 c2 c3 ⊢
  obtain ⟨l1, l2, l3⟩ := stepSideroLink_again P P2 H H2 R y h.1 h.2 hset hH hS
    (c1.trans hxSpec) (c2.trans hxConds) c3
  generalize stepSideroLink P2 H2 h.1 h.2 = l at l1 l2 l3 ⊢
  obtain ⟨m1, m2⟩ := stepManagementAPI_again P P2 H R y l.1 l.2 hset hR hS l1 l2 l3
  generalize stepManagementAPI P2 R l.1 l.2 = s at m1 m2 ⊢
  refine ⟨m1, ?_⟩
  rw [withoutTimestamps_eq_iff] at m2 ⊢
  obtain ⟨sReady, sConn, sConds, sAddr, sHealth, sMgmt, sLink, sInfo⟩ := m2
  refine ⟨?_, sConn, sConds, sAddr, sHealth, sMgmt, sLink, sInfo⟩
  show s.1.Status.Connected = y.Status.Ready
  rw [sConn, hset.2.2.1, hset.2.2.2.1]

/-! ## Theorems: `reconcileNormal` and the acceptance check, twice -/

/-- When the probe fails or returns unreachable, `reconcileNormal` leaves
`markNotConnected`. -/
theorem reconcileNormal_not_reachable {W : Type} (P : Platform) (H : Hooks) (R : Remote W)
    (as : AdoptedServer) (σ : World W) (c : Bool) (e : Option String)
    (hprobe : H.checkTalosConnectivity (conditions.MarkTrue P.clock.adopted as ConditionAdopted)
      = (c, e))
    (hfail : e ≠ none ∨ c = false) :
    (reconcileNormal P H R as σ).as = markNotConnected P as e := by
  simp only [reconcileNormal, hprobe]
  cases e with
  | some err => rfl
  | none =>
    rcases hfail with h | h
    · exact absurd rfl h
    · subst h
      rfl

/-- On a resource that is not accepted the acceptance check leaves `markNotAccepted`. -/
theorem checkAccepted_markNotAccepted {W : Type} (P : Platform) (H : Hooks) (R : Remote W)
    (as : AdoptedServer) (σ : World W) (hacc : as.Spec.Accepted = false) :
    (checkAccepted P H R as σ).as = markNotAccepted P as := by
  simp only [checkAccepted, hacc]
  rfl

/-- A resource that is marked adopted and not connected, with `Connected` and `Ready`
cleared, is left as it is when the probe fails in the same way. -/
theorem markNotConnected_of_Carries (P P2 : Platform) (y : AdoptedServer) (e : Option String)
    (hS : P2.Sprintf = P.Sprintf)
    (hA : Carries y (conditions.TrueCondition ConditionAdopted))
    (hC : Carries y (probeCondition P e))
    (hconn : y.Status.Connected = false) (hready : y.Status.Ready = false) :
    markNotConnected P2 y e = y := by
  have hcond : probeCondition P2 e = probeCondition P e := by
    cases e with
    | none => rfl
    | some err =>
      unfold probeCondition
      rw [hS]
  have h1 : conditions.MarkTrue P2.clock.adopted y ConditionAdopted = y :=
    Set_of_Carries _ _ _ hA
  have h2 : conditions.Set P2.clock.connected y (probeCondition P e) = y :=
    Set_of_Carries _ _ _ hC
  unfold markNotConnected
  rw [h1, hcond, h2]
  clear h1 h2 hA hC
  rcases y with ⟨n, d, f, sp, ⟨r, c, lc, cs, ad, he, ma, sl, ni⟩⟩
  dsimp only at hconn hready
  subst hconn hready
  rfl

/-- The resource that a failed probe leaves is left as it is by the same outcome. -/
theorem markNotConnected_again (P P2 : Platform) (as : AdoptedServer) (e : Option String)
    (hS : P2.Sprintf = P.Sprintf) :
    markNotConnected P2 (markNotConnected P as e) e = markNotConnected P as e := by
  refine markNotConnected_of_Carries P P2 _ e hS ?_ ?_ rfl rfl
  · refine Carries_congr (conditions.Set P.clock.connected
      (conditions.MarkTrue P.clock.adopted as ConditionAdopted) (probeCondition P e)) _ _ rfl ?_
    refine Carries_Set_other _ _ _ _ (Carries_Set _ _ _) ?_
    cases e with
    | none => show ConditionConnected ≠ ConditionAdopted; decide
    | some err => show ConditionConnected ≠ ConditionAdopted; decide
  · exact Carries_congr (conditions.Set P.clock.connected
      (conditions.MarkTrue P.clock.adopted as ConditionAdopted) (probeCondition P e)) _ _ rfl
      (Carries_Set _ _ _)

/-- The resource that the acceptance check leaves when the resource is not accepted is left
as it is by the acceptance check. -/
theorem markNotAccepted_again (P P2 : Platform) (as : AdoptedServer) :
    markNotAccepted P2 (markNotAccepted P as) = markNotAccepted P as := by
  have hA : Carries (markNotAccepted P as)
      (conditions.FalseCondition ConditionAdopted "NotAccepted" ConditionSeverityInfo
        "Server not accepted for management") := Carries_Set _ _ _
  have h : conditions.Set P2.clock.adopted (markNotAccepted P as)
      (conditions.FalseCondition ConditionAdopted "NotAccepted" ConditionSeverityInfo
        "Server not accepted for management") = markNotAccepted P as :=
    Set_of_Carries _ _ _ hA
  conv => lhs; unfold markNotAccepted conditions.MarkFalse
  exact h

/-- Marking as connected a resource that carries both marks and is connected changes the
contact time only. -/
theorem markConnected_of_Carries (P2 : Platform) (y : AdoptedServer)
    (hA : Carries y (conditions.TrueCondition ConditionAdopted))
    (hC : Carries y (conditions.TrueCondition ConditionConnected))
    (hconn : y.Status.Connected = true) :
    (markConnected P2 y).Status.Conditions = y.Status.Conditions ∧
    (markConnected P2 y).Status.withoutTimestamps = y.Status.withoutTimestamps := by
  have h1 : conditions.MarkTrue P2.clock.adopted y ConditionAdopted = y :=
    Set_of_Carries _ _ _ hA
  have h2 : conditions.MarkTrue P2.clock.connected y ConditionConnected = y :=
    Set_of_Carries _ _ _ hC
  unfold markConnected
  rw [h1, h2, withoutTimestamps_eq_iff]
  exact ⟨rfl, rfl, hconn.symm, rfl, rfl, rfl, rfl, rfl, rfl⟩

/-- The acceptance check and `reconcileNormal`, run a second time on the resource that a
first run left: when the first run left the spec as it found it, the integration points
behave the same and the registry gives fixed answers, the second run leaves the conditions
of the first and a status that is equal but for timestamps. -/
theorem checkAccepted_twice {W : Type} (P P2 : Platform) (H H2 : Hooks) (R : Remote W)
    (a0 : AdoptedServer) (σ σ2 : World W) (hS : P2.Sprintf = P.Sprintf)
    (hH : SameBehaviour H H2) (hR : FixedAnswers R)
    (hspec : (checkAccepted P H R a0 σ).as.Spec = a0.Spec) :
    (checkAccepted P2 H2 R (checkAccepted P H R a0 σ).as σ2).as.Status.Conditions
      = (checkAccepted P H R a0 σ).as.Status.Conditions ∧
    (checkAccepted P2 H2 R (checkAccepted P H R a0 σ).as σ2).as.Status.withoutTimestamps
      = (checkAccepted P H R a0 σ).as.Status.withoutTimestamps := by
  by_cases hacc : a0.Spec.Accepted = true
  · have hacc2 : (checkAccepted P H R a0 σ).as.Spec.Accepted = true := by rw [hspec]; exact hacc
    rw [checkAccepted_accepted P2 H2 R _ σ2 hacc2]
    rw [checkAccepted_accepted P H R a0 σ hacc] at hspec ⊢
    rcases hp : H.checkTalosConnectivity
      (conditions.MarkTrue P.clock.adopted a0 ConditionAdopted) with ⟨c, e⟩
    have hp2 : H2.checkTalosConnectivity (conditions.MarkTrue P2.clock.adopted
        (reconcileNormal P H R a0 σ).as ConditionAdopted) = (c, e) := by
      rw [← hp]
      apply hH.1
      unfold conditions.MarkTrue
      rw [(Set_frame _ _ _).2.2.1, (Set_frame _ _ _).2.2.1, hspec]
    by_cases hok : e = none ∧ c = true
    · obtain ⟨he, hc⟩ := hok
      subst he hc
      rw [reconcileNormal_reachable P2 H2 R _ σ2 hp2]
      rw [reconcileNormal_reachable P H R a0 σ hp] at hspec ⊢
      have hA : Carries (markConnected P a0) (conditions.TrueCondition ConditionAdopted) :=
        Carries_congr (conditions.MarkTrue P.clock.connected
          (conditions.MarkTrue P.clock.adopted a0 ConditionAdopted) ConditionConnected) _ _ rfl
          (Carries_Set_other _ _ _ _ (Carries_Set _ _ _) (by decide))
      have hC : Carries (markConnected P a0) (conditions.TrueCondition ConditionConnected) :=
        Carries_congr (conditions.MarkTrue P.clock.connected
          (conditions.MarkTrue P.clock.adopted a0 ConditionAdopted) ConditionConnected) _ _ rfl
          (Carries_Set _ _ _)
      have hset := afterConnected_settled P H R (markConnected P a0)
        (σ.log (Effect.checkTalosConnectivity true none)) hA hC rfl
        (hspec.trans (markConnected_frame P a0).1.symm)
      obtain ⟨k1, k2⟩ := markConnected_of_Carries P2 _ hset.1 hset.2.1 hset.2.2.1
      exact afterConnected_again P P2 H H2 R _ _ _ hset hH hR hS
        (markConnected_frame P2 _).1 k1 k2
    · have hfail : e ≠ none ∨ c = false := by
        by_cases he : e = none
        · right
          cases c with
          | false => rfl
          | true => exact absurd ⟨he, rfl⟩ hok
        · exact Or.inl he
      have hy := reconcileNormal_not_reachable P H R a0 σ c e hp hfail
      rw [hy] at hp2 ⊢
      rw [reconcileNormal_not_reachable P2 H2 R _ σ2 c e hp2 hfail,
        markNotConnected_again P P2 a0 e hS]
      exact ⟨rfl, rfl⟩
  · have hacc' : a0.Spec.Accepted = false := by simpa using hacc
    have hy := checkAccepted_markNotAccepted P H R a0 σ hacc'
    have hacc2 : (markNotAccepted P a0).Spec.Accepted = false := by
      rw [← hy, hspec]
      exact hacc'
    rw [hy, checkAccepted_markNotAccepted P2 H2 R _ σ2 hacc2, markNotAccepted_again]
    exact ⟨rfl, rfl⟩

/-! ## Theorems: the finalizers and the deletion timestamp are not written -/

/-- The node step returns the resource it was given. -/
theorem syncNode_resource {W : Type} (R : Remote W) (s : SyncService) (as : AdoptedServer)
    (clusterID : String) (σ : World W) : (s.syncNode R as clusterID σ).2.1 = as := by
  unfold SyncService.syncNode
  rcases s.registerOrUpdateNode R as clusterID σ with ⟨e, σ1⟩
  cases e <;> rfl

/-- The method `SyncAdoptedServer` keeps the finalizers and the deletion timestamp. -/
theorem SyncAdoptedServer_meta {W : Type} (R : Remote W) (s : SyncService)
    (as : AdoptedServer) (σ : World W) :
    (s.SyncAdoptedServer R as σ).2.1.Finalizers = as.Finalizers ∧
    (s.SyncAdoptedServer R as σ).2.1.DeletionTimestamp = as.DeletionTimestamp := by
  unfold SyncService.SyncAdoptedServer
  cases as.Spec.ManagementAPI with
  | none => exact ⟨rfl, rfl⟩
  | some cfg =>
    dsimp only
    by_cases hen : cfg.Enabled = true
    · simp only [hen, Bool.not_true, Bool.false_eq_true, if_false]
      by_cases hid : cfg.ClusterID = ""
      · rw [if_pos hid]
        rcases s.registerCluster R as cfg σ with ⟨r, σ1⟩
        cases r with
        | error err => exact ⟨rfl, rfl⟩
        | ok resp =>
          dsimp only
          rw [syncNode_resource]
          exact ⟨rfl, rfl⟩
      · rw [if_neg hid]
        rcases s.updateClusterStatus R as cfg.ClusterID σ with ⟨e, σ1⟩
        cases e with
        | some err => exact ⟨rfl, rfl⟩
        | none =>
          dsimp only
          rw [syncNode_resource]
          exact ⟨rfl, rfl⟩
    · simp [hen]

/-- The method `syncWithManagementAPI` keeps the finalizers and the deletion timestamp. -/
theorem syncWithManagementAPI_meta {W : Type} (R : Remote W) (as : AdoptedServer)
    (cfg : ManagementAPIConfig) (σ : World W) :
    (syncWithManagementAPI R as cfg σ).2.1.Finalizers = as.Finalizers ∧
    (syncWithManagementAPI R as cfg σ).2.1.DeletionTimestamp = as.DeletionTimestamp := by
  unfold syncWithManagementAPI
  cases NewClient R cfg.Endpoint [] with
  | error err => exact ⟨rfl, rfl⟩
  | ok client =>
    dsimp only
    rcases client.HealthCheck R σ with ⟨r, σ1⟩
    cases r with
    | error err => exact ⟨rfl, rfl⟩
    | ok resp =>
      dsimp only
      have h := SyncAdoptedServer_meta R (NewSyncService client) as σ1
      rcases hsync : (NewSyncService client).SyncAdoptedServer R as σ1 with ⟨e, as1, σ2⟩
      rw [hsync] at h
      cases e <;> exact h

/-- The steps after a successful probe keep the finalizers and the deletion timestamp. -/
theorem afterConnected_meta {W : Type} (P : Platform) (H : Hooks) (R : Remote W)
    (m : AdoptedServer) (σ : World W) :
    (afterConnected P H R m σ).as.Finalizers = m.Finalizers ∧
    (afterConnected P H R m σ).as.DeletionTimestamp = m.DeletionTimestamp := by
  have hL : ∀ (a : AdoptedServer) (τ : World W),
      (stepSideroLink P H a τ).1.Finalizers = a.Finalizers ∧
      (stepSideroLink P H a τ).1.DeletionTimestamp = a.DeletionTimestamp := by
    intro a τ
    by_cases hon : sideroLinkEnabled a = true
    · rw [stepSideroLink_enabled P H a τ hon]
      exact ⟨rfl, rfl⟩
    · rw [stepSideroLink_disabled P H a τ (by simpa using hon)]
      exact ⟨rfl, rfl⟩
  have hM : ∀ (a : AdoptedServer) (τ : World W),
      (stepManagementAPI P R a τ).1.Finalizers = a.Finalizers ∧
      (stepManagementAPI P R a τ).1.DeletionTimestamp = a.DeletionTimestamp := by
    intro a τ
    by_cases hon : managementAPIEnabled a = true
    · unfold managementAPIEnabled at hon
      cases hcfg : a.Spec.ManagementAPI with
      | none => rw [hcfg] at hon; cases hon
      | some cfg =>
        rw [hcfg] at hon
        dsimp only at hon
        rw [stepManagementAPI_enabled P R a cfg τ hcfg hon]
        exact syncWithManagementAPI_meta R a cfg (τ.log Effect.syncWithManagementAPI)
    · rw [stepManagementAPI_disabled P R a τ (by simpa using hon)]
      exact ⟨rfl, rfl⟩
  unfold afterConnected
  dsimp only
  obtain ⟨m1, m2⟩ := hM
    (stepSideroLink P H (stepHealthCheck H (stepGatherNodeInfo H m σ).1
      (stepGatherNodeInfo H m σ).2).1 (stepHealthCheck H (stepGatherNodeInfo H m σ).1
      (stepGatherNodeInfo H m σ).2).2).1
    (stepSideroLink P H (stepHealthCheck H (stepGatherNodeInfo H m σ).1
      (stepGatherNodeInfo H m σ).2).1 (stepHealthCheck H (stepGatherNodeInfo H m σ).1
      (stepGatherNodeInfo H m σ).2).2).2
  obtain ⟨l1, l2⟩ := hL (stepHealthCheck H (stepGatherNodeInfo H m σ).1
      (stepGatherNodeInfo H m σ).2).1 (stepHealthCheck H (stepGatherNodeInfo H m σ).1
      (stepGatherNodeInfo H m σ).2).2
  exact ⟨m1.trans l1, m2.trans l2⟩

/-- The acceptance check and `reconcileNormal` keep the finalizers and the deletion
timestamp. -/
theorem checkAccepted_meta {W : Type} (P : Platform) (H : Hooks) (R : Remote W)
    (a : AdoptedServer) (σ : World W) :
    (checkAccepted P H R a σ).as.Finalizers = a.Finalizers ∧
    (checkAccepted P H R a σ).as.DeletionTimestamp = a.DeletionTimestamp := by
  by_cases hacc : a.Spec.Accepted = true
  · rw [checkAccepted_accepted P H R a σ hacc]
    rcases hp : H.checkTalosConnectivity
      (conditions.MarkTrue P.clock.adopted a ConditionAdopted) with ⟨c, e⟩
    by_cases hok : e = none ∧ c = true
    · obtain ⟨he, hc⟩ := hok
      subst he hc
      rw [reconcileNormal_reachable P H R a σ hp]
      exact afterConnected_meta P H R (markConnected P a) _
    · have hfail : e ≠ none ∨ c = false := by
        by_cases he : e = none
        · right
          cases c with
          | false => rfl
          | true => exact absurd ⟨he, rfl⟩ hok
        · exact Or.inl he
      rw [reconcileNormal_not_reachable P H R a σ c e hp hfail]
      exact ⟨rfl, rfl⟩
  · rw [checkAccepted_markNotAccepted P H R a σ (by simpa using hacc)]
    exact ⟨rfl, rfl⟩

/-! ## Theorems: `Reconcile`, twice -/

/-- After `AddFinalizer` the resource carries the finalizer. -/
theorem ContainsFinalizer_AddFinalizer (o : AdoptedServer) (finalizer : String) :
    ContainsFinalizer (AddFinalizer o finalizer) finalizer = true := by
  unfold AddFinalizer ContainsFinalizer
  by_cases h : o.Finalizers.contains finalizer = true
  · rw [if_pos h]
    exact h
  · rw [if_neg h]
    simp

/-- The delete path leaves the status and the deletion timestamp as they were, and no
finalizer. -/
theorem reconcileDelete_as {W : Type} (P : Platform) (H : Hooks) (R : Remote W)
    (as : AdoptedServer) (σ : World W) :
    (reconcileDelete P H R as σ).as.Status = as.Status ∧
    (reconcileDelete P H R as σ).as.DeletionTimestamp = as.DeletionTimestamp ∧
    ContainsFinalizer (reconcileDelete P H R as σ).as adoptedServerFinalizer = false := by
  by_cases hfin : ContainsFinalizer as adoptedServerFinalizer = true
  · rw [reconcileDelete_with_finalizer P H R as σ hfin]
    cases P.Update (RemoveFinalizer as adoptedServerFinalizer) <;>
      exact ⟨rfl, rfl, ContainsFinalizer_RemoveFinalizer as _⟩
  · have hfin' : ContainsFinalizer as adoptedServerFinalizer = false := by simpa using hfin
    have hret : reconcileDelete P H R as σ
        = { result := {}, err := none, as := as, world := σ } := by
      unfold reconcileDelete
      rw [hfin']
      rfl
    rw [hret]
    exact ⟨rfl, rfl, hfin'⟩

/-- What the first of two invocations leaves when it loads the resource and returns no
error: on a live resource the result of the acceptance check on the resource with the
finalizer; on a resource that is being deleted a resource without the finalizer and with
the status it had. -/
theorem Reconcile_first {W : Type} (P : Platform) (H : Hooks) (R : Remote W) (req : String)
    (as : AdoptedServer) (w : W) (hget : P.Get req = GetResult.found as)
    (herr : (Reconcile P H R req (World.start w)).err = none) :
    (Time.IsZero as.DeletionTimestamp = true ∧
      (Reconcile P H R req (World.start w)).as
        = some (checkAccepted P H R (AddFinalizer as adoptedServerFinalizer)
            (afterFinalizer as (World.start w))).as) ∨
    (Time.IsZero as.DeletionTimestamp = false ∧
      (Reconcile P H R req (World.start w)).as
        = some (reconcileDelete P H R as (World.start w)).as) := by
  cases hhelper : P.NewHelper as with
  | some err => simp [Reconcile, hget, hhelper] at herr
  | none =>
    rw [Reconcile_found P H R req as _ hget hhelper] at herr ⊢
    dsimp only at herr ⊢
    cases href : P.GetReference as with
    | some err => simp [reconcileLoaded, href] at herr
    | none =>
      by_cases hdel : Time.IsZero as.DeletionTimestamp = true
      · left
        refine ⟨hdel, ?_⟩
        by_cases hc : ContainsFinalizer as adoptedServerFinalizer = true
        · rw [reconcileLoaded_with_finalizer P H R as _ href hdel hc]
          unfold afterFinalizer
          rw [if_pos hc, AddFinalizer_of_contains as _ hc]
        · cases hpatch : P.Patch (AddFinalizer as adoptedServerFinalizer) with
          | some err => simp [reconcileLoaded, href, hdel, hc, hpatch] at herr
          | none =>
            rw [reconcileLoaded_add_finalizer P H R as _ href hdel hc hpatch]
            unfold afterFinalizer
            rw [if_neg hc]
      · right
        have hdel' : Time.IsZero as.DeletionTimestamp = false := by simpa using hdel
        refine ⟨hdel', ?_⟩
        simp only [reconcileLoaded, href, hdel', Bool.not_false, if_true]

/-- What an invocation leaves on a live resource that carries the finalizer: the resource
as it was loaded (when the patch helper or the object reference cannot be created) or the
result of the acceptance check. -/
theorem Reconcile_live_as {W : Type} (P : Platform) (H : Hooks) (R : Remote W) (req : String)
    (y : AdoptedServer) (σ : World W) (hget : P.Get req = GetResult.found y)
    (hdel : Time.IsZero y.DeletionTimestamp = true)
    (hc : ContainsFinalizer y adoptedServerFinalizer = true) :
    (Reconcile P H R req σ).as = some y ∨
    (Reconcile P H R req σ).as = some (checkAccepted P H R y σ).as := by
  cases hhelper : P.NewHelper y with
  | some err =>
    left
    simp [Reconcile, hget, hhelper]
  | none =>
    rw [Reconcile_found P H R req y _ hget hhelper]
    dsimp only
    cases href : P.GetReference y with
    | some err =>
      left
      simp [reconcileLoaded, href]
    | none =>
      right
      rw [reconcileLoaded_with_finalizer P H R y _ href hdel hc]

/-- What an invocation leaves on a resource that is being deleted and has no finalizer: the
resource as it was loaded. -/
theorem Reconcile_deleted_as {W : Type} (P : Platform) (H : Hooks) (R : Remote W)
    (req : String) (y : AdoptedServer) (σ : World W) (hget : P.Get req = GetResult.found y)
    (hdel : Time.IsZero y.DeletionTimestamp = false)
    (hc : ContainsFinalizer y adoptedServerFinalizer = false) :
    (Reconcile P H R req σ).as = some y := by
  cases hhelper : P.NewHelper y with
  | some err => simp [Reconcile, hget, hhelper]
  | none =>
    rw [Reconcile_found P H R req y _ hget hhelper]
    dsimp only
    cases href : P.GetReference y with
    | some err => simp [reconcileLoaded, href]
    | none => simp [reconcileLoaded, href, hdel, reconcileDelete, hc]

/-- The integration points of the source behave the same in every invocation, whatever the
clock reads. -/
theorem sourceHooks_SameBehaviour (clock clock2 : Clock) :
    SameBehaviour (sourceHooks clock) (sourceHooks clock2) := by
  refine ⟨fun a b _ => rfl, fun a b _ hinfo haddr => ?_, fun a b _ => rfl,
    fun a b _ hlink => ⟨hlink, rfl⟩⟩
  simp only [sourceHooks, gatherNodeInfo] at hinfo haddr ⊢
  refine ⟨?_, haddr⟩
  rw [hinfo]
  cases a.Status.NodeInfo <;> rfl

/-- The sample registry gives fixed answers. -/
theorem sampleRemote_FixedAnswers (clusterID : String) : FixedAnswers (sampleRemote clusterID) :=
  fun _ _ _ _ _ _ _ _ => rfl

/-- The registry `registerOnlyRemote` gives fixed answers. -/
theorem registerOnlyRemote_FixedAnswers : FixedAnswers registerOnlyRemote := by
  intro w w' c c' r r' hm _
  simp only [registerOnlyRemote, hm]
  split <;> rfl

/-- C20 does not hold as stated.  The resource is accepted and live, with remote sync
enabled and no cluster identifier; the registry `registerOnlyRemote` gives fixed answers
(`200` to `GET` and `POST`, `500` to `PATCH`), the probe, the store and the other
integration points are those of the source and the samples and behave the same in both
invocations.  The first invocation registers the cluster and the node and records a
successful sync; the second, which finds the identifier `c-1`, sends the status update
instead, gets `500`, and records a failed sync: the `ManagementAPISync` condition, the
`Synced` flag and the error text differ. -/
theorem Reconcile_twice_differs_after_registration :
    FixedAnswers registerOnlyRemote ∧
    SameBehaviour (sourceHooks sampleClock) (sourceHooks sampleClock) ∧
    ∃ as1 as2,
      (Reconcile (samplePlatform (sampleServer [] none true (some (sampleConfig ""))) none none)
        (sourceHooks sampleClock) registerOnlyRemote "node-1" (World.start 0)).as = some as1 ∧
      (ReconcileAgain
        (samplePlatform (sampleServer [] none true (some (sampleConfig ""))) none none)
        (sourceHooks sampleClock) registerOnlyRemote "node-1" sampleClock
        (Reconcile
          (samplePlatform (sampleServer [] none true (some (sampleConfig ""))) none none)
          (sourceHooks sampleClock) registerOnlyRemote "node-1" (World.start 0))).as
        = some as2 ∧
      (conditions.Get as1 ConditionManagementAPISync).map (fun c => c.Status)
        = some ConditionTrue ∧
      (conditions.Get as2 ConditionManagementAPISync).map (fun c => c.Status)
        = some ConditionFalse ∧
      as1.Status.ManagementAPIStatus.map (fun st => (st.Synced, st.Error)) = some (true, "") ∧
      as2.Status.ManagementAPIStatus.map (fun st => (st.Synced, st.Error))
        = some (false, "failed to sync adopted server with Management API: "
            ++ "failed to update cluster status: "
            ++ "API request failed with status 500: internal error") ∧
      as2.Status.withoutTimestamps ≠ as1.Status.withoutTimestamps :=
  ⟨registerOnlyRemote_FixedAnswers, sourceHooks_SameBehaviour sampleClock sampleClock,
    _, _, rfl, rfl, by decide, by decide, by decide, by decide, by decide⟩

/-! ## Theorems: `SyncAdoptedServer` is not atomic -/

/-- C25: `SyncAdoptedServer` is not atomic on error.  For every resource with integration
enabled and empty `ClusterID`: if the cluster registration succeeds with the response `resp`
and the node registration that follows (for the resource with the identifier written, under
that identifier) fails with `e`, then `SyncAdoptedServer` returns the error
`failed to register/update node: e` and the resource it leaves has
`Spec.ManagementAPI.ClusterID = resp.ClusterID`; if the cluster registration itself fails
with `err`, it returns the error `failed to register cluster: err`, the resource is
untouched (`ClusterID` stays empty) and the cluster request is the only request issued (no
node request). -/
theorem SyncAdoptedServer_not_atomic {W : Type} (R : Remote W) (s : SyncService)
    (as : AdoptedServer) (cfg : ManagementAPIConfig) (σ : World W)
    (hcfg : as.Spec.ManagementAPI = some cfg) (hen : cfg.Enabled = true)
    (hid : cfg.ClusterID = "") :
    (∀ resp σ1 e σ2, s.registerCluster R as cfg σ = (.ok resp, σ1) →
      s.registerOrUpdateNode R
        { as with Spec := { as.Spec with
            ManagementAPI := some { cfg with ClusterID := resp.ClusterID } } }
        resp.ClusterID σ1 = (some e, σ2) →
      (s.SyncAdoptedServer R as σ).1 = some ("failed to register/update node: " ++ e) ∧
      (s.SyncAdoptedServer R as σ).2.1.Spec.ManagementAPI.map (fun c => c.ClusterID)
        = some resp.ClusterID ∧
      (s.SyncAdoptedServer R as σ).2.2 = σ2) ∧
    (∀ err σ1, s.registerCluster R as cfg σ = (.error err, σ1) →
      (s.SyncAdoptedServer R as σ).1 = some ("failed to register cluster: " ++ err) ∧
      (s.SyncAdoptedServer R as σ).2.1 = as ∧
      (s.SyncAdoptedServer R as σ).2.1.Spec.ManagementAPI.map (fun c => c.ClusterID)
        = some "" ∧
      (s.SyncAdoptedServer R as σ).2.2.trace
        = σ.trace ++ [Effect.request ⟨Method.POST, clustersPath,
            some (RequestBody.clusterRegister (clusterRegisterRequest as cfg))⟩] ∧
      ∀ e ∈ ((s.SyncAdoptedServer R as σ).2.2.trace.drop σ.trace.length),
        e.isRegisterNode = false) := by
  refine ⟨fun resp σ1 e σ2 hreg hnode => ?_, fun err σ1 hreg => ?_⟩
  · simp only [SyncService.SyncAdoptedServer, hcfg, hen, hid, hreg, SyncService.syncNode]
    simp only [hen] at hnode
    simp [hnode]
  · obtain ⟨h1, h2⟩ := (SyncAdoptedServer_register_branch R s as cfg σ hcfg hen hid).1 err σ1 hreg
    refine ⟨?_, h1, ?_, h2, ?_⟩
    · simp only [SyncService.SyncAdoptedServer, hcfg, hen, hid, hreg]
      rfl
    · rw [h1, hcfg]
      simp [hid]
    · rw [h2]
      intro e he
      simp only [List.drop_left, List.mem_singleton] at he
      rw [he]
      rfl

/-- C25 on the sample resource with no cluster identifier: the registry that rejects nodes
leaves the identifier `c-1` behind an error, the registry that cannot be reached leaves the
identifier empty. -/
theorem SyncAdoptedServer_not_atomic_witness :
    ((sampleService.SyncAdoptedServer nodeRejectingRemote
        (sampleServer [] none true (some (sampleConfig ""))) (World.start 0)).1
        = some ("failed to register/update node: "
            ++ "API request failed with status 500: node rejected") ∧
      (sampleService.SyncAdoptedServer nodeRejectingRemote
        (sampleServer [] none true (some (sampleConfig ""))) (World.start 0)).2.1.Spec.ManagementAPI.map
          (fun c => c.ClusterID) = some "c-1") ∧
    ((sampleService.SyncAdoptedServer unreachableRemote
        (sampleServer [] none true (some (sampleConfig ""))) (World.start 0)).1
        = some ("failed to register cluster: "
            ++ "failed to execute HTTP request: connection refused") ∧
      (sampleService.SyncAdoptedServer unreachableRemote
        (sampleServer [] none true (some (sampleConfig ""))) (World.start 0)).2.1.Spec.ManagementAPI.map
          (fun c => c.ClusterID) = some "") :=
  ⟨⟨((SyncAdoptedServer_not_atomic nodeRejectingRemote sampleService
        (sampleServer [] none true (some (sampleConfig ""))) (sampleConfig "") (World.start 0)
        rfl rfl rfl).1 _ _ _ _ rfl rfl).1,
    ((SyncAdoptedServer_not_atomic nodeRejectingRemote sampleService
        (sampleServer [] none true (some (sampleConfig ""))) (sampleConfig "") (World.start 0)
        rfl rfl rfl).1 _ _ _ _ rfl rfl).2.1⟩,
   ⟨((SyncAdoptedServer_not_atomic unreachableRemote sampleService
        (sampleServer [] none true (some (sampleConfig ""))) (sampleConfig "") (World.start 0)
        rfl rfl rfl).2 _ _ rfl).1,
    ((SyncAdoptedServer_not_atomic unreachableRemote sampleService
        (sampleServer [] none true (some (sampleConfig ""))) (sampleConfig "") (World.start 0)
        rfl rfl rfl).2 _ _ rfl).2.2.1⟩⟩

/-! ## Theorems: readiness of an environment -/

/-- The keys after `m[k] = struct{}{}` are those of `m` and `k`. -/
theorem KeySet.mem_assign (m : KeySet) (k u : String) :
    u ∈ m.assign k ↔ u ∈ m ∨ u = k := by
  unfold KeySet.assign
  by_cases h : m.contains k = true
  · rw [if_pos h]
    constructor
    · exact Or.inl
    · rintro (hu | hu)
      · exact hu
      · rw [hu]
        simpa using h
  · rw [if_neg h]
    simp

/-- The keys after `delete(m, k)` are those of `m` other than `k`. -/
theorem KeySet.mem_delete (m : KeySet) (k u : String) :
    u ∈ m.delete k ↔ u ∈ m ∧ u ≠ k := by
  simp [KeySet.delete, List.mem_filter]

/-- The map `assetURLs` holds the non-empty URLs that the spec names. -/
theorem Environment.mem_assetURLs (env : Environment) (u : String) :
    u ∈ env.assetURLs ↔ u ∈ env.namedURLs ∧ u ≠ "" := by
  unfold Environment.assetURLs Environment.namedURLs
  cases env.Spec.BootAsset with
  | none =>
    by_cases hk : env.Spec.Kernel.URL = "" <;> by_cases hi : env.Spec.Initrd.URL = "" <;>
      simp [hk, hi, KeySet.mem_assign] <;> aesop
  | some b =>
    by_cases hb : b.URL = "" <;> by_cases hk : env.Spec.Kernel.URL = "" <;>
      by_cases hi : env.Spec.Initrd.URL = "" <;>
      simp [hb, hk, hi, KeySet.mem_assign] <;> aesop

/-- The loop of `IsReady` removes exactly the keys that are the URL of a condition with
status `True` and type `Ready`. -/
theorem mem_foldl_delete (conds : List AssetCondition) (m : KeySet) (u : String) :
    u ∈ conds.foldl
        (fun assetURLs cond =>
          if cond.Status = "True" ∧ cond.Type_ = "Ready" then assetURLs.delete cond.URL
          else assetURLs) m ↔
      u ∈ m ∧ ¬ ∃ cond ∈ conds, cond.Status = "True" ∧ cond.Type_ = "Ready" ∧ cond.URL = u := by
  induction conds generalizing m with
  | nil => simp
  | cons c rest ih =>
    rw [List.foldl_cons, ih]
    by_cases hc : c.Status = "True" ∧ c.Type_ = "Ready"
    · rw [if_pos hc, KeySet.mem_delete]
      constructor
      · rintro ⟨⟨hm, hne⟩, hrest⟩
        refine ⟨hm, ?_⟩
        rintro ⟨cond, hmem, h1, h2, h3⟩
        rcases List.mem_cons.mp hmem with e | hin
        · exact hne (by rw [← h3, e])
        · exact hrest ⟨cond, hin, h1, h2, h3⟩
      · rintro ⟨hm, hnone⟩
        refine ⟨⟨hm, fun e => hnone ⟨c, List.mem_cons_self _ _, hc.1, hc.2, e.symm⟩⟩, ?_⟩
        rintro ⟨cond, hin, h1, h2, h3⟩
        exact hnone ⟨cond, List.mem_cons_of_mem _ hin, h1, h2, h3⟩
    · rw [if_neg hc]
      constructor
      · rintro ⟨hm, hrest⟩
        refine ⟨hm, ?_⟩
        rintro ⟨cond, hmem, h1, h2, h3⟩
        rcases List.mem_cons.mp hmem with e | hin
        · exact hc (e ▸ ⟨h1, h2⟩)
        · exact hrest ⟨cond, hin, h1, h2, h3⟩
      · rintro ⟨hm, hnone⟩
        refine ⟨hm, ?_⟩
        rintro ⟨cond, hin, h1, h2, h3⟩
        exact hnone ⟨cond, List.mem_cons_of_mem _ hin, h1, h2, h3⟩

/-- The method `IsReady` in terms of the URLs that the spec names. -/
theorem Environment.IsReady_iff (env : Environment) :
    env.IsReady = true ↔
      ∀ u ∈ env.namedURLs, u ≠ "" →
        ∃ cond ∈ env.Status.Conditions,
          cond.Status = "True" ∧ cond.Type_ = "Ready" ∧ cond.URL = u := by
  unfold Environment.IsReady
  simp only [beq_iff_eq, List.length_eq_zero, List.eq_nil_iff_forall_not_mem,
    mem_foldl_delete, Environment.mem_assetURLs]
  constructor
  · intro h u hu hne
    by_contra hcon
    exact h u ⟨⟨hu, hne⟩, hcon⟩
  · rintro h u ⟨⟨hu, hne⟩, hcon⟩
    exact hcon (h u hu hne)

/-- C24: `Environment.IsReady` returns true if and only if every non-empty asset URL among
`Spec.BootAsset.URL` (when `BootAsset` is set), `Spec.Kernel.URL` and `Spec.Initrd.URL` is
the URL of some status condition with `Status` `"True"` and `Type` `"Ready"`; in particular
it returns true when all the URLs are empty, and it stays true for every condition list
that contains the conditions it was true for (further conditions, for other URLs or with
another status or type, never make it false). -/
theorem Environment.IsReady_spec (env : Environment) :
    (env.IsReady = true ↔
      ∀ u ∈ env.namedURLs, u ≠ "" →
        ∃ cond ∈ env.Status.Conditions,
          cond.Status = "True" ∧ cond.Type_ = "Ready" ∧ cond.URL = u) ∧
    ((∀ u ∈ env.namedURLs, u = "") → env.IsReady = true) ∧
    (∀ conds : List AssetCondition, (∀ c ∈ env.Status.Conditions, c ∈ conds) →
      env.IsReady = true →
      Environment.IsReady { env with Status := { Conditions := conds } } = true) := by
  refine ⟨env.IsReady_iff, fun hall => ?_, fun conds hsub hready => ?_⟩
  · rw [env.IsReady_iff]
    intro u hu hne
    exact absurd (hall u hu) hne
  · rw [Environment.IsReady_iff] at hready ⊢
    intro u hu hne
    obtain ⟨cond, hmem, h⟩ := hready u hu hne
    exact ⟨cond, hsub cond hmem, h⟩

/-- C24 on sample environments: no URL at all; a boot asset and a kernel that are both
ready, with a condition for another URL that is not; a kernel whose only `Ready` condition
is `False`. -/
theorem Environment.IsReady_spec_witness :
    (sampleEnvironment none "" "" []).IsReady = true ∧
    (sampleEnvironment (some "http://a/boot") "http://a/kernel" ""
      [("http://a/kernel", "True", "Ready"), ("http://b/other", "False", "Ready"),
       ("http://a/boot", "True", "Ready")]).IsReady = true ∧
    (sampleEnvironment none "http://a/kernel" ""
      [("http://a/kernel", "False", "Ready")]).IsReady = false :=
  ⟨(Environment.IsReady_spec (sampleEnvironment none "" "" [])).2.1 (by decide),
   (Environment.IsReady_spec (sampleEnvironment (some "http://a/boot") "http://a/kernel" ""
      [("http://a/kernel", "True", "Ready"), ("http://a/boot", "True", "Ready")])).2.2
      (sampleEnvironment (some "http://a/boot") "http://a/kernel" ""
        [("http://a/kernel", "True", "Ready"), ("http://b/other", "False", "Ready"),
         ("http://a/boot", "True", "Ready")]).Status.Conditions
      (by decide) (by decide),
   by decide⟩

/-! ## Theorems: the port loop and the scan of `%d` -/

/-- What `SkipSpace` leaves has no leading white space: skipping again changes nothing. -/
theorem SkipSpace_idem (t s : List Char) (h : SkipSpace t = some s) : SkipSpace s = some s := by
  induction t with
  | nil =>
    simp only [SkipSpace, Option.some.injEq] at h
    subst h
    rfl
  | cons r rest ih =>
    by_cases h1 : r = '\r' ∧ rest.head? = some '\n'
    · have hstep : SkipSpace (r :: rest) = SkipSpace rest := by
        rw [SkipSpace, if_pos h1]
      exact ih (hstep ▸ h)
    · by_cases h2 : r = '\n'
      · rw [SkipSpace, if_neg h1, if_pos h2] at h
        cases h
      · by_cases h3 : isSpace r = true
        · have hstep : SkipSpace (r :: rest) = SkipSpace rest := by
            rw [SkipSpace, if_neg h1, if_neg h2, if_pos h3]
          exact ih (hstep ▸ h)
        · have hstep : SkipSpace (r :: rest) = some (r :: rest) := by
            rw [SkipSpace, if_neg h1, if_neg h2, if_neg h3]
          rw [hstep] at h
          cases h
          exact hstep

/-- On a text without leading white space `scanInt` reads the leading integer and accepts
it when it is in the range of `int64`. -/
theorem scanInt_eq (s : List Char) (h : SkipSpace s = some s) :
    scanInt s
      = match leadingInteger s with
        | some v => if -(2 : Int) ^ 63 ≤ v ∧ v < (2 : Int) ^ 63 then some v else none
        | none => none := by
  unfold scanInt
  rw [h]
  cases s with
  | nil => rfl
  | cons c rest =>
    dsimp only
    by_cases htok : (if c = '+' ∨ c = '-' then rest else c :: rest).takeWhile isDecimalDigit = []
    · simp only [leadingInteger, htok, if_true]
    · simp only [leadingInteger, htok, if_false]
      by_cases hneg : c = '-'
      · simp [hneg]
      · simp [hneg]

/-- The value that `Sscanf` leaves in `port`, for a text within the read limit: the scanned
integer when there is one in the range of `int64`, and `0` otherwise. -/
theorem Sscanf_d_eq (t : List Char) (hlen : t.length ≤ hugeWid) :
    Sscanf_d t
      = match scannedInteger t with
        | some v => if -(2 : Int) ^ 63 ≤ v ∧ v < (2 : Int) ^ 63 then v else 0
        | none => 0 := by
  unfold Sscanf_d scannedInteger
  rw [List.take_of_length_le hlen]
  cases hskip : SkipSpace t with
  | none => rfl
  | some s =>
    dsimp only
    rw [scanInt_eq s (SkipSpace_idem t s hskip)]
    cases leadingInteger s with
    | none => rfl
    | some v =>
      dsimp only
      by_cases hr : -(2 : Int) ^ 63 ≤ v ∧ v < (2 : Int) ^ 63
      · rw [if_pos hr, if_pos hr]
      · rw [if_neg hr, if_neg hr]

/-- The test of the port loop on the value left by `Sscanf` is the test on the scanned
integer. -/
theorem port_test_eq (t : List Char) (hlen : t.length ≤ hugeWid) (other : Int) :
    (if Sscanf_d t > 0 ∧ Sscanf_d t ≤ 65535 then Sscanf_d t else other)
      = match scannedInteger t with
        | some v => if 0 < v ∧ v ≤ 65535 then v else other
        | none => other := by
  rw [Sscanf_d_eq t hlen]
  cases scannedInteger t with
  | none => simp
  | some v =>
    dsimp only
    by_cases hr : -(2 : Int) ^ 63 ≤ v ∧ v < (2 : Int) ^ 63
    · rw [if_pos hr]
    · rw [if_neg hr]
      have hv : ¬ (0 < v ∧ v ≤ 65535) := by
        intro hv
        apply hr
        constructor <;> omega
      rw [if_neg hv]
      simp

/-- The port loop always returns a port in `[1, 65535]`. -/
theorem extractPortLoop_range (endpoint : List Char) (i : Nat) (rest : List Char) :
    1 ≤ extractPortLoop endpoint i rest ∧ extractPortLoop endpoint i rest ≤ 65535 := by
  induction rest generalizing i with
  | nil => simp [extractPortLoop]
  | cons c rest ih =>
    unfold extractPortLoop
    by_cases hc : c = ':'
    · rw [if_pos hc]
      dsimp only
      by_cases hp : Sscanf_d (endpoint.drop (i + 1)) > 0 ∧ Sscanf_d (endpoint.drop (i + 1)) ≤ 65535
      · rw [if_pos hp]
        exact ⟨by omega, hp.2⟩
      · rw [if_neg hp]
        exact ih (i + 1)
    · rw [if_neg hc]
      exact ih (i + 1)

/-- Within the read limit of the scan, the port loop follows the rule `earliestPort` with
the integer that `%d` reads. -/
theorem extractPortLoop_eq_earliestPort (pre rest : List Char)
    (hlen : (pre ++ rest).length ≤ hugeWid) :
    extractPortLoop (pre ++ rest) pre.length rest = earliestPort scannedInteger rest := by
  induction rest generalizing pre with
  | nil => rfl
  | cons c rest ih =>
    have hstep := ih (pre ++ [c]) (by simpa using hlen)
    simp only [List.append_assoc, List.singleton_append, List.length_append,
      List.length_singleton] at hstep
    have hrest : rest.length ≤ hugeWid := by
      simp only [List.length_append, List.length_cons] at hlen
      omega
    unfold extractPortLoop earliestPort
    by_cases hc : c = ':'
    · rw [if_pos hc, if_pos hc]
      have hdrop : (pre ++ c :: rest).drop (pre.length + 1) = rest := by simp
      dsimp only
      rw [hdrop, hstep]
      exact port_test_eq rest hrest _
    · rw [if_neg hc, if_neg hc]
      exact hstep

/-- C26 does not hold as stated: white space after the `':'` is skipped by the scan.  The
text after the `':'` of `"h: 80"` is `" 80"`, which does not start with an integer, so the
rule of the claim finds no `':'` that qualifies and gives `50000`; the code returns `80`. -/
theorem extractPortFromEndpoint_skips_space :
    leadingInteger " 80".data = none ∧
    earliestPort leadingInteger "h: 80".data = 50000 ∧
    extractPortFromEndpoint "h: 80" = 80 := by
  decide

/-- C26 (amended): for every endpoint string, `extractPortFromEndpoint` returns a value in
`[1, 65535]`; and for every endpoint of at most `2^30` characters (the read limit of the
scan): scanning the colons from left to right, it returns the integer that `%d` reads from
the text after the earliest `':'` for which that integer exists and lies in `(0, 65535]`,
and `50000` when no `':'` qualifies.  The integer that `%d` reads is the leading
optionally-signed decimal integer of the text after its leading white space (trailing text
after the digits is ignored); a rejected earlier `':'` does not stop the scan. -/
theorem extractPortFromEndpoint_earliest (endpoint : String) :
    (1 ≤ extractPortFromEndpoint endpoint ∧ extractPortFromEndpoint endpoint ≤ 65535) ∧
    (endpoint.data.length ≤ hugeWid →
      extractPortFromEndpoint endpoint = earliestPort scannedInteger endpoint.data) := by
  refine ⟨extractPortLoop_range _ _ _, fun hlen => ?_⟩
  have h := extractPortLoop_eq_earliestPort [] endpoint.data (by simpa using hlen)
  simpa [extractPortFromEndpoint] using h

/-- C26 (amended) at `"h:0:80"`, where the first `':'` is rejected and the second gives
`80`, and at `"h: 80"`, where the white space is skipped. -/
theorem extractPortFromEndpoint_earliest_witness :
    extractPortFromEndpoint "h:0:80" = earliestPort scannedInteger "h:0:80".data ∧
    earliestPort scannedInteger "h:0:80".data = 80 ∧
    extractPortFromEndpoint "h: 80" = earliestPort scannedInteger "h: 80".data ∧
    earliestPort scannedInteger "h: 80".data = 80 :=
  ⟨(extractPortFromEndpoint_earliest "h:0:80").2 (by decide), by decide,
   (extractPortFromEndpoint_earliest "h: 80").2 (by decide), by decide⟩

/-! ## Theorems: host and port round trip -/

/-- The decimal digit characters are digits for `%d` and neither white space nor a sign. -/
theorem digit_char_props (c : Char) (hc : c ∈ "0123456789".data) :
    isDecimalDigit c = true ∧ isSpace c = false ∧ c ≠ '\n' ∧ c ≠ '\r' ∧ c ≠ '+' ∧ c ≠ '-' := by
  have hall : ∀ d ∈ "0123456789".data,
      isDecimalDigit d = true ∧ isSpace d = false ∧ d ≠ '\n' ∧ d ≠ '\r' ∧ d ≠ '+' ∧ d ≠ '-' := by
    decide
  exact hall c hc

/-- The character of a digit below ten is a decimal digit character with that value. -/
theorem digitChar_props (k : Nat) (hk : k < 10) :
    Nat.digitChar k ∈ "0123456789".data ∧ (Nat.digitChar k).toNat - '0'.toNat = k := by
  have hall : ∀ j, j < 10 →
      Nat.digitChar j ∈ "0123456789".data ∧ (Nat.digitChar j).toNat - '0'.toNat = j := by
    decide
  exact hall k hk

/-- The value of a run of digits followed by one more digit. -/
theorem digitsValue_append (pre : List Char) (d : Char) :
    digitsValue (pre ++ [d]) = 10 * digitsValue pre + (d.toNat - '0'.toNat) := by
  simp [digitsValue, List.foldl_append]

/-- With enough fuel, `Nat.toDigitsCore 10` puts in front of `ds` a non-empty run of decimal
digit characters whose value is `n`. -/
theorem toDigitsCore_spec (fuel n : Nat) (ds : List Char) (h : n < fuel) :
    ∃ pre, Nat.toDigitsCore 10 fuel n ds = pre ++ ds ∧ pre ≠ [] ∧
      (∀ c ∈ pre, c ∈ "0123456789".data) ∧ digitsValue pre = n := by
  induction fuel generalizing n ds with
  | zero => omega
  | succ fuel ih =>
    obtain ⟨hd1, hd2⟩ := digitChar_props (n % 10) (Nat.mod_lt _ (by decide))
    unfold Nat.toDigitsCore
    dsimp only
    by_cases hq : n / 10 = 0
    · rw [if_pos hq]
      refine ⟨[Nat.digitChar (n % 10)], rfl, by simp, ?_, ?_⟩
      · intro c hc
        rw [List.mem_singleton.mp hc]
        exact hd1
      · have hn : n % 10 = n := by omega
        have := digitsValue_append [] (Nat.digitChar (n % 10))
        simp only [List.nil_append] at this
        rw [this, hd2]
        simp [digitsValue, hn]
    · rw [if_neg hq]
      obtain ⟨pre, hpre, hne, hdig, hval⟩ :=
        ih (n / 10) (Nat.digitChar (n % 10) :: ds) (by omega)
      refine ⟨pre ++ [Nat.digitChar (n % 10)], ?_, by simp, ?_, ?_⟩
      · rw [hpre]
        simp
      · intro c hc
        rcases List.mem_append.mp hc with hc | hc
        · exact hdig c hc
        · rw [List.mem_singleton.mp hc]
          exact hd1
      · rw [digitsValue_append, hval, hd2]
        omega

/-- The scan of `%d` reads a non-empty run of decimal digit characters as its value. -/
theorem scannedInteger_digits (pre : List Char) (hne : pre ≠ [])
    (hdig : ∀ c ∈ pre, c ∈ "0123456789".data) :
    scannedInteger pre = some (digitsValue pre : Int) := by
  cases pre with
  | nil => exact absurd rfl hne
  | cons c rest =>
    obtain ⟨_, h2, h3, h4, h5, h6⟩ := digit_char_props c (hdig c (List.mem_cons_self _ _))
    have hskip : SkipSpace (c :: rest) = some (c :: rest) := by
      rw [SkipSpace, if_neg (fun h => h4 h.1), if_neg h3]
      simp [h2]
    have htake : (c :: rest).takeWhile isDecimalDigit = c :: rest :=
      List.takeWhile_eq_self_iff.mpr (fun d hd => (digit_char_props d (hdig d hd)).1)
    have hsign : ¬ (c = '+' ∨ c = '-') := fun h => h.elim h5 h6
    unfold scannedInteger
    rw [hskip]
    simp only [leadingInteger]
    rw [if_neg hsign, htake, if_neg (List.cons_ne_nil _ _), if_neg h6]

/-- The scan of `%d` reads the decimal representation of a number as that number. -/
theorem scannedInteger_repr (p : Nat) :
    scannedInteger (toString p).data = some (p : Int) := by
  obtain ⟨pre, hpre, hne, hdig, hval⟩ := toDigitsCore_spec (p + 1) p [] (by omega)
  have hdata : (toString p).data = pre := by
    show (Nat.toDigits 10 p) = pre
    unfold Nat.toDigits
    rw [hpre]
    simp
  rw [hdata, scannedInteger_digits pre hne hdig, hval]

/-- The runes before the first `':'` contain no `':'`. -/
theorem colon_not_mem_takeWhile (l : List Char) : ':' ∉ l.takeWhile (fun c => c != ':') := by
  intro h
  have := List.mem_takeWhile_imp h
  simp at this

/-- C27: host and port round trip.  For every host string `h` containing no `':'` and every
integer `p` with `1 ≤ p ≤ 65535`, on the endpoint `h ++ ":" ++ decimal(p)`
`extractIPFromEndpoint` returns `h` and `extractPortFromEndpoint` returns `p`; and
`extractIPFromEndpoint` is idempotent on every string (its result contains no `':'`). -/
theorem endpoint_round_trip :
    (∀ (h : String) (p : Nat), ':' ∉ h.data → 1 ≤ p → p ≤ 65535 →
      extractIPFromEndpoint (h ++ ":" ++ toString p) = h ∧
      extractPortFromEndpoint (h ++ ":" ++ toString p) = (p : Int)) ∧
    (∀ s : String,
      extractIPFromEndpoint (extractIPFromEndpoint s) = extractIPFromEndpoint s ∧
      ':' ∉ (extractIPFromEndpoint s).data) := by
  refine ⟨fun h p hh hp1 hp2 => ?_, fun s => ?_⟩
  · have hsplit : (h ++ ":" ++ toString p).data = h.data ++ ':' :: (toString p).data := by
      simp [String.data_append]
    have hlen : (toString p).data.length ≤ hugeWid := by
      have h5 : (Nat.repr p).length ≤ 5 := Nat.repr_length p 5 (by decide) (by omega)
      have h30 : 5 ≤ hugeWid := by decide
      exact le_trans h5 h30
    refine ⟨?_, ?_⟩
    · rw [extractIPFromEndpoint_eq_takeWhile, hsplit, takeWhile_ne_colon_append _ _ hh]
    · rw [extractPortFromEndpoint_at_first_colon _ h.data (toString p).data hh hsplit,
        port_test_eq _ hlen, scannedInteger_repr]
      have hp : 0 < (p : Int) ∧ (p : Int) ≤ 65535 := by omega
      simp only [hp, and_self, if_true]
  · have hno := colon_not_mem_takeWhile s.data
    rw [extractIPFromEndpoint_eq_takeWhile s, extractIPFromEndpoint_eq_takeWhile]
    exact ⟨by rw [takeWhile_ne_colon_self _ hno], hno⟩

/-- C27 at the host `10.0.0.5` and the port `6443`. -/
theorem endpoint_round_trip_witness :
    extractIPFromEndpoint ("10.0.0.5" ++ ":" ++ toString 6443) = "10.0.0.5" ∧
    extractPortFromEndpoint ("10.0.0.5" ++ ":" ++ toString 6443) = 6443 :=
  endpoint_round_trip.1 "10.0.0.5" 6443 (by decide) (by decide) (by decide)

/-! ## Theorems: the probe does not return reachable -/

/-- An invocation on a live, accepted resource in whose trace the probe returned `(c, e)` is
`reconcileNormal` on the resource with the finalizer, and `(c, e)` is what the probe
returned there. -/
theorem Reconcile_probed {W : Type} (P : Platform) (H : Hooks) (R : Remote W)
    (req : String) (as : AdoptedServer) (w : W) (c : Bool) (e : Option String)
    (hget : P.Get req = GetResult.found as)
    (hdel : Time.IsZero as.DeletionTimestamp = true) (hacc : as.Spec.Accepted = true)
    (hprobe : Effect.checkTalosConnectivity c e
      ∈ (Reconcile P H R req (World.start w)).world.trace) :
    H.checkTalosConnectivity (conditions.MarkTrue P.clock.adopted
        (AddFinalizer as adoptedServerFinalizer) ConditionAdopted) = (c, e) ∧
    Reconcile P H R req (World.start w)
      = deferred (reconcileNormal P H R (AddFinalizer as adoptedServerFinalizer)
          (afterFinalizer as (World.start w))) := by
  cases hhelper : P.NewHelper as with
  | some err => simp [Reconcile, hget, hhelper, World.start] at hprobe
  | none =>
    rw [Reconcile_found P H R req as _ hget hhelper] at hprobe ⊢
    have hp := mem_probes _ _ _ hprobe
    rw [probes_log _ (Effect.deferredPatch _) rfl] at hp
    cases href : P.GetReference as with
    | some err => simp [reconcileLoaded, href, World.probes, World.start] at hp
    | none =>
      have key : ∀ (as1 : AdoptedServer) (σ1 : World W), as1.Spec.Accepted = true →
          σ1.probes = [] →
          Effect.checkTalosConnectivity c e ∈ (checkAccepted P H R as1 σ1).world.probes →
          H.checkTalosConnectivity (conditions.MarkTrue P.clock.adopted as1 ConditionAdopted)
            = (c, e) ∧
          checkAccepted P H R as1 σ1 = reconcileNormal P H R as1 σ1 := by
        intro as1 σ1 hacc1 hσ1 hmem
        rw [checkAccepted_accepted P H R as1 σ1 hacc1] at hmem ⊢
        obtain ⟨s1, _, _, _⟩ := reconcileNormal_spec P H R as1 σ1
        rw [s1, hσ1] at hmem
        simp only [List.nil_append, List.mem_singleton, Effect.checkTalosConnectivity.injEq] at hmem
        exact ⟨Prod.ext hmem.1.symm hmem.2.symm, rfl⟩
      by_cases hc : ContainsFinalizer as adoptedServerFinalizer = true
      · rw [reconcileLoaded_with_finalizer P H R as _ href hdel hc] at hp ⊢
        obtain ⟨k1, k2⟩ := key as (World.start w) hacc rfl hp
        have hin : afterFinalizer as (World.start w) = World.start w := by
          unfold afterFinalizer
          rw [if_pos hc]
        rw [hin, AddFinalizer_of_contains as _ hc, k2]
        exact ⟨k1, rfl⟩
      · cases hpatch : P.Patch (AddFinalizer as adoptedServerFinalizer) with
        | some err =>
          simp [reconcileLoaded, href, hdel, hc, hpatch, World.probes, World.start, World.log,
            Effect.isProbe] at hp
        | none =>
          rw [reconcileLoaded_add_finalizer P H R as _ href hdel hc hpatch] at hp ⊢
          have hacc1 : (AddFinalizer as adoptedServerFinalizer).Spec.Accepted = true := by
            rw [(AddFinalizer_frame as adoptedServerFinalizer).1]; exact hacc
          obtain ⟨k1, k2⟩ := key (AddFinalizer as adoptedServerFinalizer)
            ((World.start w).log (Effect.patch (AddFinalizer as adoptedServerFinalizer))) hacc1
            (probes_log (World.start w) (Effect.patch _) rfl) hp
          have hin : afterFinalizer as (World.start w)
              = (World.start w).log (Effect.patch (AddFinalizer as adoptedServerFinalizer)) := by
            unfold afterFinalizer
            rw [if_neg hc]
          rw [hin, k2]
          exact ⟨k1, rfl⟩

/-- When the probe fails or returns unreachable, `reconcileNormal` returns no error and the
health-check interval, and adds to the trace the probe call and one warning, nothing
else. -/
theorem reconcileNormal_not_reachable_return {W : Type} (P : Platform) (H : Hooks)
    (R : Remote W) (as : AdoptedServer) (σ : World W) (c : Bool) (e : Option String)
    (hprobe : H.checkTalosConnectivity (conditions.MarkTrue P.clock.adopted as ConditionAdopted)
      = (c, e))
    (hfail : e ≠ none ∨ c = false) :
    (reconcileNormal P H R as σ).result = { RequeueAfter := healthCheckInterval } ∧
    (reconcileNormal P H R as σ).err = none ∧
    ∃ reason message, (reconcileNormal P H R as σ).world.trace
      = σ.trace ++ [Effect.checkTalosConnectivity c e,
          Effect.event EventTypeWarning reason message] := by
  simp only [reconcileNormal, hprobe]
  cases e with
  | some err =>
    exact ⟨rfl, rfl, "ConnectivityCheckFailed", "Failed to check Talos API connectivity: " ++ err,
      by simp [World.Event, World.log]⟩
  | none =>
    rcases hfail with h | h
    · exact absurd rfl h
    · subst h
      exact ⟨rfl, rfl, "Unreachable", "Talos API endpoint is not reachable",
        by simp [World.Event, World.log]⟩

/-- The resource that a failed probe leaves has a `Connected` condition with the state of
`probeCondition`, and `Connected` and `Ready` cleared. -/
theorem markNotConnected_spec (P : Platform) (a : AdoptedServer) (e : Option String) :
    (∃ cond, conditions.Get (markNotConnected P a e) ConditionConnected = some cond ∧
      conditions.HasSameState cond (probeCondition P e) = true) ∧
    (markNotConnected P a e).Status.Connected = false ∧
    (markNotConnected P a e).Status.Ready = false := by
  refine ⟨?_, rfl, rfl⟩
  have htype : (probeCondition P e).Type_ = ConditionConnected := by cases e <;> rfl
  obtain ⟨cond, hget, hstate⟩ := Get_Set P.clock.connected
    (conditions.MarkTrue P.clock.adopted a ConditionAdopted) (probeCondition P e)
  rw [htype] at hget
  exact ⟨cond, hget, hstate⟩

/-- C22: for every accepted resource with no deletion timestamp on which the invocation
calls the probe and gets `(c, e)` with an error (`e ≠ nil`) or not reachable without error
(`c = false`): when the probe returned an error the `Connected` condition is `False` with
reason `ConnectivityCheckFailed` and severity `Error`; when it returned not reachable
without error, the condition is `False` with reason `Unreachable` and severity `Warning`; in
both cases `Status.Connected` and `Status.Ready` are false afterwards, the invocation
returns no error and the health-check interval as requeue delay, and none of the later
steps runs: the trace has no gather, health-check, link-setup or remote-sync call and no
request to the registry. -/
theorem Reconcile_not_reachable {W : Type} (P : Platform) (H : Hooks) (R : Remote W)
    (req : String) (as : AdoptedServer) (w : W) (c : Bool) (e : Option String)
    (hget : P.Get req = GetResult.found as)
    (hdel : Time.IsZero as.DeletionTimestamp = true) (hacc : as.Spec.Accepted = true)
    (hprobe : Effect.checkTalosConnectivity c e
      ∈ (Reconcile P H R req (World.start w)).world.trace)
    (hfail : e ≠ none ∨ c = false) :
    ∃ as', (Reconcile P H R req (World.start w)).as = some as' ∧
      (∃ cond, conditions.Get as' ConditionConnected = some cond ∧
        cond.Status = ConditionFalse ∧
        (∀ err, e = some err →
          cond.Reason = "ConnectivityCheckFailed" ∧ cond.Severity = ConditionSeverityError) ∧
        (e = none → cond.Reason = "Unreachable" ∧ cond.Severity = ConditionSeverityWarning)) ∧
      as'.Status.Connected = false ∧ as'.Status.Ready = false ∧
      (Reconcile P H R req (World.start w)).err = none ∧
      (Reconcile P H R req (World.start w)).result = { RequeueAfter := healthCheckInterval } ∧
      ∀ x ∈ (Reconcile P H R req (World.start w)).world.trace,
        x ≠ Effect.gatherNodeInfo ∧ x ≠ Effect.performHealthCheck ∧
        x ≠ Effect.setupSideroLink ∧ x ≠ Effect.syncWithManagementAPI ∧
        ∀ r, x ≠ Effect.request r := by
  obtain ⟨hp, hrec⟩ := Reconcile_probed P H R req as w c e hget hdel hacc hprobe
  obtain ⟨r1, r2, reason, message, r3⟩ := reconcileNormal_not_reachable_return P H R
    (AddFinalizer as adoptedServerFinalizer) (afterFinalizer as (World.start w)) c e hp hfail
  have r4 := reconcileNormal_not_reachable P H R
    (AddFinalizer as adoptedServerFinalizer) (afterFinalizer as (World.start w)) c e hp hfail
  obtain ⟨⟨cond, hcond, hstate⟩, m2, m3⟩ :=
    markNotConnected_spec P (AddFinalizer as adoptedServerFinalizer) e
  rw [hrec]
  refine ⟨_, rfl, ?_, ?_, ?_, r2, r1, ?_⟩
  · show ∃ cond, conditions.Get (reconcileNormal P H R _ _).as ConditionConnected = some cond ∧ _
    rw [r4]
    refine ⟨cond, hcond, ?_, ?_, ?_⟩
    · cases e <;>
        simp only [conditions.HasSameState, probeCondition, conditions.FalseCondition,
          Bool.and_eq_true, beq_iff_eq] at hstate <;> exact hstate.1.1.1.2
    · intro err he
      subst he
      simp only [conditions.HasSameState, probeCondition, conditions.FalseCondition,
        Bool.and_eq_true, beq_iff_eq] at hstate
      exact ⟨hstate.1.1.2, hstate.1.2⟩
    · intro he
      subst he
      simp only [conditions.HasSameState, probeCondition, conditions.FalseCondition,
        Bool.and_eq_true, beq_iff_eq] at hstate
      exact ⟨hstate.1.1.2, hstate.1.2⟩
  · show (reconcileNormal P H R _ _).as.Status.Connected = false
    rw [r4]
    exact m2
  · show (reconcileNormal P H R _ _).as.Status.Ready = false
    rw [r4]
    exact m3
  · intro x hx
    have hx' : x ∈ (afterFinalizer as (World.start w)).trace
        ++ [Effect.checkTalosConnectivity c e, Effect.event EventTypeWarning reason message]
        ++ [Effect.deferredPatch (reconcileNormal P H R (AddFinalizer as adoptedServerFinalizer)
              (afterFinalizer as (World.start w))).as] := by
      rw [← r3]
      exact hx
    have hfin : ∀ y ∈ (afterFinalizer as (World.start w)).trace,
        y = Effect.patch (AddFinalizer as adoptedServerFinalizer) := by
      intro y hy
      unfold afterFinalizer at hy
      split at hy
      · simp [World.start] at hy
      · simpa [World.start, World.log] using hy
    simp only [List.mem_append, List.mem_cons, List.mem_singleton, List.not_mem_nil,
      or_false] at hx'
    rcases hx' with (hx' | hx' | hx') | hx'
    · rw [hfin x hx']
      exact ⟨nofun, nofun, nofun, nofun, fun _ => nofun⟩
    · rw [hx']
      exact ⟨nofun, nofun, nofun, nofun, fun _ => nofun⟩
    · rw [hx']
      exact ⟨nofun, nofun, nofun, nofun, fun _ => nofun⟩
    · rw [hx']
      exact ⟨nofun, nofun, nofun, nofun, fun _ => nofun⟩

/-- C22 on the sample resource, accepted, with a probe that fails with `timeout` and with a
probe that returns not reachable. -/
theorem Reconcile_not_reachable_witness :
    (∃ as', (Reconcile (samplePlatform (sampleServer [] none true none) none none)
        (probeHooks sampleClock (false, some "timeout")) (sampleRemote "c-1") "node-1"
        (World.start 0)).as = some as' ∧
      (∃ cond, conditions.Get as' ConditionConnected = some cond ∧
        cond.Status = ConditionFalse ∧ cond.Reason = "ConnectivityCheckFailed" ∧
        cond.Severity = ConditionSeverityError) ∧
      as'.Status.Connected = false ∧ as'.Status.Ready = false) ∧
    (∃ as', (Reconcile (samplePlatform (sampleServer [] none true none) none none)
        (probeHooks sampleClock (false, none)) (sampleRemote "c-1") "node-1"
        (World.start 0)).as = some as' ∧
      (∃ cond, conditions.Get as' ConditionConnected = some cond ∧
        cond.Status = ConditionFalse ∧ cond.Reason = "Unreachable" ∧
        cond.Severity = ConditionSeverityWarning) ∧
      as'.Status.Connected = false ∧ as'.Status.Ready = false) := by
  refine ⟨?_, ?_⟩
  · obtain ⟨as', h1, ⟨cond, c1, c2, c3, _⟩, h3, h4, _⟩ := Reconcile_not_reachable
      (samplePlatform (sampleServer [] none true none) none none)
      (probeHooks sampleClock (false, some "timeout")) (sampleRemote "c-1") "node-1"
      (sampleServer [] none true none) 0 false (some "timeout") rfl rfl rfl (by decide)
      (Or.inl nofun)
    exact ⟨as', h1, ⟨cond, c1, c2, (c3 _ rfl).1, (c3 _ rfl).2⟩, h3, h4⟩
  · obtain ⟨as', h1, ⟨cond, c1, c2, _, c4⟩, h3, h4, _⟩ := Reconcile_not_reachable
      (samplePlatform (sampleServer [] none true none) none none)
      (probeHooks sampleClock (false, none)) (sampleRemote "c-1") "node-1"
      (sampleServer [] none true none) 0 false none rfl rfl rfl (by decide) (Or.inr rfl)
    exact ⟨as', h1, ⟨cond, c1, c2, (c4 rfl).1, (c4 rfl).2⟩, h3, h4⟩

/-! ## Theorems: what holds of the condition list after `Reconcile` -/

/-- The steps after a successful probe keep every property of the condition list that
`conditions.Set` and `conditions.Delete` keep. -/
theorem afterConnected_conditions {W : Type} (Inv : List Condition → Prop)
    (hSet : ∀ (now : Time) (a : AdoptedServer) (c : Condition),
      Inv a.Status.Conditions → Inv (conditions.Set now a c).Status.Conditions)
    (hDel : ∀ (a : AdoptedServer) (t : String),
      Inv a.Status.Conditions → Inv (conditions.Delete a t).Status.Conditions)
    (P : Platform) (H : Hooks) (R : Remote W) (m : AdoptedServer) (σ : World W)
    (hinv : Inv m.Status.Conditions) :
    Inv (afterConnected P H R m σ).as.Status.Conditions := by
  have hL : ∀ (a : AdoptedServer) (τ : World W), Inv a.Status.Conditions →
      Inv (stepSideroLink P H a τ).1.Status.Conditions := by
    intro a τ ha
    by_cases hon : sideroLinkEnabled a = true
    · rw [stepSideroLink_enabled P H a τ hon]
      exact hSet _ (linkSetup H a) _ ha
    · rw [stepSideroLink_disabled P H a τ (by simpa using hon)]
      exact hDel a _ ha
  have hM : ∀ (a : AdoptedServer) (τ : World W), Inv a.Status.Conditions →
      Inv (stepManagementAPI P R a τ).1.Status.Conditions := by
    intro a τ ha
    by_cases hon : managementAPIEnabled a = true
    · unfold managementAPIEnabled at hon
      cases hcfg : a.Spec.ManagementAPI with
      | none => rw [hcfg] at hon; cases hon
      | some cfg =>
        rw [hcfg] at hon
        dsimp only at hon
        rw [stepManagementAPI_enabled P R a cfg τ hcfg hon]
        have hst := (syncWithManagementAPI_frame R a cfg (τ.log Effect.syncWithManagementAPI)).1
        exact hSet _ _ _ (by rw [hst]; exact ha)
    · rw [stepManagementAPI_disabled P R a τ (by simpa using hon)]
      exact hDel a _ ha
  unfold afterConnected
  dsimp only
  exact hM _ _ (hL _ _ hinv)

/-- The acceptance check and `reconcileNormal` keep every property of the condition list
that `conditions.Set` and `conditions.Delete` keep. -/
theorem checkAccepted_conditions {W : Type} (Inv : List Condition → Prop)
    (hSet : ∀ (now : Time) (a : AdoptedServer) (c : Condition),
      Inv a.Status.Conditions → Inv (conditions.Set now a c).Status.Conditions)
    (hDel : ∀ (a : AdoptedServer) (t : String),
      Inv a.Status.Conditions → Inv (conditions.Delete a t).Status.Conditions)
    (P : Platform) (H : Hooks) (R : Remote W) (a : AdoptedServer) (σ : World W)
    (hinv : Inv a.Status.Conditions) :
    Inv (checkAccepted P H R a σ).as.Status.Conditions := by
  by_cases hacc : a.Spec.Accepted = true
  · rw [checkAccepted_accepted P H R a σ hacc]
    rcases hp : H.checkTalosConnectivity
      (conditions.MarkTrue P.clock.adopted a ConditionAdopted) with ⟨c, e⟩
    by_cases hok : e = none ∧ c = true
    · obtain ⟨he, hc⟩ := hok
      subst he hc
      rw [reconcileNormal_reachable P H R a σ hp]
      refine afterConnected_conditions Inv hSet hDel P H R _ _ ?_
      exact hSet _ _ _ (hSet _ a _ hinv)
    · have hfail : e ≠ none ∨ c = false := by
        by_cases he : e = none
        · right
          cases c with
          | false => rfl
          | true => exact absurd ⟨he, rfl⟩ hok
        · exact Or.inl he
      rw [reconcileNormal_not_reachable P H R a σ c e hp hfail]
      exact hSet _ _ _ (hSet _ a _ hinv)
  · rw [checkAccepted_markNotAccepted P H R a σ (by simpa using hacc)]
    exact hSet _ { a with Status := { a.Status with Ready := false } } _ hinv

/-- Every property of the condition list that `conditions.Set` and `conditions.Delete` keep
holds after `Reconcile` when it held of the resource that was loaded. -/
theorem Reconcile_conditions {W : Type} (Inv : List Condition → Prop)
    (hSet : ∀ (now : Time) (a : AdoptedServer) (c : Condition),
      Inv a.Status.Conditions → Inv (conditions.Set now a c).Status.Conditions)
    (hDel : ∀ (a : AdoptedServer) (t : String),
      Inv a.Status.Conditions → Inv (conditions.Delete a t).Status.Conditions)
    (P : Platform) (H : Hooks) (R : Remote W) (req : String) (as : AdoptedServer)
    (σ : World W) (hget : P.Get req = GetResult.found as)
    (hinv : Inv as.Status.Conditions) :
    ∃ as', (Reconcile P H R req σ).as = some as' ∧ Inv as'.Status.Conditions := by
  cases hhelper : P.NewHelper as with
  | some err => exact ⟨as, by simp [Reconcile, hget, hhelper], hinv⟩
  | none =>
    rw [Reconcile_found P H R req as _ hget hhelper]
    refine ⟨_, rfl, ?_⟩
    cases href : P.GetReference as with
    | some err =>
      have : (reconcileLoaded P H R as σ).as = as := by simp [reconcileLoaded, href]
      rw [this]
      exact hinv
    | none =>
      by_cases hdel : Time.IsZero as.DeletionTimestamp = true
      · by_cases hc : ContainsFinalizer as adoptedServerFinalizer = true
        · rw [reconcileLoaded_with_finalizer P H R as _ href hdel hc]
          exact checkAccepted_conditions Inv hSet hDel P H R as σ hinv
        · have hinv1 : Inv (AddFinalizer as adoptedServerFinalizer).Status.Conditions := by
            rw [(AddFinalizer_frame as adoptedServerFinalizer).2.1]
            exact hinv
          cases hpatch : P.Patch (AddFinalizer as adoptedServerFinalizer) with
          | some err =>
            have : (reconcileLoaded P H R as σ).as = AddFinalizer as adoptedServerFinalizer := by
              simp [reconcileLoaded, href, hdel, hc, hpatch]
            rw [this]
            exact hinv1
          | none =>
            rw [reconcileLoaded_add_finalizer P H R as _ href hdel hc hpatch]
            exact checkAccepted_conditions Inv hSet hDel P H R _ _ hinv1
      · have hdel' : Time.IsZero as.DeletionTimestamp = false := by simpa using hdel
        have : reconcileLoaded P H R as σ = reconcileDelete P H R as σ := by
          simp only [reconcileLoaded, href, hdel', Bool.not_false, if_true]
        rw [this, (reconcileDelete_as P H R as σ).1]
        exact hinv

/-- The loop of `conditions.Set` keeps the types of the list, entry by entry. -/
theorem map_Type_setLoop (now : Time) (c : Condition) (l : List Condition) :
    (conditions.setLoop now c l).1.map (fun x => x.Type_) = l.map (fun x => x.Type_) := by
  induction l with
  | nil => rfl
  | cons x rest ih =>
    unfold conditions.setLoop
    by_cases hx : x.Type_ = c.Type_
    · rw [if_pos hx]
      by_cases hs : conditions.HasSameState x c = true
      · simp [hs]
      · simp [hs, hx]
    · rw [if_neg hx]
      simp only [List.cons, List.map_cons, ih]

/-- The flag of the loop of `conditions.Set` says whether the list has an entry of the
type. -/
theorem setLoop_flag (now : Time) (c : Condition) (l : List Condition) :
    (conditions.setLoop now c l).2 = true ↔ c.Type_ ∈ l.map (fun x => x.Type_) := by
  induction l with
  | nil => simp [conditions.setLoop]
  | cons x rest ih =>
    unfold conditions.setLoop
    by_cases hx : x.Type_ = c.Type_
    · rw [if_pos hx]
      by_cases hs : conditions.HasSameState x c = true
      · simp [hs, hx]
      · simp [hs, hx]
    · rw [if_neg hx]
      have hx' : ¬ c.Type_ = x.Type_ := fun e => hx e.symm
      simp only [ih, List.map_cons, List.mem_cons, hx', false_or]

/-- The types after `conditions.Set`: those before, when the type was there, and those
before with the type added, when it was not (up to the order, which is that of the
sort). -/
theorem map_Type_Set (now : Time) (a : AdoptedServer) (c : Condition) :
    ((conditions.Set now a c).Status.Conditions.map (fun x => x.Type_)).Perm
      (if c.Type_ ∈ a.Status.Conditions.map (fun x => x.Type_)
        then a.Status.Conditions.map (fun x => x.Type_)
        else a.Status.Conditions.map (fun x => x.Type_) ++ [c.Type_]) := by
  have hflag := setLoop_flag now c a.Status.Conditions
  have htypes := map_Type_setLoop now c a.Status.Conditions
  simp only [conditions.Set, AdoptedServer.SetConditions, AdoptedServer.GetConditions,
    conditions.sortConditions]
  refine ((List.perm_insertionSort _ _).map _).trans ?_
  by_cases hmem : c.Type_ ∈ a.Status.Conditions.map (fun x => x.Type_)
  · rw [if_pos hmem, if_pos (hflag.mpr hmem), htypes]
  · have hf : ¬ (conditions.setLoop now c a.Status.Conditions).2 = true :=
      fun h => hmem (hflag.mp h)
    rw [if_neg hmem, if_neg hf, List.map_append, htypes]
    rfl

/-- The function `conditions.Set` keeps the condition list at one entry per type. -/
theorem Set_nodup (now : Time) (a : AdoptedServer) (c : Condition)
    (h : (a.Status.Conditions.map (fun x => x.Type_)).Nodup) :
    ((conditions.Set now a c).Status.Conditions.map (fun x => x.Type_)).Nodup := by
  rw [(map_Type_Set now a c).nodup_iff]
  by_cases hmem : c.Type_ ∈ a.Status.Conditions.map (fun x => x.Type_)
  · rw [if_pos hmem]
    exact h
  · rw [if_neg hmem]
    exact List.Nodup.append h (List.nodup_singleton _)
      (by simpa [List.Disjoint] using hmem)

/-- The function `conditions.Delete` keeps the condition list at one entry per type. -/
theorem Delete_nodup (a : AdoptedServer) (t : String)
    (h : (a.Status.Conditions.map (fun x => x.Type_)).Nodup) :
    ((conditions.Delete a t).Status.Conditions.map (fun x => x.Type_)).Nodup :=
  List.Nodup.sublist ((List.filter_sublist _).map _) h

/-- C23: the status condition list holds at most one entry per condition type.  For every
resource that is loaded with a condition list of at most one entry per type, after the
`Reconcile` invocation the list still has at most one entry per type; and marking a
condition (`conditions.Set`, which `MarkTrue` and `MarkFalse` call for `Adopted`,
`Connected`, `SideroLinkReady` and `ManagementAPISync`) on such a list leaves one entry per
type, overwrites the prior entry of that type rather than adding a second one (when the
type was there the types of the list are the same afterwards), and leaves the entry of the
type with the state that was set. -/
theorem Reconcile_one_condition_per_type {W : Type} (P : Platform) (H : Hooks)
    (R : Remote W) (req : String) (as : AdoptedServer) (σ : World W)
    (hget : P.Get req = GetResult.found as)
    (hone : (as.Status.Conditions.map (fun x => x.Type_)).Nodup) :
    (∃ as', (Reconcile P H R req σ).as = some as' ∧
      (as'.Status.Conditions.map (fun x => x.Type_)).Nodup) ∧
    (∀ (now : Time) (a : AdoptedServer) (c : Condition),
      (a.Status.Conditions.map (fun x => x.Type_)).Nodup →
      ((conditions.Set now a c).Status.Conditions.map (fun x => x.Type_)).Nodup ∧
      (c.Type_ ∈ a.Status.Conditions.map (fun x => x.Type_) →
        ((conditions.Set now a c).Status.Conditions.map (fun x => x.Type_)).Perm
          (a.Status.Conditions.map (fun x => x.Type_)) ∧
        (conditions.Set now a c).Status.Conditions.length = a.Status.Conditions.length) ∧
      ∃ e, conditions.Get (conditions.Set now a c) c.Type_ = some e ∧
        conditions.HasSameState e c = true) := by
  refine ⟨Reconcile_conditions (fun l => (l.map (fun x => x.Type_)).Nodup)
    Set_nodup Delete_nodup P H R req as σ hget hone, fun now a c ha => ?_⟩
  refine ⟨Set_nodup now a c ha, fun hmem => ?_, Get_Set now a c⟩
  have hperm := map_Type_Set now a c
  rw [if_pos hmem] at hperm
  refine ⟨hperm, ?_⟩
  have hlen := hperm.length_eq
  simpa using hlen

/-- C23 on the sample resource that carries the link and sync conditions of an earlier
invocation, with link monitoring and remote sync enabled. -/
theorem Reconcile_one_condition_per_type_witness :
    ∃ as', (Reconcile
        (samplePlatform (linkedServer [] none true (some (sampleConfig "c-1"))) none none)
        (sourceHooks sampleClock) (sampleRemote "c-1") "node-1" (World.start 0)).as = some as' ∧
      (as'.Status.Conditions.map (fun x => x.Type_)).Nodup :=
  (Reconcile_one_condition_per_type
    (samplePlatform (linkedServer [] none true (some (sampleConfig "c-1"))) none none)
    (sourceHooks sampleClock) (sampleRemote "c-1") "node-1"
    (linkedServer [] none true (some (sampleConfig "c-1"))) (World.start 0) rfl (by decide)).1

/-! ## Theorems: the `Ready` event -/

/-- Logging an effect that is not a `Ready` event leaves the `Ready` events as they are. -/
theorem readyEvents_log {W : Type} (σ : World W) (e : Effect) (h : e.isReadyEvent = false) :
    (σ.log e).readyEvents = σ.readyEvents := by
  simp [World.readyEvents, World.log, List.filter_append, h]

/-- Recording an event that is not a normal `Ready` event leaves the `Ready` events as they
are. -/
theorem readyEvents_Event {W : Type} (σ : World W) (eventtype reason message : String)
    (h : (Effect.event eventtype reason message).isReadyEvent = false) :
    (σ.Event eventtype reason message).readyEvents = σ.readyEvents :=
  readyEvents_log σ _ h

/-- A world whose trace grew by effects none of which is a `Ready` event has the same
`Ready` events. -/
theorem readyEvents_of_trace {W : Type} (σ σ1 : World W) (u : List Effect)
    (h : σ1.trace = σ.trace ++ u) (hu : ∀ e ∈ u, e.isReadyEvent = false) :
    σ1.readyEvents = σ.readyEvents := by
  have hnil : u.filter Effect.isReadyEvent = [] := by
    rw [List.filter_eq_nil_iff]
    intro e he
    simp [hu e he]
  simp [World.readyEvents, h, List.filter_append, hnil]

/-- A call of `doRequest` records no event. -/
theorem doRequest_readyEvents {W ρ : Type} (R : Remote W) (c : Client) (method : Method)
    (path : String) (body : Option RequestBody) (unmarshal : String → Except String ρ)
    (σ : World W) :
    (doRequest R c method path body unmarshal σ).2.readyEvents = σ.readyEvents :=
  readyEvents_of_trace σ _ _ (doRequest_trace R c method path body unmarshal σ)
    (by simp [Effect.isReadyEvent])

/-- The method `SyncAdoptedServer` records no event. -/
theorem SyncAdoptedServer_readyEvents {W : Type} (R : Remote W) (s : SyncService)
    (as : AdoptedServer) (σ : World W) :
    (s.SyncAdoptedServer R as σ).2.2.readyEvents = σ.readyEvents := by
  cases hcfg : as.Spec.ManagementAPI with
  | none => simp [SyncService.SyncAdoptedServer, hcfg]
  | some cfg =>
    by_cases hen : cfg.Enabled = true
    · by_cases hid : cfg.ClusterID = ""
      · have hb := SyncAdoptedServer_register_branch R s as cfg σ hcfg hen hid
        rcases hres : s.registerCluster R as cfg σ with ⟨r, σ1⟩
        cases r with
        | error err =>
          exact readyEvents_of_trace σ _ _ (hb.1 err σ1 hres).2 (by simp [Effect.isReadyEvent])
        | ok resp =>
          exact readyEvents_of_trace σ _ _ (hb.2 resp σ1 hres).2 (by simp [Effect.isReadyEvent])
      · obtain ⟨_, h2⟩ := SyncAdoptedServer_update_branch R s as cfg σ hcfg hen hid
        rcases h2 with h2 | h2 <;>
          exact readyEvents_of_trace σ _ _ h2 (by simp [Effect.isReadyEvent])
    · simp [SyncService.SyncAdoptedServer, hcfg, hen]

/-- The method `syncWithManagementAPI` records no event. -/
theorem syncWithManagementAPI_readyEvents {W : Type} (R : Remote W) (as : AdoptedServer)
    (cfg : ManagementAPIConfig) (σ : World W) :
    (syncWithManagementAPI R as cfg σ).2.2.readyEvents = σ.readyEvents := by
  unfold syncWithManagementAPI
  cases hclient : NewClient R cfg.Endpoint [] with
  | error err => simp
  | ok client =>
    dsimp only
    have hh : (client.HealthCheck R σ).2.readyEvents = σ.readyEvents :=
      doRequest_readyEvents R client Method.GET "/health" none
        R.unmarshalHealthCheckResponse σ
    rcases hhealth : client.HealthCheck R σ with ⟨r, σ1⟩
    rw [hhealth] at hh
    cases r with
    | error err => exact hh
    | ok resp =>
      dsimp only
      have h2 := SyncAdoptedServer_readyEvents R (NewSyncService client) as σ1
      rcases hsync : (NewSyncService client).SyncAdoptedServer R as σ1 with ⟨e, as1, σ2⟩
      rw [hsync] at h2
      cases e <;> exact h2.trans hh

/-- Step 4 records no `Ready` event, whether SideroLink is enabled or not and whether its
setup fails or not. -/
theorem stepSideroLink_readyEvents {W : Type} (P : Platform) (H : Hooks) (as : AdoptedServer)
    (σ : World W) :
    (stepSideroLink P H as σ).2.readyEvents = σ.readyEvents := by
  unfold stepSideroLink
  cases hlink : as.Spec.SideroLink with
  | none => rfl
  | some link =>
    dsimp only
    by_cases hen : link.Enabled = true
    · rw [if_pos hen]
      cases herr : (H.setupSideroLink as).2.2 with
      | none =>
        dsimp only
        exact readyEvents_log σ _ rfl
      | some err =>
        dsimp only
        exact (readyEvents_Event _ EventTypeWarning "SideroLinkSetupFailed" _
          (by simp [Effect.isReadyEvent, EventTypeWarning, EventTypeNormal])).trans
          (readyEvents_log σ _ rfl)
    · rw [if_neg hen]

/-- Step 5 records no `Ready` event, whether the integration is enabled or not and whether
the sync fails or not. -/
theorem stepManagementAPI_readyEvents {W : Type} (P : Platform) (R : Remote W)
    (as : AdoptedServer) (σ : World W) :
    (stepManagementAPI P R as σ).2.readyEvents = σ.readyEvents := by
  unfold stepManagementAPI
  cases hcfg : as.Spec.ManagementAPI with
  | none => rfl
  | some cfg =>
    dsimp only
    by_cases hen : cfg.Enabled = true
    · rw [if_pos hen]
      have h2 := syncWithManagementAPI_readyEvents R as cfg (σ.log Effect.syncWithManagementAPI)
      rw [readyEvents_log σ Effect.syncWithManagementAPI rfl] at h2
      rcases hsync : syncWithManagementAPI R as cfg (σ.log Effect.syncWithManagementAPI)
        with ⟨e, as1, σ1⟩
      rw [hsync] at h2
      cases e with
      | none =>
        dsimp only
        exact h2
      | some err =>
        dsimp only
        exact (readyEvents_Event _ EventTypeWarning "ManagementAPISyncFailed" _
          (by simp [Effect.isReadyEvent, EventTypeWarning, EventTypeNormal])).trans h2
    · rw [if_neg hen]

/-- The end of `reconcileNormal` records the `Ready` event exactly when `Status.Connected`
is true, which is the `Status.Ready` it leaves; the prior `Status.Ready` is not read. -/
theorem finishNormal_readyEvents {W : Type} (as : AdoptedServer) (σ : World W) :
    (finishNormal as σ).world.readyEvents
      = σ.readyEvents ++ (if as.Status.Connected = true then [readyEvent] else []) := by
  unfold finishNormal
  dsimp only
  by_cases hc : as.Status.Connected = true
  · rw [if_pos hc, if_pos hc]
    simp [World.readyEvents, World.Event, List.filter_append, Effect.isReadyEvent, readyEvent]
  · rw [if_neg hc, if_neg hc]
    simp

/-- The part of `reconcileNormal` after a successful probe records the `Ready` event exactly
when `Status.Connected` is true at its start, whatever steps 2 to 5 do. -/
theorem afterConnected_readyEvents {W : Type} (P : Platform) (H : Hooks) (R : Remote W)
    (as : AdoptedServer) (σ : World W) :
    (afterConnected P H R as σ).world.readyEvents
      = σ.readyEvents ++ (if as.Status.Connected = true then [readyEvent] else []) := by
  have g1 := (stepGatherNodeInfo_frame H as σ).1
  have g2 : (stepGatherNodeInfo H as σ).2.readyEvents = σ.readyEvents :=
    readyEvents_log σ _ rfl
  have c1 := (stepHealthCheck_frame H (stepGatherNodeInfo H as σ).1
    (stepGatherNodeInfo H as σ).2).1
  have c2 : (stepHealthCheck H (stepGatherNodeInfo H as σ).1
      (stepGatherNodeInfo H as σ).2).2.readyEvents
        = (stepGatherNodeInfo H as σ).2.readyEvents :=
    readyEvents_log _ _ rfl
  have l1 := (stepSideroLink_frame P H
    (stepHealthCheck H (stepGatherNodeInfo H as σ).1 (stepGatherNodeInfo H as σ).2).1
    (stepHealthCheck H (stepGatherNodeInfo H as σ).1 (stepGatherNodeInfo H as σ).2).2).1
  have l2 := stepSideroLink_readyEvents P H
    (stepHealthCheck H (stepGatherNodeInfo H as σ).1 (stepGatherNodeInfo H as σ).2).1
    (stepHealthCheck H (stepGatherNodeInfo H as σ).1 (stepGatherNodeInfo H as σ).2).2
  have m1 := (stepManagementAPI_frame P R
    (stepSideroLink P H
      (stepHealthCheck H (stepGatherNodeInfo H as σ).1 (stepGatherNodeInfo H as σ).2).1
      (stepHealthCheck H (stepGatherNodeInfo H as σ).1 (stepGatherNodeInfo H as σ).2).2).1
    (stepSideroLink P H
      (stepHealthCheck H (stepGatherNodeInfo H as σ).1 (stepGatherNodeInfo H as σ).2).1
      (stepHealthCheck H (stepGatherNodeInfo H as σ).1 (stepGatherNodeInfo H as σ).2).2).2).1
  have m2 := stepManagementAPI_readyEvents P R
    (stepSideroLink P H
      (stepHealthCheck H (stepGatherNodeInfo H as σ).1 (stepGatherNodeInfo H as σ).2).1
      (stepHealthCheck H (stepGatherNodeInfo H as σ).1 (stepGatherNodeInfo H as σ).2).2).1
    (stepSideroLink P H
      (stepHealthCheck H (stepGatherNodeInfo H as σ).1 (stepGatherNodeInfo H as σ).2).1
      (stepHealthCheck H (stepGatherNodeInfo H as σ).1 (stepGatherNodeInfo H as σ).2).2).2
  unfold afterConnected
  dsimp only
  rw [finishNormal_readyEvents, m2, l2, c2, g2, m1, l1, c1, g1]

/-- The method `reconcileNormal` records the `Ready` event once when it leaves
`Status.Ready` true and not at all when it leaves it false; the `Status.Ready` it was given
plays no part. -/
theorem reconcileNormal_readyEvents {W : Type} (P : Platform) (H : Hooks) (R : Remote W)
    (as : AdoptedServer) (σ : World W) :
    (reconcileNormal P H R as σ).world.readyEvents
      = σ.readyEvents
        ++ (if (reconcileNormal P H R as σ).as.Status.Ready = true then [readyEvent]
            else []) := by
  rcases hp : H.checkTalosConnectivity (conditions.MarkTrue P.clock.adopted as ConditionAdopted)
    with ⟨c, e⟩
  by_cases hfail : e ≠ none ∨ c = false
  · have hready : (reconcileNormal P H R as σ).as.Status.Ready = false := by
      rw [reconcileNormal_not_reachable P H R as σ c e hp hfail]
      rfl
    obtain ⟨_, _, reason, message, htrace⟩ :=
      reconcileNormal_not_reachable_return P H R as σ c e hp hfail
    rw [hready]
    simp only [Bool.false_eq_true, if_false, List.append_nil]
    exact readyEvents_of_trace σ _ _ htrace
      (by simp [Effect.isReadyEvent, EventTypeWarning, EventTypeNormal])
  · have he : e = none := by
      by_contra h
      exact hfail (Or.inl h)
    have hc : c = true := by
      cases c
      · exact absurd (Or.inr rfl) hfail
      · rfl
    subst he hc
    have hready : (reconcileNormal P H R as σ).as.Status.Ready = true :=
      ((reconcileNormal_spec P H R as σ).2.2.2 (by rw [hp]) (by rw [hp])).2
    rw [hready, if_pos rfl, reconcileNormal_reachable P H R as σ hp,
      afterConnected_readyEvents]
    have hconn : (markConnected P as).Status.Connected = true := rfl
    rw [if_pos hconn, readyEvents_log σ (Effect.checkTalosConnectivity true none) rfl]

/-- The acceptance check and what follows it record the `Ready` event once when they leave
`Status.Ready` true and not at all when they leave it false. -/
theorem checkAccepted_readyEvents {W : Type} (P : Platform) (H : Hooks) (R : Remote W)
    (as : AdoptedServer) (σ : World W) :
    (checkAccepted P H R as σ).world.readyEvents
      = σ.readyEvents
        ++ (if (checkAccepted P H R as σ).as.Status.Ready = true then [readyEvent]
            else []) := by
  by_cases hacc : as.Spec.Accepted = true
  · rw [checkAccepted_accepted P H R as σ hacc]
    exact reconcileNormal_readyEvents P H R as σ
  · have hacc' : as.Spec.Accepted = false := by simpa using hacc
    obtain ⟨_, _, hw, hr, _⟩ := checkAccepted_not_accepted P H R as σ hacc'
    rw [hw, hr]
    simp

/-- The first cleanup block of `reconcileDelete` records no `Ready` event. -/
theorem cleanupManagementAPI_readyEvents {W : Type} (R : Remote W) (as : AdoptedServer)
    (σ : World W) :
    (cleanupManagementAPI R as σ).readyEvents = σ.readyEvents := by
  unfold cleanupManagementAPI
  cases hcfg : as.Spec.ManagementAPI with
  | none => rfl
  | some cfg =>
    dsimp only
    by_cases hen : cfg.Enabled = true
    · rw [if_pos hen]
      have hun : ∀ σ0 : World W,
          (unregisterFromManagementAPI R as cfg σ0).2 = σ0 := by
        intro σ0
        unfold unregisterFromManagementAPI
        cases NewClient R cfg.Endpoint [] <;> rfl
      rcases hres : unregisterFromManagementAPI R as cfg
        (σ.log Effect.unregisterFromManagementAPI) with ⟨e, σ1⟩
      have hσ1 : σ1 = σ.log Effect.unregisterFromManagementAPI := by
        have := hun (σ.log Effect.unregisterFromManagementAPI)
        rw [hres] at this
        exact this
      cases e with
      | none =>
        dsimp only
        rw [hσ1]
        exact readyEvents_log σ _ rfl
      | some err =>
        dsimp only
        rw [hσ1]
        exact (readyEvents_Event _ EventTypeWarning "UnregisterFailed" _
          (by simp [Effect.isReadyEvent, EventTypeWarning, EventTypeNormal])).trans
          (readyEvents_log σ _ rfl)
    · rw [if_neg hen]

/-- The second cleanup block of `reconcileDelete` records no `Ready` event. -/
theorem cleanupSideroLink_readyEvents {W : Type} (H : Hooks) (as : AdoptedServer)
    (σ : World W) :
    (cleanupSideroLink H as σ).readyEvents = σ.readyEvents := by
  unfold cleanupSideroLink
  cases hlink : as.Spec.SideroLink with
  | none => rfl
  | some link =>
    dsimp only
    by_cases hen : link.Enabled = true
    · rw [if_pos hen]
      cases H.teardownSideroLink as with
      | none => exact readyEvents_log σ _ rfl
      | some err =>
        exact (readyEvents_Event _ EventTypeWarning "SideroLinkTeardownFailed" _
          (by simp [Effect.isReadyEvent, EventTypeWarning, EventTypeNormal])).trans
          (readyEvents_log σ _ rfl)
    · rw [if_neg hen]

/-- The method `reconcileDelete` records no `Ready` event: its only normal event has the
reason `Deleted`. -/
theorem reconcileDelete_readyEvents {W : Type} (P : Platform) (H : Hooks) (R : Remote W)
    (as : AdoptedServer) (σ : World W) :
    (reconcileDelete P H R as σ).world.readyEvents = σ.readyEvents := by
  have hclean : (cleanupSideroLink H as (cleanupManagementAPI R as σ)).readyEvents
      = σ.readyEvents :=
    (cleanupSideroLink_readyEvents H as _).trans (cleanupManagementAPI_readyEvents R as σ)
  by_cases hfin : ContainsFinalizer as adoptedServerFinalizer = true
  · rw [reconcileDelete_with_finalizer P H R as σ hfin]
    cases P.Update (RemoveFinalizer as adoptedServerFinalizer) with
    | some err =>
      dsimp only
      exact (readyEvents_log _ (Effect.update (RemoveFinalizer as adoptedServerFinalizer))
        rfl).trans hclean
    | none =>
      dsimp only
      exact (readyEvents_Event _ EventTypeNormal "Deleted" _
        (by simp [Effect.isReadyEvent, EventTypeNormal])).trans
        ((readyEvents_log _ (Effect.update (RemoveFinalizer as adoptedServerFinalizer))
          rfl).trans hclean)
  · have hfin' : ContainsFinalizer as adoptedServerFinalizer = false := by simpa using hfin
    have hret : reconcileDelete P H R as σ
        = { result := {}, err := none, as := as, world := σ } := by
      unfold reconcileDelete
      rw [hfin']
      rfl
    rw [hret]

/-- The code that runs after the patch is deferred records the `Ready` event at most once,
and only when it leaves `Status.Ready` true. -/
theorem reconcileLoaded_readyEvents {W : Type} (P : Platform) (H : Hooks) (R : Remote W)
    (as : AdoptedServer) (σ : World W) :
    (reconcileLoaded P H R as σ).world.readyEvents = σ.readyEvents ∨
    ((reconcileLoaded P H R as σ).world.readyEvents = σ.readyEvents ++ [readyEvent] ∧
      (reconcileLoaded P H R as σ).as.Status.Ready = true) := by
  have hchk : ∀ (a : AdoptedServer) (σ0 : World W), σ0.readyEvents = σ.readyEvents →
      ((checkAccepted P H R a σ0).world.readyEvents = σ.readyEvents ∨
        ((checkAccepted P H R a σ0).world.readyEvents = σ.readyEvents ++ [readyEvent] ∧
          (checkAccepted P H R a σ0).as.Status.Ready = true)) := by
    intro a σ0 h0
    have h := checkAccepted_readyEvents P H R a σ0
    rw [h0] at h
    by_cases hr : (checkAccepted P H R a σ0).as.Status.Ready = true
    · rw [if_pos hr] at h
      exact Or.inr ⟨h, hr⟩
    · rw [if_neg hr, List.append_nil] at h
      exact Or.inl h
  unfold reconcileLoaded
  cases href : P.GetReference as with
  | some err => exact Or.inl rfl
  | none =>
    dsimp only
    by_cases hdel : Time.IsZero as.DeletionTimestamp = true
    · rw [hdel]
      simp only [Bool.not_true, Bool.false_eq_true, if_false]
      by_cases hc : ContainsFinalizer as adoptedServerFinalizer = true
      · rw [hc]
        simp only [Bool.not_true, Bool.false_eq_true, if_false]
        exact hchk as σ rfl
      · have hc' : ContainsFinalizer as adoptedServerFinalizer = false := by simpa using hc
        rw [hc']
        simp only [Bool.not_false, if_true]
        cases hpatch : P.Patch (AddFinalizer as adoptedServerFinalizer) with
        | some err =>
          exact Or.inl (readyEvents_log σ
            (Effect.patch (AddFinalizer as adoptedServerFinalizer)) rfl)
        | none =>
          exact hchk _ _ (readyEvents_log σ
            (Effect.patch (AddFinalizer as adoptedServerFinalizer)) rfl)
    · have hdel' : Time.IsZero as.DeletionTimestamp = false := by simpa using hdel
      rw [hdel']
      simp only [Bool.not_false, if_true]
      exact Or.inl (reconcileDelete_readyEvents P H R as σ)

/-- One invocation of `Reconcile` records the `Ready` event at most once, and when it
records it the resource it leaves has `Status.Ready` true. -/
theorem Reconcile_readyEvents {W : Type} (P : Platform) (H : Hooks) (R : Remote W)
    (req : String) (w : W) :
    (Reconcile P H R req (World.start w)).world.readyEvents = [] ∨
    ((Reconcile P H R req (World.start w)).world.readyEvents = [readyEvent] ∧
      ∃ as', (Reconcile P H R req (World.start w)).as = some as' ∧
        as'.Status.Ready = true) := by
  unfold Reconcile
  cases hget : P.Get req with
  | notFound => exact Or.inl rfl
  | failed err => exact Or.inl rfl
  | found as =>
    dsimp only
    cases hhelper : P.NewHelper as with
    | some err => exact Or.inl rfl
    | none =>
      dsimp only
      have hlog : ((reconcileLoaded P H R as (World.start w)).world.log
          (Effect.deferredPatch (reconcileLoaded P H R as (World.start w)).as)).readyEvents
          = (reconcileLoaded P H R as (World.start w)).world.readyEvents :=
        readyEvents_log _ _ rfl
      rw [hlog]
      rcases reconcileLoaded_readyEvents P H R as (World.start w) with h | ⟨h, hr⟩
      · exact Or.inl h
      · exact Or.inr ⟨h, _, rfl, hr⟩

/-- A `Ready` event that is in the trace is among the `Ready` events. -/
theorem mem_readyEvents {W : Type} (σ : World W) (x : Effect) (h : x ∈ σ.trace)
    (hx : x.isReadyEvent = true) : x ∈ σ.readyEvents := by
  simp [World.readyEvents, List.mem_filter, h, hx]

/-- C21 fails on an invocation that finds `Status.Ready` already true: the first invocation
on the sample resource (accepted, live, probe reachable) leaves `Status.Ready` true, and
the invocation that follows it with nothing changed from outside loads that resource and
records the normal `Ready` event again. -/
theorem Reconcile_ready_event_repeated :
    ∃ as1,
      (Reconcile (samplePlatform (sampleServer [] none true none) none none)
        (sourceHooks sampleClock) (sampleRemote "c-1") "node-1" (World.start 0)).as
        = some as1 ∧
      as1.Status.Ready = true ∧
      (nextPlatform (samplePlatform (sampleServer [] none true none) none none) "node-1" as1
        laterClock).Get "node-1" = GetResult.found as1 ∧
      Effect.event EventTypeNormal "Ready" "AdoptedServer is ready and being monitored"
        ∈ (ReconcileAgain (samplePlatform (sampleServer [] none true none) none none)
            (sourceHooks laterClock) (sampleRemote "c-1") "node-1" laterClock
            (Reconcile (samplePlatform (sampleServer [] none true none) none none)
              (sourceHooks sampleClock) (sampleRemote "c-1") "node-1"
              (World.start 0))).world.trace :=
  ⟨_, rfl, by decide, rfl, by decide⟩

/-- C21 (amended): the normal `Ready` event is recorded by a `Reconcile` invocation only if
`Status.Ready` is true after it, and at most once; what `Status.Ready` was before the
invocation plays no part.  Every normal event with reason `Ready` in the trace of an
invocation is the event of `reconcileNormal`, the invocation then leaves a resource with
`Status.Ready` true, and the trace holds at most one such event.  On every accepted resource
with no deletion timestamp on which the invocation calls the probe and gets `true, nil`, the
invocation records the event exactly once, whether `Status.Ready` was false or already
true when the resource was loaded. -/
theorem Reconcile_ready_event {W : Type} (P : Platform) (H : Hooks) (R : Remote W)
    (req : String) (w : W) :
    (∀ x ∈ (Reconcile P H R req (World.start w)).world.trace, x.isReadyEvent = true →
      x = readyEvent ∧
      ∃ as', (Reconcile P H R req (World.start w)).as = some as' ∧
        as'.Status.Ready = true) ∧
    (Reconcile P H R req (World.start w)).world.readyEvents.length ≤ 1 ∧
    (∀ as : AdoptedServer, P.Get req = GetResult.found as →
      Time.IsZero as.DeletionTimestamp = true → as.Spec.Accepted = true →
      Effect.checkTalosConnectivity true none
        ∈ (Reconcile P H R req (World.start w)).world.trace →
      (Reconcile P H R req (World.start w)).world.readyEvents = [readyEvent]) := by
  refine ⟨fun x hx hready => ?_, ?_, fun as hget hdel hacc hprobe => ?_⟩
  · have hmem := mem_readyEvents _ x hx hready
    rcases Reconcile_readyEvents P H R req w with h | ⟨h, hr⟩
    · rw [h] at hmem
      exact absurd hmem (List.not_mem_nil x)
    · rw [h] at hmem
      exact ⟨List.mem_singleton.mp hmem, hr⟩
  · rcases Reconcile_readyEvents P H R req w with h | ⟨h, _⟩
    · rw [h]
      exact Nat.zero_le 1
    · rw [h]
      exact Nat.le_refl 1
  · obtain ⟨hp, heq⟩ := Reconcile_probed P H R req as w true none hget hdel hacc hprobe
    rw [heq]
    have hlog : (deferred (reconcileNormal P H R (AddFinalizer as adoptedServerFinalizer)
          (afterFinalizer as (World.start w)))).world.readyEvents
        = (reconcileNormal P H R (AddFinalizer as adoptedServerFinalizer)
          (afterFinalizer as (World.start w))).world.readyEvents :=
      readyEvents_log _ (Effect.deferredPatch _) rfl
    have hr : (reconcileNormal P H R (AddFinalizer as adoptedServerFinalizer)
        (afterFinalizer as (World.start w))).as.Status.Ready = true :=
      ((reconcileNormal_spec P H R (AddFinalizer as adoptedServerFinalizer)
        (afterFinalizer as (World.start w))).2.2.2 (by rw [hp]) (by rw [hp])).2
    have hstart : (afterFinalizer as (World.start w)).readyEvents = [] := by
      unfold afterFinalizer
      split
      · rfl
      · exact readyEvents_log (World.start w)
          (Effect.patch (AddFinalizer as adoptedServerFinalizer)) rfl
    rw [hlog, reconcileNormal_readyEvents, hr, if_pos rfl, hstart]
    rfl

/-- C21 (amended) on the sample resource, loaded with `Status.Ready` already true: the
invocation records the `Ready` event once. -/
theorem Reconcile_ready_event_witness :
    (sampleServer [] none true none).Status.Ready = true ∧
    (Reconcile (samplePlatform (sampleServer [] none true none) none none)
      (sourceHooks sampleClock) (sampleRemote "c-1") "node-1"
      (World.start 0)).world.readyEvents = [readyEvent] :=
  ⟨rfl, (Reconcile_ready_event (samplePlatform (sampleServer [] none true none) none none)
    (sourceHooks sampleClock) (sampleRemote "c-1") "node-1" 0).2.2
    (sampleServer [] none true none) rfl rfl rfl (by decide)⟩

/-! ## Theorems: claims that rest on the order `sort.Slice` leaves -/

/-- Two conditions neither of which comes before the other in the order of
`lexicographicLess` have the same type. -/
theorem lexicographicLess_antisymm (a b : Condition)
    (hab : conditions.lexicographicLess b a = false)
    (hba : conditions.lexicographicLess a b = false) : a.Type_ = b.Type_ := by
  rw [lexicographicLess_eq_false_iff] at hab hba
  rcases hab with ha | ⟨hb, hnlt⟩
  · rcases hba with hb | ⟨ha', _⟩
    · exact ha.trans hb.symm
    · exact absurd ha ha'
  · rcases hba with hb' | ⟨_, hnlt'⟩
    · exact absurd hb' hb
    · exact String.ext (le_antisymm (not_lt.mp hnlt) (not_lt.mp hnlt'))

/-- On a list with at most one entry per type, `sortConditions` is `sort.Slice` whatever
the algorithm: every rearrangement of the list that is in the order of `lexicographicLess`
(what `sort.Slice` returns, be it by insertion sort or by quicksort) is the list that
`sortConditions` returns. -/
theorem sortConditions_exact (l sorted : List Condition)
    (hperm : sorted.Perm l)
    (hsorted : sorted.Pairwise (fun x y => conditions.lexicographicLess y x = false))
    (hone : (l.map (fun x => x.Type_)).Nodup) :
    sorted = conditions.sortConditions l := by
  have hperm2 : (conditions.sortConditions l).Perm l := List.perm_insertionSort _ l
  refine List.Perm.eq_of_sorted ?_ hsorted (sortConditions_sorted l)
    (hperm.trans hperm2.symm)
  intro a b ha hb hab hba
  exact List.inj_on_of_nodup_map hone (hperm.subset ha) (hperm2.subset hb)
    (lexicographicLess_antisymm a b hab hba)

/-- C7 (amended): for every resource with no deletion timestamp and `Spec.Accepted = false`
that is loaded, for which the patch helper and the object reference are created, that
carries the finalizer already or whose finalizer patch succeeds, and whose condition list
has at most one entry per type (the lists on which the order `sort.Slice` leaves is fixed,
`sortConditions_exact`): whatever its prior status otherwise, after `Reconcile`
`Status.Ready` is false and the `Adopted` condition is `False` with reason `NotAccepted` and
severity `Info`; the invocation returns no error with the default requeue delay, its only
effects are the store patches (no probe, no health check, no link setup, no remote sync, no
notification), and the condition list still has at most one entry per type, so that the
`Adopted` entry found is the only one. -/
theorem Reconcile_not_accepted {W : Type} (P : Platform) (H : Hooks) (R : Remote W)
    (req : String) (as : AdoptedServer) (w : W)
    (hget : P.Get req = GetResult.found as) (hhelper : P.NewHelper as = none)
    (href : P.GetReference as = none)
    (hdel : Time.IsZero as.DeletionTimestamp = true) (hacc : as.Spec.Accepted = false)
    (hfin : ContainsFinalizer as adoptedServerFinalizer = true ∨
      P.Patch (AddFinalizer as adoptedServerFinalizer) = none)
    (hone : (as.Status.Conditions.map (fun x => x.Type_)).Nodup) :
    ∃ as' c, (Reconcile P H R req (World.start w)).as = some as' ∧
      as'.Status.Ready = false ∧
      conditions.Get as' ConditionAdopted = some c ∧
      c.Status = ConditionFalse ∧ c.Reason = "NotAccepted" ∧
      c.Severity = ConditionSeverityInfo ∧
      (Reconcile P H R req (World.start w)).err = none ∧
      (Reconcile P H R req (World.start w)).result
        = { Requeue := false, RequeueAfter := P.DefaultRequeueAfter } ∧
      (∀ e ∈ (Reconcile P H R req (World.start w)).world.trace,
        (∃ a, e = Effect.patch a) ∨ (∃ a, e = Effect.deferredPatch a)) ∧
      (as'.Status.Conditions.map (fun x => x.Type_)).Nodup := by
  have hnd : ((reconcileLoaded P H R as (World.start w)).as.Status.Conditions.map
      (fun x => x.Type_)).Nodup := by
    obtain ⟨a0, ha0, h0⟩ := Reconcile_conditions
      (fun l => (l.map (fun x => x.Type_)).Nodup) Set_nodup Delete_nodup
      P H R req as (World.start w) hget hone
    rw [Reconcile_found P H R req as _ hget hhelper] at ha0
    cases ha0
    exact h0
  rw [Reconcile_found P H R req as _ hget hhelper]
  by_cases hc : ContainsFinalizer as adoptedServerFinalizer = true
  · obtain ⟨h1, h2, h3, h4, c, h5, h6, h7, h8⟩ :=
      checkAccepted_not_accepted P H R as (World.start w) hacc
    rw [reconcileLoaded_with_finalizer P H R as _ href hdel hc] at hnd ⊢
    refine ⟨_, c, rfl, h4, h5, h6, h7, h8, h2, h1, ?_, hnd⟩
    intro e he
    have he' : e ∈ (checkAccepted P H R as (World.start w)).world.trace ++
        [Effect.deferredPatch (checkAccepted P H R as (World.start w)).as] := he
    rw [h3] at he'
    simp only [World.start, List.nil_append, List.mem_singleton] at he'
    exact Or.inr ⟨_, he'⟩
  · have hpatch : P.Patch (AddFinalizer as adoptedServerFinalizer) = none := by
      rcases hfin with h | h
      · exact absurd h hc
      · exact h
    have hacc' : (AddFinalizer as adoptedServerFinalizer).Spec.Accepted = false := by
      rw [(AddFinalizer_frame as adoptedServerFinalizer).1]; exact hacc
    obtain ⟨h1, h2, h3, h4, c, h5, h6, h7, h8⟩ :=
      checkAccepted_not_accepted P H R (AddFinalizer as adoptedServerFinalizer)
        ((World.start w).log (Effect.patch (AddFinalizer as adoptedServerFinalizer))) hacc'
    rw [reconcileLoaded_add_finalizer P H R as _ href hdel hc hpatch] at hnd ⊢
    refine ⟨_, c, rfl, h4, h5, h6, h7, h8, h2, h1, ?_, hnd⟩
    intro e he
    have he' : e ∈ (checkAccepted P H R (AddFinalizer as adoptedServerFinalizer)
          ((World.start w).log (Effect.patch (AddFinalizer as adoptedServerFinalizer)))).world.trace
        ++ [Effect.deferredPatch (checkAccepted P H R (AddFinalizer as adoptedServerFinalizer)
          ((World.start w).log (Effect.patch (AddFinalizer as adoptedServerFinalizer)))).as] := he
    rw [h3] at he'
    simp only [World.log, World.start, List.nil_append, List.mem_append, List.mem_singleton] at he'
    rcases he' with he' | he'
    · exact Or.inl ⟨_, he'⟩
    · exact Or.inr ⟨_, he'⟩

/-- C7 (amended) on the sample resource (not accepted, no finalizer, `Ready` true, no
condition yet), the finalizer patch succeeding. -/
theorem Reconcile_not_accepted_witness :
    ∃ as' c, (Reconcile (samplePlatform (sampleServer [] none false none) none none)
        (sourceHooks sampleClock) (sampleRemote "c-1") "node-1" (World.start 0)).as = some as' ∧
      as'.Status.Ready = false ∧
      conditions.Get as' ConditionAdopted = some c ∧
      c.Status = ConditionFalse ∧ c.Reason = "NotAccepted" ∧
      c.Severity = ConditionSeverityInfo ∧
      (Reconcile (samplePlatform (sampleServer [] none false none) none none)
        (sourceHooks sampleClock) (sampleRemote "c-1") "node-1" (World.start 0)).err = none ∧
      (Reconcile (samplePlatform (sampleServer [] none false none) none none)
        (sourceHooks sampleClock) (sampleRemote "c-1") "node-1" (World.start 0)).result
        = { Requeue := false, RequeueAfter := 60 * 1000000000 } ∧
      (∀ e ∈ (Reconcile (samplePlatform (sampleServer [] none false none) none none)
        (sourceHooks sampleClock) (sampleRemote "c-1") "node-1" (World.start 0)).world.trace,
        (∃ a, e = Effect.patch a) ∨ (∃ a, e = Effect.deferredPatch a)) ∧
      (as'.Status.Conditions.map (fun x => x.Type_)).Nodup :=
  Reconcile_not_accepted (samplePlatform (sampleServer [] none false none) none none)
    (sourceHooks sampleClock) (sampleRemote "c-1") "node-1" (sampleServer [] none false none) 0
    rfl rfl rfl rfl rfl (Or.inr rfl) (by decide)

/-- C20 (amended): `Reconcile` is idempotent on status when the first invocation does not
change what the second one is given to work with.  For every resource that the first
invocation loads with a condition list of at most one entry per type (the lists on which
the order `sort.Slice` leaves is fixed, `sortConditions_exact`), on which it returns no
error and leaves the spec as it found it (no cluster identifier is back-filled, the link
setup does not rewrite the link config), with integration points that behave the same in
both invocations (`SameBehaviour`: same probe result; same node information, health and
link status but for their timestamps) and a registry whose answers are fixed by method and
path (`FixedAnswers`): the second invocation (`ReconcileAgain`: it loads what the first
left, with another clock and the registry in the state the first left it in) leaves a
status equal to the status after the first in every field that is not a timestamp, and the
same conditions, transition times included; the list the first invocation leaves, which
the second loads, has at most one entry per type again.  This covers the not-accepted path,
the three outcomes of the probe, link monitoring and remote sync enabled or not and failing
or not, and the delete path. -/
theorem Reconcile_twice_same_status {W : Type} (P : Platform) (H H2 : Hooks) (R : Remote W)
    (req : String) (as : AdoptedServer) (clock2 : Clock) (w : W)
    (hget : P.Get req = GetResult.found as)
    (herr : (Reconcile P H R req (World.start w)).err = none)
    (hspec : (Reconcile P H R req (World.start w)).as.map (fun a => a.Spec) = some as.Spec)
    (hH : SameBehaviour H H2) (hR : FixedAnswers R)
    (hone : (as.Status.Conditions.map (fun x => x.Type_)).Nodup) :
    ∃ as1 as2,
      (Reconcile P H R req (World.start w)).as = some as1 ∧
      (ReconcileAgain P H2 R req clock2 (Reconcile P H R req (World.start w))).as = some as2 ∧
      as2.Status.Conditions = as1.Status.Conditions ∧
      as2.Status.withoutTimestamps = as1.Status.withoutTimestamps ∧
      (as1.Status.Conditions.map (fun x => x.Type_)).Nodup := by
  obtain ⟨a0, ha0, hnd⟩ := Reconcile_conditions
    (fun l => (l.map (fun x => x.Type_)).Nodup) Set_nodup Delete_nodup
    P H R req as (World.start w) hget hone
  have hagain : ∀ y, (Reconcile P H R req (World.start w)).as = some y →
      ReconcileAgain P H2 R req clock2 (Reconcile P H R req (World.start w))
        = Reconcile (nextPlatform P req y clock2) H2 R req
            (World.start (Reconcile P H R req (World.start w)).world.remote) := by
    intro y hy
    unfold ReconcileAgain
    rw [hy]
  have hget2 : ∀ y, (nextPlatform P req y clock2).Get req = GetResult.found y := by
    intro y
    simp [nextPlatform]
  rcases Reconcile_first P H R req as w hget herr with ⟨hdel, h1⟩ | ⟨hdel, h1⟩
  · rw [h1] at hspec ha0
    cases ha0
    have hspec' : (checkAccepted P H R (AddFinalizer as adoptedServerFinalizer)
        (afterFinalizer as (World.start w))).as.Spec
        = (AddFinalizer as adoptedServerFinalizer).Spec :=
      (Option.some.inj hspec).trans (AddFinalizer_frame as _).1.symm
    obtain ⟨m1, m2⟩ := checkAccepted_meta P H R (AddFinalizer as adoptedServerFinalizer)
      (afterFinalizer as (World.start w))
    have hdel2 : Time.IsZero (checkAccepted P H R (AddFinalizer as adoptedServerFinalizer)
        (afterFinalizer as (World.start w))).as.DeletionTimestamp = true := by
      rw [m2, (AddFinalizer_frame as _).2.2]
      exact hdel
    have hc2 : ContainsFinalizer (checkAccepted P H R (AddFinalizer as adoptedServerFinalizer)
        (afterFinalizer as (World.start w))).as adoptedServerFinalizer = true := by
      unfold ContainsFinalizer
      rw [m1]
      exact ContainsFinalizer_AddFinalizer as _
    rcases Reconcile_live_as (nextPlatform P req _ clock2) H2 R req _
      (World.start (Reconcile P H R req (World.start w)).world.remote)
      (hget2 _) hdel2 hc2 with h2 | h2
    · exact ⟨_, _, h1, (hagain _ h1).symm ▸ h2, rfl, rfl, hnd⟩
    · obtain ⟨k1, k2⟩ := checkAccepted_twice P
        (nextPlatform P req (checkAccepted P H R (AddFinalizer as adoptedServerFinalizer)
          (afterFinalizer as (World.start w))).as clock2) H H2 R
        (AddFinalizer as adoptedServerFinalizer) (afterFinalizer as (World.start w))
        (World.start (Reconcile P H R req (World.start w)).world.remote) rfl hH hR hspec'
      exact ⟨_, _, h1, (hagain _ h1).symm ▸ h2, k1, k2, hnd⟩
  · rw [h1] at ha0
    cases ha0
    obtain ⟨_, d2, d3⟩ := reconcileDelete_as P H R as (World.start w)
    have h2 := Reconcile_deleted_as (nextPlatform P req _ clock2) H2 R req _
      (World.start (Reconcile P H R req (World.start w)).world.remote)
      (hget2 _) (d2.symm ▸ hdel) d3
    exact ⟨_, _, h1, (hagain _ h1).symm ▸ h2, rfl, rfl, hnd⟩

/-- C20 (amended) on the sample resource (no condition yet) with remote sync enabled and
the cluster identifier `c-1` already recorded, against the sample registry, with the
integration points of the source and a later clock in the second invocation. -/
theorem Reconcile_twice_same_status_witness :
    ∃ as1 as2,
      (Reconcile
        (samplePlatform (sampleServer [] none true (some (sampleConfig "c-1"))) none none)
        (sourceHooks sampleClock) (sampleRemote "c-1") "node-1" (World.start 0)).as
        = some as1 ∧
      (ReconcileAgain
        (samplePlatform (sampleServer [] none true (some (sampleConfig "c-1"))) none none)
        (sourceHooks laterClock) (sampleRemote "c-1") "node-1" laterClock
        (Reconcile
          (samplePlatform (sampleServer [] none true (some (sampleConfig "c-1"))) none none)
          (sourceHooks sampleClock) (sampleRemote "c-1") "node-1" (World.start 0))).as
        = some as2 ∧
      as2.Status.Conditions = as1.Status.Conditions ∧
      as2.Status.withoutTimestamps = as1.Status.withoutTimestamps ∧
      (as1.Status.Conditions.map (fun x => x.Type_)).Nodup :=
  Reconcile_twice_same_status
    (samplePlatform (sampleServer [] none true (some (sampleConfig "c-1"))) none none)
    (sourceHooks sampleClock) (sourceHooks laterClock) (sampleRemote "c-1") "node-1"
    (sampleServer [] none true (some (sampleConfig "c-1"))) laterClock 0
    rfl rfl rfl (sourceHooks_SameBehaviour sampleClock laterClock)
    (sampleRemote_FixedAnswers "c-1") (by decide)

end Sidero
